import Mathlib

/-!
# trash-user-api: the in-memory cache, its WebSocket manager and the rate limiter

A shallow embedding of the Go packages `cache`, `websocket` and `middleware` (the rate
limiter) and proofs about their operations.

Modelling conventions.

* `time.Time` and `time.Duration` are integers counting nanoseconds; `time.Time{}` is `0`.
  `t.Sub(u)` is `t - u` and `t.Before(u)` is `t < u`.  Every operation that reads the clock
  takes the reading as its argument `now`; the clock reads made inside one call are one instant
  (`checkAutoRefresh` takes the reading of its scan and one reading for each call of `Refresh`).
* The counters (`int64`, `int`) are unbounded integers: wrap-around needs `2^63` increments.
* A Go `map[string]*CacheEntry` is an association list; `NoDupKeys` says that no key occurs
  twice, as in every Go map, and all operations preserve it.  Go leaves the order in which
  `range` visits a map unspecified, so a function whose result depends on that order takes it
  as an argument `σ` (a list of keys: these are visited first, in that order, then the
  remaining entries); the theorems hold for every `σ`.
* The mutex is not modelled: each operation runs to completion on its own.
* `interface{}` payloads are values of a type parameter `α`; `Get` returns `none` for Go's
  `(nil, false)` and `some v` for `(v, true)`.
* `log.Printf` calls are dropped.  An event handed to `wsManager.Broadcast` is returned by the
  operation, in a list (empty when nothing was broadcast); the manager takes the events from
  its channel one after the other (`WebSocketManager.dispatchAll`).  `GetTraced` and
  `cleanupTraced` are the bodies of `Get` and `cleanup` with that list; `Get` and `cleanup`
  are their state and result.
* The manager keeps every client handed to it in a list; the flag `registered` of a client says
  that it is a key of `manager.clients`, and its channel `send` is closed exactly when the flag
  is off, since `Start` closes the channel where it deletes the key and nowhere else.  The
  queue holds events instead of their JSON encodings.  The goroutines are interleaved as steps
  (`Input`); these steps leave out the deadlines, the keep-alive probes and the `pong` answer to
  a `ping` message, which `Client.handleMessage` and `ReadPump` model on their own.
* A call that can panic or wait returns an `Outcome`.  `Routines` holds the fields of `Cache`
  used to start and stop the background loops.
* `handleMessage` takes the result of `json.Unmarshal` as its argument.  `ReadPump` follows the
  read deadline of the connection: a frame that arrives after the deadline is not read, the
  read having timed out.
* The rate limiter (`middleware/middleware.go`) keeps `requests` as an association list;
  `now.Add(-rl.window)` is `now + (-window)` and `t.After(u)` is `t > u`.
-/

namespace cache

abbrev Time := Int
abbrev Duration := Int

/-! ## Go maps with string keys -/

/-- Value stored under `key`, Go's `v, ok := m[key]`. -/
def lookup {β : Type} : List (String × β) → String → Option β
  | [], _ => none
  | (k, v) :: m, key => if k = key then some v else lookup m key

/-- Entries after `m[key] = v`: an existing key keeps its place, a new key is added. -/
def assign {β : Type} : List (String × β) → String → β → List (String × β)
  | [], key, v => [(key, v)]
  | (k, x) :: m, key, v => if k = key then (key, v) :: m else (k, x) :: assign m key v

/-- Entries after `delete(m, key)`. -/
def remove {β : Type} (m : List (String × β)) (key : String) : List (String × β) :=
  m.filter (fun p => decide (p.1 ≠ key))

/-- Keys of an association list. -/
def keysOf {β : Type} (m : List (String × β)) : List String := m.map Prod.fst

/-- Entries in the order a `range` loop visits them when the runtime picks the order `σ`. -/
def visit {β : Type} : List (String × β) → List String → List (String × β)
  | m, [] => m
  | m, k :: σ =>
    match lookup m k with
    | some v => (k, v) :: visit (remove m k) σ
    | none => visit m σ

/-! ## Data model -/

structure CacheEntry (α : Type) where
  Data : α
  Timestamp : Time
  TTL : Duration
  Hits : Int
  LastRefresh : Time
  AutoRefresh : Bool
  RefreshInterval : Duration

structure CacheStats where
  Hits : Int
  Misses : Int
  Evictions : Int
  Size : Int
  LastCleanup : Time
  Refreshes : Int

/-- Payload `models.CacheUpdateEvent`; `Typ` is the Go field `Type`, `Timestamp` the instant
that the Go code formats as RFC 3339, `Data` is `none` where the Go literal sets no `Data`. -/
structure CacheUpdateEvent (α : Type) where
  Typ : String
  Key : String
  Timestamp : Time
  Data : Option α

/-- Envelope `models.WebSocketEvent` with payload type `δ`; `Typ` is the Go field `Type`. -/
structure WebSocketEvent (δ : Type) where
  Typ : String
  Data : δ
  Timestamp : Time
  GuildID : String
  UserID : String

/-- Events the cache hands to `wsManager.Broadcast`. -/
abbrev Event (α : Type) := WebSocketEvent (CacheUpdateEvent α)

/-- State of a `Cache`.  `wsManager` records whether the Go pointer is non-nil. -/
structure Cache (α : Type) where
  data : List (String × CacheEntry α)
  maxSize : Int
  defaultTTL : Duration
  cleanupInterval : Duration
  stats : CacheStats
  wsManager : Bool

/-- No key occurs twice: the list is the content of a Go map. -/
def NoDupKeys {β : Type} (m : List (String × β)) : Prop := (keysOf m).Nodup

/-- Event built by the four broadcasting operations. -/
def mkEvent {α : Type} (wsTyp typ key : String) (now : Time) (data : Option α) : Event α :=
  { Typ := wsTyp
    Data := { Typ := typ, Key := key, Timestamp := now, Data := data }
    Timestamp := now
    GuildID := ""
    UserID := "" }

/-- List of events broadcast by `if c.wsManager != nil { c.wsManager.Broadcast(e) }`. -/
def broadcast {α : Type} (c : Cache α) (e : Event α) : List (Event α) :=
  if c.wsManager then [e] else []

/-! ## Operations -/

def NewCache {α : Type} (maxSize : Int) (defaultTTL cleanupInterval : Duration) : Cache α :=
  { data := []
    maxSize := maxSize
    defaultTTL := defaultTTL
    cleanupInterval := cleanupInterval
    stats := { Hits := 0, Misses := 0, Evictions := 0, Size := 0, LastCleanup := 0, Refreshes := 0 }
    wsManager := false }

def Cache.SetWebSocketManager {α : Type} (c : Cache α) : Cache α :=
  { c with wsManager := true }

/-- One pass of the loop body of `evictOldest` over the entry `p`; `acc` is
`(oldestKey, oldestTime)`. -/
def oldestStep {α : Type} (acc : String × Time) (p : String × CacheEntry α) : String × Time :=
  if acc.1 = "" ∨ p.2.Timestamp < acc.2 then (p.1, p.2.Timestamp) else acc

/-- Values of `(oldestKey, oldestTime)` after the loop of `evictOldest` has visited `l`. -/
def oldest {α : Type} (l : List (String × CacheEntry α)) : String × Time :=
  l.foldl oldestStep ("", 0)

def Cache.evictOldest {α : Type} (c : Cache α) (σ : List String) : Cache α :=
  let oldestKey := (oldest (visit c.data σ)).1
  if oldestKey ≠ "" then
    { c with
      data := remove c.data oldestKey
      stats := { c.stats with Evictions := c.stats.Evictions + 1 } }
  else c

def Cache.SetWithAutoRefresh {α : Type} (c : Cache α) (σ : List String) (now : Time)
    (key : String) (value : α) (ttl : Duration) (autoRefresh : Bool)
    (refreshInterval : Duration) : Cache α × List (Event α) :=
  let c1 :=
    if (c.data.length : Int) ≥ c.maxSize ∧ (lookup c.data key).isNone then c.evictOldest σ
    else c
  let data := assign c1.data key
    { Data := value
      Timestamp := now
      TTL := ttl
      Hits := 0
      LastRefresh := now
      AutoRefresh := autoRefresh
      RefreshInterval := refreshInterval }
  ({ c1 with data := data, stats := { c1.stats with Size := data.length } },
    broadcast c (mkEvent "cache_update" "set" key now (some value)))

def Cache.SetWithTTL {α : Type} (c : Cache α) (σ : List String) (now : Time) (key : String)
    (value : α) (ttl : Duration) : Cache α × List (Event α) :=
  c.SetWithAutoRefresh σ now key value ttl false 0

def Cache.Set {α : Type} (c : Cache α) (σ : List String) (now : Time) (key : String)
    (value : α) : Cache α × List (Event α) :=
  c.SetWithTTL σ now key value c.defaultTTL

/-- Body of `Get`: the state after the call, the value returned, and the events the call hands
to `wsManager.Broadcast`, as the other operations return them. -/
def Cache.GetTraced {α : Type} (c : Cache α) (now : Time) (key : String) :
    Cache α × Option α × List (Event α) :=
  match lookup c.data key with
  | none => ({ c with stats := { c.stats with Misses := c.stats.Misses + 1 } }, none, [])
  | some entry =>
    if now - entry.Timestamp > entry.TTL then
      let data := remove c.data key
      ({ c with
          data := data
          stats := { c.stats with Size := data.length, Misses := c.stats.Misses + 1 } },
        none, [])
    else
      ({ c with
          data := assign c.data key { entry with Hits := entry.Hits + 1 }
          stats := { c.stats with Hits := c.stats.Hits + 1 } },
        some entry.Data, [])

/-- State after `Get` and the value it returns. -/
def Cache.Get {α : Type} (c : Cache α) (now : Time) (key : String) : Cache α × Option α :=
  ((c.GetTraced now key).1, (c.GetTraced now key).2.1)

def Cache.Refresh {α : Type} (c : Cache α) (now : Time) (key : String) :
    Cache α × List (Event α) :=
  match lookup c.data key with
  | none => (c, [])
  | some entry =>
    if !entry.AutoRefresh then (c, [])
    else
      ({ c with
          data := assign c.data key { entry with LastRefresh := now }
          stats := { c.stats with Refreshes := c.stats.Refreshes + 1 } },
        broadcast c (mkEvent "cache_refresh" "refresh" key now (some entry.Data)))

def Cache.Delete {α : Type} (c : Cache α) (now : Time) (key : String) :
    Cache α × Bool × List (Event α) :=
  match lookup c.data key with
  | some _ =>
    let data := remove c.data key
    ({ c with data := data, stats := { c.stats with Size := data.length } }, true,
      broadcast c (mkEvent "cache_delete" "delete" key now none))
  | none => (c, false, [])

def Cache.Clear {α : Type} (c : Cache α) (now : Time) : Cache α × List (Event α) :=
  ({ c with data := [], stats := { c.stats with Size := 0 } },
    broadcast c (mkEvent "cache_clear" "clear" "" now none))

def Cache.GetStats {α : Type} (c : Cache α) : CacheStats :=
  { c.stats with Size := c.data.length }

/-- Body of `cleanup`, one tick of the cleanup routine: the state after the tick and the events
the tick hands to `wsManager.Broadcast`. -/
def Cache.cleanupTraced {α : Type} (c : Cache α) (now : Time) : Cache α × List (Event α) :=
  let data := c.data.filter (fun p => !decide (now - p.2.Timestamp > p.2.TTL))
  let removed := c.data.length - data.length
  if removed > 0 then
    ({ c with data := data, stats := { c.stats with Size := data.length, LastCleanup := now } },
      [])
  else ({ c with data := data }, [])

/-- State after one tick of the cleanup routine. -/
def Cache.cleanup {α : Type} (c : Cache α) (now : Time) : Cache α :=
  (c.cleanupTraced now).1

/-! ## Sample states -/

/-- Entry with payload `v`, stored at time `ts` with time-to-live `ttl`. -/
def sampleEntry (v : Nat) (ts : Time) (ttl : Duration) (autoRefresh : Bool) : CacheEntry Nat :=
  { Data := v
    Timestamp := ts
    TTL := ttl
    Hits := 0
    LastRefresh := ts
    AutoRefresh := autoRefresh
    RefreshInterval := 0 }

/-- Store of capacity `maxSize` holding `data`, all counters zero. -/
def sampleCache (data : List (String × CacheEntry Nat)) (maxSize : Int) (wsManager : Bool) :
    Cache Nat :=
  { data := data
    maxSize := maxSize
    defaultTTL := 300
    cleanupInterval := 600
    stats := { Hits := 0, Misses := 0, Evictions := 0, Size := data.length, LastCleanup := 0,
               Refreshes := 0 }
    wsManager := wsManager }

/-! ## Sequences of operations -/

inductive Op (α : Type) where
  | SetWebSocketManager : Op α
  | Put (σ : List String) (now : Time) (key : String) (value : α) (ttl : Duration)
      (autoRefresh : Bool) (refreshInterval : Duration) : Op α
  | Get (now : Time) (key : String) : Op α
  | Delete (now : Time) (key : String) : Op α
  | Clear (now : Time) : Op α
  | Refresh (now : Time) (key : String) : Op α
  | cleanup (now : Time) : Op α

/-- State after one completed operation. -/
def Cache.step {α : Type} (c : Cache α) : Op α → Cache α
  | .SetWebSocketManager => c.SetWebSocketManager
  | .Put σ now key value ttl autoRefresh refreshInterval =>
    (c.SetWithAutoRefresh σ now key value ttl autoRefresh refreshInterval).1
  | .Get now key => (c.Get now key).1
  | .Delete now key => (c.Delete now key).1
  | .Clear now => (c.Clear now).1
  | .Refresh now key => (c.Refresh now key).1
  | .cleanup now => c.cleanup now

/-- State after a sequence of completed operations. -/
def Cache.run {α : Type} (c : Cache α) : List (Op α) → Cache α
  | [] => c
  | op :: ops => (c.step op).run ops

/-- The operation is a `Put` of the empty string as key. -/
def Op.putsEmptyKey {α : Type} : Op α → Bool
  | .Put _ _ key _ _ _ _ => decide (key = "")
  | _ => false

/-- The `Put` of `key` that led from `c` to `c2` evicted an entry: some other key is stored
in `c` and no longer in `c2`. -/
def Evicted {α : Type} (c c2 : Cache α) (key : String) : Prop :=
  ∃ k, k ≠ key ∧ lookup c.data k ≠ none ∧ lookup c2.data k = none

/-- The operation, run in state `c`, leaves alone an entry that was `Put` under `k` at time
`t0` with time-to-live `ttl`: it is no `Put`, `Delete` or `Clear` of `k`, it is no `Put`
whose eviction scan picks `k`, and where it checks the expiry of `k` (a `Get` of `k`, a
cleanup tick) the elapsed time does not exceed `ttl`. -/
def Op.keeps {α : Type} (k : String) (t0 : Time) (ttl : Duration) (c : Cache α) :
    Op α → Bool
  | .SetWebSocketManager => true
  | .Put σ _ key _ _ _ _ =>
    decide (key ≠ k) &&
      !(decide ((c.data.length : Int) ≥ c.maxSize) && (lookup c.data key).isNone &&
        decide ((oldest (visit c.data σ)).1 = k))
  | .Get now key => decide (key = k → now - t0 ≤ ttl)
  | .Delete _ key => decide (key ≠ k)
  | .Clear _ => false
  | .Refresh _ _ => true
  | .cleanup now => decide (now - t0 ≤ ttl)

/-- Every operation of the sequence, run from `c`, leaves the entry of `k` alone. -/
def undisturbed {α : Type} (k : String) (t0 : Time) (ttl : Duration) :
    Cache α → List (Op α) → Bool
  | _, [] => true
  | c, op :: ops => op.keeps k t0 ttl c && undisturbed k t0 ttl (c.step op) ops

/-- The store holds under `k` the value `v`, stored at time `t0` with time-to-live `ttl`. -/
def Cache.holds {α : Type} (c : Cache α) (k : String) (v : α) (t0 : Time) (ttl : Duration) :
    Prop :=
  ∃ e, lookup c.data k = some e ∧ e.Data = v ∧ e.Timestamp = t0 ∧ e.TTL = ttl

/-! ## The refresh scheduler tick -/

/-- Test made by the scan of `checkAutoRefresh` on one entry. -/
def dueForRefresh {α : Type} (now : Time) (entry : CacheEntry α) : Bool :=
  entry.AutoRefresh && decide (entry.RefreshInterval > 0) &&
    decide (now - entry.LastRefresh ≥ entry.RefreshInterval)

/-- Second loop of `checkAutoRefresh`, `for _, key := range toRefresh { c.Refresh(key) }`;
`clock key` is the clock reading of the call `c.Refresh(key)`. -/
def Cache.refreshAll {α : Type} (c : Cache α) (clock : String → Time) :
    List String → Cache α × List (Event α)
  | [] => (c, [])
  | key :: keys =>
    ((((c.Refresh (clock key) key).1).refreshAll clock keys).1,
      (c.Refresh (clock key) key).2 ++ (((c.Refresh (clock key) key).1).refreshAll clock keys).2)

/-- One tick of the refresh scheduler: the scan, in the order `σ`, at the clock reading `now`,
then the calls of `Refresh`. -/
def Cache.checkAutoRefresh {α : Type} (c : Cache α) (σ : List String) (now : Time)
    (clock : String → Time) : Cache α × List (Event α) :=
  let toRefresh := ((visit c.data σ).filter (fun p => dueForRefresh now p.2)).map Prod.fst
  c.refreshAll clock toRefresh

/-- Events handed to `wsManager.Broadcast` by one operation run in state `c`, as the operation
returns them.  `SetWebSocketManager` is one assignment. -/
def Cache.emitted {α : Type} (c : Cache α) : Op α → List (Event α)
  | .SetWebSocketManager => []
  | .Put σ now key value ttl autoRefresh refreshInterval =>
    (c.SetWithAutoRefresh σ now key value ttl autoRefresh refreshInterval).2
  | .Get now key => (c.GetTraced now key).2.2
  | .Delete now key => (c.Delete now key).2.2
  | .Clear now => (c.Clear now).2
  | .Refresh now key => (c.Refresh now key).2
  | .cleanup now => (c.cleanupTraced now).2

end cache

/-! # The WebSocket manager (`websocket/websocket.go`) -/

namespace websocket

open cache

/-- Capacity of the channel `send`, `make(chan []byte, 256)` in `HandleWebSocket`. -/
def sendCapacity : Nat := 256

/-- One `*Client` that has been handed to the manager.  `send` is the content of the buffered
channel, oldest message first, each message kept as the event that `eventToJSON` encodes;
`registered` says that the client is a key of `manager.clients` and its channel is open (the
loop of `Start` closes the channel exactly where it deletes the key); `id` stands for the
pointer. -/
structure Client (δ : Type) where
  id : Nat
  send : List (WebSocketEvent δ)
  registered : Bool
  userID : String
  guildID : String

/-- State of the manager: the clients handed to it so far. -/
structure WebSocketManager (δ : Type) where
  clients : List (Client δ)

def NewWebSocketManager {δ : Type} : WebSocketManager δ :=
  { clients := [] }

def shouldSendToClient {δ : Type} (event : WebSocketEvent δ) (client : Client δ) : Bool :=
  if event.GuildID ≠ "" then decide (client.guildID = event.GuildID)
  else if event.UserID ≠ "" then decide (client.userID = event.UserID)
  else true

/-- Body of the loop `for client := range manager.clients` in the broadcast case of `Start`,
for one client: the non-blocking send succeeds when the buffer has room, and otherwise the
channel is closed and the key deleted. -/
def deliver {δ : Type} (event : WebSocketEvent δ) (client : Client δ) : Client δ :=
  if client.registered then
    if shouldSendToClient event client then
      if client.send.length < sendCapacity then
        { client with send := client.send ++ [event] }
      else { client with registered := false }
    else client
  else client

/-- The event is put into the queue of the client by `deliver`. -/
def enqueues {δ : Type} (event : WebSocketEvent δ) (client : Client δ) : Bool :=
  client.registered && shouldSendToClient event client &&
    decide (client.send.length < sendCapacity)

/-- The client is dropped by `deliver`: it matches the event and its queue is full. -/
def overflows {δ : Type} (event : WebSocketEvent δ) (client : Client δ) : Bool :=
  client.registered && shouldSendToClient event client &&
    !decide (client.send.length < sendCapacity)

/-- Case `event := <-manager.broadcast` of `Start`. -/
def WebSocketManager.dispatch {δ : Type} (m : WebSocketManager δ) (event : WebSocketEvent δ) :
    WebSocketManager δ :=
  { clients := m.clients.map (deliver event) }

/-- Events taken from the channel `broadcast` one after the other. -/
def WebSocketManager.dispatchAll {δ : Type} (m : WebSocketManager δ) :
    List (WebSocketEvent δ) → WebSocketManager δ
  | [] => m
  | event :: events => (m.dispatch event).dispatchAll events

def WebSocketManager.GetConnectedClientsCount {δ : Type} (m : WebSocketManager δ) : Nat :=
  (m.clients.filter (fun c => c.registered)).length

/-- What happens to the clients, one step at a time: the three cases of the loop of `Start`
(`register` stands for `HandleWebSocket`, which builds the client with an empty queue and
hands it over), the `subscribe` and `unsubscribe` messages of `handleMessage`, and `write`,
one message taken from `send` by `writePump`. -/
inductive Input (δ : Type) where
  | register (id : Nat) (userID guildID : String) : Input δ
  | unregister (id : Nat) : Input δ
  | broadcast (event : WebSocketEvent δ) : Input δ
  | subscribe (id : Nat) (guildID : String) : Input δ
  | unsubscribe (id : Nat) : Input δ
  | write (id : Nat) : Input δ

/-- Effect of one step on a client already handed to the manager. -/
def Client.react {δ : Type} (c : Client δ) : Input δ → Client δ
  | .register _ _ _ => c
  | .unregister id => if c.id = id ∧ c.registered then { c with registered := false } else c
  | .broadcast event => deliver event c
  | .subscribe id guildID => if c.id = id then { c with guildID := guildID } else c
  | .unsubscribe id => if c.id = id then { c with guildID := "" } else c
  | .write id => if c.id = id then { c with send := c.send.tail } else c

/-- Clients that a step hands to the manager. -/
def Input.joins {δ : Type} : Input δ → List (Client δ)
  | .register id userID guildID =>
    [{ id := id, send := [], registered := true, userID := userID, guildID := guildID }]
  | _ => []

def WebSocketManager.step {δ : Type} (m : WebSocketManager δ) (inp : Input δ) :
    WebSocketManager δ :=
  { clients := m.clients.map (fun c => c.react inp) ++ inp.joins }

def WebSocketManager.run {δ : Type} (m : WebSocketManager δ) :
    List (Input δ) → WebSocketManager δ
  | [] => m
  | inp :: inps => (m.step inp).run inps

/-- State of a client after a sequence of steps. -/
def Client.run {δ : Type} (c : Client δ) : List (Input δ) → Client δ
  | [] => c
  | inp :: inps => (c.react inp).run inps

/-- Events broadcast in a sequence of steps, in the order of emission. -/
def broadcasts {δ : Type} : List (Input δ) → List (WebSocketEvent δ)
  | [] => []
  | .broadcast event :: inps => event :: broadcasts inps
  | _ :: inps => broadcasts inps

/-- Events put into the queue of the client in a sequence of steps, in the order in which
they are put there. -/
def Client.received {δ : Type} (c : Client δ) : List (Input δ) → List (WebSocketEvent δ)
  | [] => []
  | .broadcast event :: inps =>
    if enqueues event c then event :: (deliver event c).received inps
    else (deliver event c).received inps
  | inp :: inps => (c.react inp).received inps

/-- Throughout the sequence of steps the two clients are registered with the same topic
filter and neither overflows. -/
def alike {δ : Type} (a b : Client δ) : List (Input δ) → Bool
  | [] => true
  | inp :: inps =>
    a.registered && b.registered && decide (a.guildID = b.guildID) &&
      (match inp with
        | .broadcast event => !overflows event a && !overflows event b
        | _ => true) &&
      alike (a.react inp) (b.react inp) inps

/-- Client with an empty queue, registered. -/
def sampleClient (id : Nat) (userID guildID : String) : Client Nat :=
  { id := id, send := [], registered := true, userID := userID, guildID := guildID }

/-- Event with payload `d` tagged with the guild and user given. -/
def sampleEvent (d : Nat) (guildID userID : String) : WebSocketEvent Nat :=
  { Typ := "sample", Data := d, Timestamp := 0, GuildID := guildID, UserID := userID }

end websocket

namespace cache

/-! ## Start and stop of the background loops -/

/-- How a call ends in the state it is made in: it returns and leaves a state, it panics, or
it waits (it does not return before another goroutine acts). -/
inductive Outcome (σ : Type) where
  | done (s : σ) : Outcome σ
  | panics : Outcome σ
  | blocks : Outcome σ

/-- Second call made after the first has returned. -/
def Outcome.andThen {σ : Type} : Outcome σ → (σ → Outcome σ) → Outcome σ
  | .done s, f => f s
  | .panics, _ => .panics
  | .blocks, _ => .blocks

/-- What the background loops of a `Cache` share with `StartAutoRefresh`, `StopAutoRefresh`
and `Stop`: whether `refreshTicker` is non-nil, the number of goroutines that run the loop
started by `StartAutoRefresh`, the number of tickers made by `StartAutoRefresh` and not
stopped, and whether the channel `stopCleanup` is closed. -/
structure Routines where
  refreshTicker : Bool
  refreshLoops : Nat
  tickers : Nat
  stopCleanup : Bool

/-- State of these fields when `NewCache` returns. -/
def NewRoutines : Routines :=
  { refreshTicker := false, refreshLoops := 0, tickers := 0, stopCleanup := false }

def Routines.StartAutoRefresh (r : Routines) : Routines :=
  if r.refreshTicker then r
  else
    { r with refreshTicker := true, refreshLoops := r.refreshLoops + 1, tickers := r.tickers + 1 }

/-- The send `c.stopRefresh <- true` on the unbuffered channel is taken by a goroutine of the
refresh loop, which then returns; with no such goroutine the send waits for ever. -/
def Routines.StopAutoRefresh (r : Routines) : Outcome Routines :=
  if r.refreshTicker then
    if r.refreshLoops = 0 then .blocks
    else
      .done
        { r with
          refreshTicker := false
          refreshLoops := r.refreshLoops - 1
          tickers := r.tickers - 1 }
  else .done r

/-- In `Stop`, `close(c.stopCleanup)` panics when the channel is closed already. -/
def Routines.Stop (r : Routines) : Outcome Routines :=
  if r.stopCleanup then .panics
  else Routines.StopAutoRefresh { r with stopCleanup := true }

/-- The operation is a `Put` of the key `k`. -/
def Op.putsKey {α : Type} (k : String) : Op α → Bool
  | .Put _ _ key _ _ _ _ => decide (key = k)
  | _ => false

end cache

namespace websocket

open cache

/-! ## Control messages and the read deadline -/

/-- A decoded JSON value, as `json.Unmarshal` stores it in an `interface{}`; a number keeps
its literal. -/
inductive JsonValue where
  | null : JsonValue
  | bool (b : Bool) : JsonValue
  | number (literal : String) : JsonValue
  | string (s : String) : JsonValue
  | array (items : List JsonValue) : JsonValue
  | object (fields : List (String × JsonValue)) : JsonValue

/-- The type assertion `msg[key].(string)`: the string stored under `key`, if there is one. -/
def asString (msg : List (String × JsonValue)) (key : String) : Option String :=
  match lookup msg key with
  | some (.string s) => some s
  | _ => none

/-- The answer to a `ping` message, `models.WebSocketEvent{Type: "pong", Timestamp: ...}`,
whose `Data` is nil. -/
def pong {δ : Type} (now : Time) : WebSocketEvent (Option δ) :=
  { Typ := "pong", Data := none, Timestamp := now, GuildID := "", UserID := "" }

/-- The method `handleMessage`.  `decoded` is what `json.Unmarshal(message, &msg)` gives:
`none` for an error, else the map `msg`.  The send `c.send <- eventToJSON(response)` of the
`ping` case panics on a closed channel and waits while the queue is full. -/
def Client.handleMessage {δ : Type} (c : Client (Option δ)) (now : Time)
    (decoded : Option (List (String × JsonValue))) : Outcome (Client (Option δ)) :=
  match decoded with
  | none => .done c
  | some msg =>
    match asString msg "type" with
    | none => .done c
    | some msgType =>
      if msgType = "subscribe" then
        match asString msg "guild_id" with
        | some guildID => .done { c with guildID := guildID }
        | none => .done c
      else if msgType = "unsubscribe" then .done { c with guildID := "" }
      else if msgType = "ping" then
        if !c.registered then .panics
        else if c.send.length < sendCapacity then .done { c with send := c.send ++ [pong now] }
        else .blocks
      else .done c

/-- One second, `time.Second`. -/
def second : Duration := 1000000000

/-- The read deadline is set `60 * time.Second` ahead. -/
def pongWait : Duration := 60 * second

/-- What the next call of `c.conn.ReadMessage()` in `readPump` meets: a pong frame that
arrives at time `t`, for which the pong handler runs; a data message that arrives at time
`t`, which the call returns; or an error other than the timeout.  A frame that arrives
after the read deadline is not read: the call has failed with a timeout by then. -/
inductive Frame where
  | pong (t : Time) : Frame
  | message (t : Time) (decoded : Option (List (String × JsonValue))) : Frame
  | failure : Frame

/-- State of `readPump`: the client, the read deadline of the connection, and whether the
loop is still running (after `break` the client asks to be unregistered and the connection
is closed). -/
structure ReadPump (δ : Type) where
  client : Client (Option δ)
  readDeadline : Time
  reading : Bool

/-- State of `readPump` when it enters its loop at time `now`. -/
def startReadPump {δ : Type} (c : Client (Option δ)) (now : Time) : ReadPump δ :=
  { client := c, readDeadline := now + pongWait, reading := true }

/-- One turn of the loop of `readPump`. -/
def ReadPump.step {δ : Type} (p : ReadPump δ) : Frame → Outcome (ReadPump δ)
  | .pong t =>
    if !p.reading then .done p
    else if t > p.readDeadline then .done { p with reading := false }
    else .done { p with readDeadline := t + pongWait }
  | .message t decoded =>
    if !p.reading then .done p
    else if t > p.readDeadline then .done { p with reading := false }
    else
      match p.client.handleMessage t decoded with
      | .done c => .done { p with client := c }
      | .panics => .panics
      | .blocks => .blocks
  | .failure => .done { p with reading := false }

/-- Client with no payload in its events, registered, with an empty queue. -/
def sampleObserver (id : Nat) (userID guildID : String) : Client (Option Nat) :=
  { id := id, send := [], registered := true, userID := userID, guildID := guildID }

end websocket

/-! # The rate limiter (`middleware/middleware.go`) -/

namespace middleware

open cache

/-- The limiter: `requests` holds, for each client ID, the times of calls kept. -/
structure RateLimiter where
  requests : List (String × List Time)
  limit : Int
  window : Duration

def NewRateLimiter (limit : Int) (window : Duration) : RateLimiter :=
  { requests := [], limit := limit, window := window }

/-- The slice `rl.requests[clientID]`, nil for an absent key. -/
def RateLimiter.stored (rl : RateLimiter) (clientID : String) : List Time :=
  (lookup rl.requests clientID).getD []

/-- The method `IsAllowed`, called at the clock reading `now`. -/
def RateLimiter.IsAllowed (rl : RateLimiter) (now : Time) (clientID : String) :
    RateLimiter × Bool :=
  let windowStart := now + (-rl.window)
  let rl1 : RateLimiter :=
    match lookup rl.requests clientID with
    | some requests =>
      { rl with
        requests := assign rl.requests clientID
          (requests.filter (fun reqTime => decide (reqTime > windowStart))) }
    | none => rl
  if ((rl1.stored clientID).length : Int) ≥ rl.limit then (rl1, false)
  else
    ({ rl1 with requests := assign rl1.requests clientID (rl1.stored clientID ++ [now]) }, true)

/-- State after a sequence of calls, each given by its clock reading and its client ID. -/
def RateLimiter.run (rl : RateLimiter) : List (Time × String) → RateLimiter
  | [] => rl
  | call :: calls => ((rl.IsAllowed call.1 call.2).1).run calls

/-- The calls of a sequence that return true, in order. -/
def RateLimiter.admitted (rl : RateLimiter) : List (Time × String) → List (Time × String)
  | [] => []
  | call :: calls =>
    if (rl.IsAllowed call.1 call.2).2 then
      call :: ((rl.IsAllowed call.1 call.2).1).admitted calls
    else ((rl.IsAllowed call.1 call.2).1).admitted calls

/-- Times of the admitted calls of one client. -/
def RateLimiter.admittedTimes (rl : RateLimiter) (calls : List (Time × String))
    (clientID : String) : List Time :=
  ((rl.admitted calls).filter (fun q => decide (q.2 = clientID))).map Prod.fst

/-- The calls are made at non-decreasing times. -/
def nonDecreasing (calls : List (Time × String)) : Prop :=
  (calls.map Prod.fst).Pairwise (fun a b => a ≤ b)

/-- The fields of `config.RateLimitConfig`. -/
structure RateLimitConfig where
  Enabled : Bool
  RequestsPerMinute : Int
  BurstSize : Int

/-- The function `CreateRateLimiter` on the field `cfg.RateLimit`; `none` is the nil pointer.
Go's `/` on integers truncates towards zero and panics for a zero divisor. -/
def CreateRateLimiter (cfg : RateLimitConfig) : Outcome (Option RateLimiter) :=
  if !cfg.Enabled then .done none
  else if cfg.RequestsPerMinute = 0 then .panics
  else
    .done (some (NewRateLimiter cfg.BurstSize
      (Int.tdiv 60 cfg.RequestsPerMinute * websocket.second)))

end middleware

namespace cache

/-! ## State and result of `Get` and `cleanup` -/

section Bodies

variable {α : Type}

theorem Get_eq (c : Cache α) (now : Time) (key : String) :
    c.Get now key =
      match lookup c.data key with
      | none => ({ c with stats := { c.stats with Misses := c.stats.Misses + 1 } }, none)
      | some entry =>
        if now - entry.Timestamp > entry.TTL then
          let data := remove c.data key
          ({ c with
              data := data
              stats := { c.stats with Size := data.length, Misses := c.stats.Misses + 1 } },
            none)
        else
          ({ c with
              data := assign c.data key { entry with Hits := entry.Hits + 1 }
              stats := { c.stats with Hits := c.stats.Hits + 1 } },
            some entry.Data) := by
  simp only [Cache.Get, Cache.GetTraced]
  split
  · rfl
  · split <;> rfl

theorem cleanup_eq (c : Cache α) (now : Time) :
    c.cleanup now =
      let data := c.data.filter (fun p => !decide (now - p.2.Timestamp > p.2.TTL))
      let removed := c.data.length - data.length
      if removed > 0 then
        { c with data := data, stats := { c.stats with Size := data.length, LastCleanup := now } }
      else { c with data := data } := by
  simp only [Cache.cleanup, Cache.cleanupTraced]
  split <;> rfl

end Bodies

/-! ## Lemmas on maps -/

section MapLemmas

variable {β : Type}

theorem lookup_cons_self (m : List (String × β)) (key : String) (x : β) :
    lookup ((key, x) :: m) key = some x := by
  simp [lookup]

theorem lookup_cons_ne (m : List (String × β)) (k key : String) (x : β) (h : k ≠ key) :
    lookup ((k, x) :: m) key = lookup m key := by
  simp [lookup, h]

theorem assign_cons_self (m : List (String × β)) (key : String) (x v : β) :
    assign ((key, x) :: m) key v = (key, v) :: m := by
  simp [assign]

theorem assign_cons_ne (m : List (String × β)) (k key : String) (x v : β) (h : k ≠ key) :
    assign ((k, x) :: m) key v = (k, x) :: assign m key v := by
  simp [assign, h]

theorem remove_cons_self (m : List (String × β)) (key : String) (x : β) :
    remove ((key, x) :: m) key = remove m key := by
  simp [remove]

theorem remove_cons_ne (m : List (String × β)) (k key : String) (x : β) (h : k ≠ key) :
    remove ((k, x) :: m) key = (k, x) :: remove m key := by
  simp [remove, h]

theorem lookup_assign_self (m : List (String × β)) (key : String) (v : β) :
    lookup (assign m key v) key = some v := by
  induction m with
  | nil => simp [assign, lookup]
  | cons p m ih =>
    obtain ⟨k, x⟩ := p
    by_cases h : k = key
    · subst h
      rw [assign_cons_self, lookup_cons_self]
    · rw [assign_cons_ne _ _ _ _ _ h, lookup_cons_ne _ _ _ _ h, ih]

theorem lookup_assign_ne (m : List (String × β)) (key k2 : String) (v : β) (h2 : k2 ≠ key) :
    lookup (assign m key v) k2 = lookup m k2 := by
  induction m with
  | nil => simp [assign, lookup, Ne.symm h2]
  | cons p m ih =>
    obtain ⟨k, x⟩ := p
    by_cases h : k = key
    · subst h
      rw [assign_cons_self, lookup_cons_ne _ _ _ _ (Ne.symm h2),
        lookup_cons_ne _ _ _ _ (Ne.symm h2)]
    · rw [assign_cons_ne _ _ _ _ _ h]
      by_cases h3 : k = k2
      · subst h3
        rw [lookup_cons_self, lookup_cons_self]
      · rw [lookup_cons_ne _ _ _ _ h3, lookup_cons_ne _ _ _ _ h3, ih]

theorem lookup_remove_self (m : List (String × β)) (key : String) :
    lookup (remove m key) key = none := by
  induction m with
  | nil => simp [remove, lookup]
  | cons p m ih =>
    obtain ⟨k, x⟩ := p
    by_cases h : k = key
    · subst h
      rw [remove_cons_self, ih]
    · rw [remove_cons_ne _ _ _ _ h, lookup_cons_ne _ _ _ _ h, ih]

theorem lookup_remove_ne (m : List (String × β)) (key k2 : String) (h2 : k2 ≠ key) :
    lookup (remove m key) k2 = lookup m k2 := by
  induction m with
  | nil => simp [remove, lookup]
  | cons p m ih =>
    obtain ⟨k, x⟩ := p
    by_cases h : k = key
    · subst h
      rw [remove_cons_self, lookup_cons_ne _ _ _ _ (Ne.symm h2), ih]
    · rw [remove_cons_ne _ _ _ _ h]
      by_cases h3 : k = k2
      · subst h3
        rw [lookup_cons_self, lookup_cons_self]
      · rw [lookup_cons_ne _ _ _ _ h3, lookup_cons_ne _ _ _ _ h3, ih]

theorem remove_of_lookup_none (m : List (String × β)) (key : String)
    (h : lookup m key = none) : remove m key = m := by
  induction m with
  | nil => simp [remove]
  | cons p m ih =>
    obtain ⟨k, x⟩ := p
    by_cases hk : k = key
    · subst hk
      rw [lookup_cons_self] at h
      exact absurd h (by simp)
    · rw [lookup_cons_ne _ _ _ _ hk] at h
      rw [remove_cons_ne _ _ _ _ hk, ih h]

theorem length_remove_le (m : List (String × β)) (key : String) :
    (remove m key).length ≤ m.length := by
  unfold remove
  exact List.length_filter_le _ _

theorem length_remove_lt (m : List (String × β)) (key : String)
    (h : lookup m key ≠ none) : (remove m key).length < m.length := by
  induction m with
  | nil => simp [lookup] at h
  | cons p m ih =>
    obtain ⟨k, x⟩ := p
    by_cases hk : k = key
    · subst hk
      have := length_remove_le m k
      rw [remove_cons_self, List.length_cons]
      omega
    · rw [lookup_cons_ne _ _ _ _ hk] at h
      have := ih h
      rw [remove_cons_ne _ _ _ _ hk, List.length_cons, List.length_cons]
      omega

theorem length_assign (m : List (String × β)) (key : String) (v : β) :
    (assign m key v).length = if (lookup m key).isSome then m.length else m.length + 1 := by
  induction m with
  | nil => simp [assign, lookup]
  | cons p m ih =>
    obtain ⟨k, x⟩ := p
    by_cases hk : k = key
    · simp [assign, lookup, hk]
    · simp only [assign, lookup, hk, if_false, List.length_cons, ih]
      split <;> rfl

theorem visit_nil (σ : List String) : visit ([] : List (String × β)) σ = [] := by
  induction σ with
  | nil => rfl
  | cons k σ ih => simp [visit, lookup, ih]

theorem lookup_filter_of_pos (m : List (String × β)) (f : String × β → Bool) (key : String)
    (v : β) (h : lookup m key = some v) (hf : f (key, v) = true) :
    lookup (m.filter f) key = some v := by
  induction m with
  | nil => simp [lookup] at h
  | cons p m ih =>
    obtain ⟨k, x⟩ := p
    by_cases hk : k = key
    · subst hk
      rw [lookup_cons_self] at h
      have hx : x = v := by simpa using h
      subst hx
      rw [List.filter_cons_of_pos hf, lookup_cons_self]
    · rw [lookup_cons_ne _ _ _ _ hk] at h
      cases hfk : f (k, x) with
      | true => rw [List.filter_cons_of_pos hfk, lookup_cons_ne _ _ _ _ hk, ih h]
      | false =>
        rw [List.filter_cons_of_neg (by simp [hfk])]
        exact ih h

theorem lookup_filter_of_none (m : List (String × β)) (f : String × β → Bool) (key : String)
    (h : lookup m key = none) : lookup (m.filter f) key = none := by
  induction m with
  | nil => simp [lookup]
  | cons p m ih =>
    obtain ⟨k, x⟩ := p
    by_cases hk : k = key
    · subst hk
      rw [lookup_cons_self] at h
      exact absurd h (by simp)
    · rw [lookup_cons_ne _ _ _ _ hk] at h
      cases hfk : f (k, x) with
      | true => rw [List.filter_cons_of_pos hfk, lookup_cons_ne _ _ _ _ hk, ih h]
      | false =>
        rw [List.filter_cons_of_neg (by simp [hfk])]
        exact ih h

theorem mem_of_lookup (m : List (String × β)) (key : String) (v : β)
    (h : lookup m key = some v) : (key, v) ∈ m := by
  induction m with
  | nil => simp [lookup] at h
  | cons p m ih =>
    obtain ⟨k, x⟩ := p
    by_cases hk : k = key
    · simp [lookup, hk] at h
      simp [hk, h]
    · simp only [lookup, hk, if_false] at h
      exact List.mem_cons_of_mem _ (ih h)

theorem length_remove_of_lookup (m : List (String × β)) (key : String) (v : β)
    (hm : NoDupKeys m) (h : lookup m key = some v) :
    (remove m key).length + 1 = m.length := by
  induction m with
  | nil => simp [lookup] at h
  | cons p m ih =>
    obtain ⟨k, x⟩ := p
    have hm2 : k ∉ keysOf m ∧ NoDupKeys m := by
      simpa [NoDupKeys, keysOf] using hm
    by_cases hk : k = key
    · subst hk
      have hn : lookup m k = none := by
        cases hl : lookup m k with
        | none => rfl
        | some y =>
          exfalso
          apply hm2.1
          exact List.mem_map_of_mem Prod.fst (mem_of_lookup m k y hl)
      rw [remove_cons_self, remove_of_lookup_none m k hn, List.length_cons]
    · rw [lookup_cons_ne _ _ _ _ hk] at h
      rw [remove_cons_ne _ _ _ _ hk, List.length_cons, List.length_cons, ih hm2.2 h]

theorem lookup_ne_none_of_mem (m : List (String × β)) (key : String) (v : β)
    (h : (key, v) ∈ m) : lookup m key ≠ none := by
  induction m with
  | nil => simp at h
  | cons p m ih =>
    obtain ⟨k, x⟩ := p
    by_cases hk : k = key
    · simp [lookup, hk]
    · simp only [lookup, hk, if_false]
      rcases List.mem_cons.1 h with h1 | h1
      · exact absurd (congrArg Prod.fst h1).symm hk
      · exact ih h1

theorem lookup_of_mem (m : List (String × β)) (key : String) (v : β) (hm : NoDupKeys m)
    (h : (key, v) ∈ m) : lookup m key = some v := by
  induction m with
  | nil => simp at h
  | cons p m ih =>
    obtain ⟨k, x⟩ := p
    have hm2 : k ∉ keysOf m ∧ NoDupKeys m := by
      simpa [NoDupKeys, keysOf] using hm
    rcases List.mem_cons.1 h with h1 | h1
    · have h2 : key = k ∧ v = x := by simpa using h1
      simp [lookup, h2.1, h2.2]
    · have hk : k ≠ key := by
        intro e
        apply hm2.1
        rw [e]
        exact List.mem_map_of_mem Prod.fst h1
      simp only [lookup, hk, if_false]
      exact ih hm2.2 h1

theorem mem_remove (m : List (String × β)) (key : String) (p : String × β) :
    p ∈ remove m key ↔ p ∈ m ∧ p.1 ≠ key := by
  simp [remove]

theorem noDupKeys_remove (m : List (String × β)) (key : String) (hm : NoDupKeys m) :
    NoDupKeys (remove m key) := by
  unfold NoDupKeys keysOf remove at *
  exact List.Nodup.sublist (List.Sublist.map _ (List.filter_sublist _)) hm

theorem noDupKeys_filter (m : List (String × β)) (f : String × β → Bool) (hm : NoDupKeys m) :
    NoDupKeys (m.filter f) := by
  unfold NoDupKeys keysOf at *
  exact List.Nodup.sublist (List.Sublist.map _ (List.filter_sublist _)) hm

theorem keysOf_assign_subset (m : List (String × β)) (key : String) (v : β) (k : String)
    (h : k ∈ keysOf (assign m key v)) : k = key ∨ k ∈ keysOf m := by
  induction m with
  | nil => simpa [assign, keysOf] using h
  | cons p m ih =>
    obtain ⟨k1, x⟩ := p
    by_cases hk : k1 = key
    · simp only [assign, hk, if_true, keysOf, List.map_cons, List.mem_cons] at h ⊢
      rcases h with h | h
      · exact Or.inl h
      · exact Or.inr (Or.inr h)
    · simp only [assign, hk, if_false, keysOf, List.map_cons, List.mem_cons] at h ⊢
      rcases h with h | h
      · exact Or.inr (Or.inl h)
      · rcases ih h with h3 | h3
        · exact Or.inl h3
        · exact Or.inr (Or.inr h3)

theorem noDupKeys_assign (m : List (String × β)) (key : String) (v : β) (hm : NoDupKeys m) :
    NoDupKeys (assign m key v) := by
  induction m with
  | nil => simp [assign, NoDupKeys, keysOf]
  | cons p m ih =>
    obtain ⟨k, x⟩ := p
    have hm2 : k ∉ keysOf m ∧ NoDupKeys m := by
      simpa [NoDupKeys, keysOf] using hm
    by_cases hk : k = key
    · subst hk
      simpa [assign, NoDupKeys, keysOf] using hm
    · have h3 : k ∉ keysOf (assign m key v) := by
        intro h
        rcases keysOf_assign_subset m key v k h with h4 | h4
        · exact hk h4
        · exact hm2.1 h4
      have h5 := ih hm2.2
      simp only [assign, hk, if_false]
      unfold NoDupKeys keysOf at *
      simp only [List.map_cons, List.nodup_cons]
      exact ⟨h3, h5⟩

theorem mem_of_mem_visit (σ : List String) (m : List (String × β)) (p : String × β)
    (h : p ∈ visit m σ) : p ∈ m := by
  induction σ generalizing m with
  | nil => simpa [visit] using h
  | cons k σ ih =>
    simp only [visit] at h
    cases hl : lookup m k with
    | none =>
      rw [hl] at h
      exact ih m h
    | some v =>
      rw [hl] at h
      rcases List.mem_cons.1 h with h1 | h1
      · rw [h1]
        exact mem_of_lookup m k v hl
      · exact ((mem_remove m k p).1 (ih _ h1)).1

theorem mem_visit_of_lookup (σ : List String) (m : List (String × β)) (key : String) (v : β)
    (h : lookup m key = some v) : (key, v) ∈ visit m σ := by
  induction σ generalizing m with
  | nil => simpa [visit] using mem_of_lookup m key v h
  | cons k σ ih =>
    simp only [visit]
    cases hl : lookup m k with
    | none => exact ih m h
    | some x =>
      by_cases hk : key = k
      · subst hk
        rw [hl] at h
        simp at h
        simp [h]
      · apply List.mem_cons_of_mem
        apply ih
        rw [lookup_remove_ne m k key hk]
        exact h

end MapLemmas

/-! ## The eviction scan -/

section Eviction

variable {α : Type}

/-- Once `oldestKey` is non-empty the loop of `evictOldest` keeps a running minimum. -/
theorem foldl_oldestStep_of_ne (l : List (String × CacheEntry α)) (acc : String × Time)
    (hl : ∀ p ∈ l, p.1 ≠ "") (hacc : acc.1 ≠ "") :
    (l.foldl oldestStep acc).1 ≠ "" ∧ (l.foldl oldestStep acc).2 ≤ acc.2 ∧
      (∀ p ∈ l, (l.foldl oldestStep acc).2 ≤ p.2.Timestamp) ∧
      (l.foldl oldestStep acc = acc ∨
        ∃ p ∈ l, l.foldl oldestStep acc = (p.1, p.2.Timestamp)) := by
  induction l generalizing acc with
  | nil => simp [hacc]
  | cons q l ih =>
    have hq : q.1 ≠ "" := hl q (List.mem_cons_self _ _)
    have hl2 : ∀ p ∈ l, p.1 ≠ "" := fun p hp => hl p (List.mem_cons_of_mem _ hp)
    rw [List.foldl_cons]
    by_cases hlt : q.2.Timestamp < acc.2
    · have hs : oldestStep acc q = (q.1, q.2.Timestamp) := by simp [oldestStep, hlt]
      rw [hs]
      obtain ⟨h1, h2, h3, h4⟩ := ih (q.1, q.2.Timestamp) hl2 hq
      refine ⟨h1, ?_, ?_, ?_⟩
      · exact le_trans h2 (le_of_lt hlt)
      · intro p hp
        rcases List.mem_cons.1 hp with e | e
        · rw [e]
          exact h2
        · exact h3 p e
      · right
        rcases h4 with h4 | ⟨p, hp, h4⟩
        · exact ⟨q, List.mem_cons_self _ _, h4⟩
        · exact ⟨p, List.mem_cons_of_mem _ hp, h4⟩
    · have hs : oldestStep acc q = acc := by simp [oldestStep, hlt, hacc]
      rw [hs]
      obtain ⟨h1, h2, h3, h4⟩ := ih acc hl2 hacc
      refine ⟨h1, h2, ?_, ?_⟩
      · intro p hp
        rcases List.mem_cons.1 hp with e | e
        · rw [e]
          exact le_trans h2 (not_lt.1 hlt)
        · exact h3 p e
      · rcases h4 with h4 | ⟨p, hp, h4⟩
        · exact Or.inl h4
        · exact Or.inr ⟨p, List.mem_cons_of_mem _ hp, h4⟩

/-- On a non-empty list without the empty key the scan returns an entry of the list whose
timestamp is minimal. -/
theorem oldest_spec (l : List (String × CacheEntry α)) (hl : ∀ p ∈ l, p.1 ≠ "")
    (hne : l ≠ []) :
    ∃ p ∈ l, oldest l = (p.1, p.2.Timestamp) ∧ ∀ q ∈ l, p.2.Timestamp ≤ q.2.Timestamp := by
  cases l with
  | nil => exact absurd rfl hne
  | cons q l =>
    have hq : q.1 ≠ "" := hl q (List.mem_cons_self _ _)
    have hl2 : ∀ p ∈ l, p.1 ≠ "" := fun p hp => hl p (List.mem_cons_of_mem _ hp)
    have hs : oldestStep (("", 0) : String × Time) q = (q.1, q.2.Timestamp) := by
      simp [oldestStep]
    obtain ⟨_, h2, h3, h4⟩ := foldl_oldestStep_of_ne l (q.1, q.2.Timestamp) hl2 hq
    have ho : oldest (q :: l) = l.foldl oldestStep (q.1, q.2.Timestamp) := by
      unfold oldest
      rw [List.foldl_cons, hs]
    rcases h4 with h4 | ⟨p, hp, h4⟩
    · refine ⟨q, List.mem_cons_self _ _, ?_, ?_⟩
      · rw [ho, h4]
      · intro r hr
        rcases List.mem_cons.1 hr with e | e
        · rw [e]
        · have := h3 r e
          rw [h4] at this
          exact this
    · refine ⟨p, List.mem_cons_of_mem _ hp, ?_, ?_⟩
      · rw [ho, h4]
      · intro r hr
        rw [h4] at h2 h3
        rcases List.mem_cons.1 hr with e | e
        · rw [e]
          exact h2
        · exact h3 r e

/-- Entry picked by the eviction scan of a map without the empty key: a stored entry, of
minimal timestamp, whose key is not empty. -/
theorem oldest_visit_spec (m : List (String × CacheEntry α)) (σ : List String)
    (hm : NoDupKeys m) (he : lookup m "" = none) (hne : m ≠ []) :
    ∃ e, lookup m (oldest (visit m σ)).1 = some e ∧ (oldest (visit m σ)).1 ≠ "" ∧
      ∀ k2 e2, lookup m k2 = some e2 → e.Timestamp ≤ e2.Timestamp := by
  have hkeys : ∀ p ∈ visit m σ, p.1 ≠ "" := by
    intro p hp hp2
    have := lookup_ne_none_of_mem m p.1 p.2 (mem_of_mem_visit σ m p hp)
    rw [hp2] at this
    exact this he
  have hvne : visit m σ ≠ [] := by
    cases m with
    | nil => exact absurd rfl hne
    | cons q m =>
      intro h
      have := mem_visit_of_lookup σ (q :: m) q.1 q.2 (lookup_cons_self m q.1 q.2)
      rw [h] at this
      simp at this
  obtain ⟨p, hp, ho, hmin⟩ := oldest_spec (visit m σ) hkeys hvne
  refine ⟨p.2, ?_, ?_, ?_⟩
  · rw [ho]
    exact lookup_of_mem m p.1 p.2 hm (mem_of_mem_visit σ m p hp)
  · rw [ho]
    exact hkeys p hp
  · intro k2 e2 h2
    exact hmin (k2, e2) (mem_visit_of_lookup σ m k2 e2 h2)

theorem evictOldest_of_nil (c : Cache α) (σ : List String) (h : c.data = []) :
    c.evictOldest σ = c := by
  simp [Cache.evictOldest, h, visit_nil, oldest]

/-- On a non-empty store without the empty key `evictOldest` removes one stored entry of
minimal timestamp and counts one eviction. -/
theorem evictOldest_of_ne_nil (c : Cache α) (σ : List String) (hm : NoDupKeys c.data)
    (he : lookup c.data "" = none) (hne : c.data ≠ []) :
    ∃ k e, lookup c.data k = some e ∧
      (∀ k2 e2, lookup c.data k2 = some e2 → e.Timestamp ≤ e2.Timestamp) ∧
      c.evictOldest σ =
        { c with
          data := remove c.data k
          stats := { c.stats with Evictions := c.stats.Evictions + 1 } } := by
  obtain ⟨e, h1, h2, h3⟩ := oldest_visit_spec c.data σ hm he hne
  refine ⟨(oldest (visit c.data σ)).1, e, h1, h3, ?_⟩
  simp [Cache.evictOldest, h2]

end Eviction

/-! ## Put -/

section Put

variable {α : Type}

/-- C1, as amended: for every store state that holds no entry under the empty string, a
`Put` evicts an entry exactly when the key is not yet present, the number of entries is at
least the capacity and the store is not empty; then one entry is removed (the number of
entries is the same after the `Put`, one eviction is counted), it has the least timestamp
of all entries stored before the `Put`, and every other entry is retained unchanged; a
`Put` of a key already present evicts nothing. -/
theorem SetWithAutoRefresh_evicts (c : Cache α) (σ : List String) (now : Time) (key : String)
    (value : α) (ttl : Duration) (autoRefresh : Bool) (refreshInterval : Duration)
    (hm : NoDupKeys c.data) (he : lookup c.data "" = none) :
    (Evicted c (c.SetWithAutoRefresh σ now key value ttl autoRefresh refreshInterval).1 key ↔
        lookup c.data key = none ∧ (c.data.length : Int) ≥ c.maxSize ∧ c.data ≠ []) ∧
      (lookup c.data key = none ∧ (c.data.length : Int) ≥ c.maxSize ∧ c.data ≠ [] →
        ∃ k e, k ≠ key ∧ lookup c.data k = some e ∧
          lookup (c.SetWithAutoRefresh σ now key value ttl autoRefresh refreshInterval).1.data k
            = none ∧
          (∀ k2 e2, lookup c.data k2 = some e2 → e.Timestamp ≤ e2.Timestamp) ∧
          (∀ k2, k2 ≠ k → k2 ≠ key →
            lookup (c.SetWithAutoRefresh σ now key value ttl autoRefresh
              refreshInterval).1.data k2 = lookup c.data k2) ∧
          (c.SetWithAutoRefresh σ now key value ttl autoRefresh refreshInterval).1.data.length
            = c.data.length ∧
          (c.SetWithAutoRefresh σ now key value ttl autoRefresh
            refreshInterval).1.stats.Evictions = c.stats.Evictions + 1) ∧
      (lookup c.data key ≠ none →
        (∀ k2, k2 ≠ key →
          lookup (c.SetWithAutoRefresh σ now key value ttl autoRefresh
            refreshInterval).1.data k2 = lookup c.data k2) ∧
        (c.SetWithAutoRefresh σ now key value ttl autoRefresh refreshInterval).1.data.length
          = c.data.length ∧
        (c.SetWithAutoRefresh σ now key value ttl autoRefresh
          refreshInterval).1.stats.Evictions = c.stats.Evictions) := by
  have main : lookup c.data key = none ∧ (c.data.length : Int) ≥ c.maxSize ∧ c.data ≠ [] →
      ∃ k e, k ≠ key ∧ lookup c.data k = some e ∧
        lookup (c.SetWithAutoRefresh σ now key value ttl autoRefresh refreshInterval).1.data k
          = none ∧
        (∀ k2 e2, lookup c.data k2 = some e2 → e.Timestamp ≤ e2.Timestamp) ∧
        (∀ k2, k2 ≠ k → k2 ≠ key →
          lookup (c.SetWithAutoRefresh σ now key value ttl autoRefresh
            refreshInterval).1.data k2 = lookup c.data k2) ∧
        (c.SetWithAutoRefresh σ now key value ttl autoRefresh refreshInterval).1.data.length
          = c.data.length ∧
        (c.SetWithAutoRefresh σ now key value ttl autoRefresh
          refreshInterval).1.stats.Evictions = c.stats.Evictions + 1 := by
    rintro ⟨hk, hcap, hne⟩
    obtain ⟨k, e, h1, h2, h3⟩ := evictOldest_of_ne_nil c σ hm he hne
    have hkk : k ≠ key := by
      intro e1
      rw [e1, hk] at h1
      exact absurd h1 (by simp)
    have hg : (c.data.length : Int) ≥ c.maxSize ∧ (lookup c.data key).isNone = true := by
      simp [hk, hcap]
    have hkr : lookup (remove c.data k) key = none := by
      rw [lookup_remove_ne _ _ _ (Ne.symm hkk)]
      exact hk
    refine ⟨k, e, hkk, h1, ?_, h2, ?_, ?_, ?_⟩
    · simp only [Cache.SetWithAutoRefresh, hg, and_self, if_true, h3]
      rw [lookup_assign_ne _ _ _ _ hkk, lookup_remove_self]
    · intro k2 hk2 hk2b
      simp only [Cache.SetWithAutoRefresh, hg, and_self, if_true, h3]
      rw [lookup_assign_ne _ _ _ _ hk2b, lookup_remove_ne _ _ _ hk2]
    · simp only [Cache.SetWithAutoRefresh, hg, and_self, if_true, h3]
      rw [length_assign, hkr]
      simpa using length_remove_of_lookup c.data k e hm h1
    · simp only [Cache.SetWithAutoRefresh, hg, and_self, if_true, h3]
  refine ⟨⟨?_, ?_⟩, main, ?_⟩
  · rintro ⟨k, hk1, hk2, hk3⟩
    by_contra hcon
    have hc1 : (if (c.data.length : Int) ≥ c.maxSize ∧ (lookup c.data key).isNone = true
        then c.evictOldest σ else c) = c := by
      by_cases hg : (c.data.length : Int) ≥ c.maxSize ∧ (lookup c.data key).isNone = true
      · have hnil : c.data = [] := by
          by_contra hne
          apply hcon
          refine ⟨?_, hg.1, hne⟩
          simpa using hg.2
        rw [if_pos hg, evictOldest_of_nil c σ hnil]
      · rw [if_neg hg]
    simp only [Cache.SetWithAutoRefresh, hc1] at hk3
    rw [lookup_assign_ne _ _ _ _ hk1] at hk3
    exact hk2 hk3
  · intro h
    obtain ⟨k, e, h1, h2, h3, _⟩ := main h
    refine ⟨k, h1, ?_, h3⟩
    rw [h2]
    simp
  · intro hp
    have hg : ¬ ((c.data.length : Int) ≥ c.maxSize ∧ (lookup c.data key).isNone = true) := by
      rintro ⟨_, h2⟩
      apply hp
      simpa using h2
    refine ⟨?_, ?_, ?_⟩
    · intro k2 hk2
      simp only [Cache.SetWithAutoRefresh, hg, if_false]
      rw [lookup_assign_ne _ _ _ _ hk2]
    · simp only [Cache.SetWithAutoRefresh, hg, if_false]
      rw [length_assign]
      cases hl : lookup c.data key with
      | none => exact absurd hl hp
      | some x => simp
    · simp only [Cache.SetWithAutoRefresh, hg, if_false]

/-- Witness of C1: a full store of capacity two, `Put` of a third key. -/
theorem SetWithAutoRefresh_evicts_witness :
    NoDupKeys (sampleCache [("a", sampleEntry 1 10 50 false), ("b", sampleEntry 2 20 50 false)]
        2 true).data ∧
      lookup (sampleCache [("a", sampleEntry 1 10 50 false), ("b", sampleEntry 2 20 50 false)]
        2 true).data "" = none ∧
      Evicted
        (sampleCache [("a", sampleEntry 1 10 50 false), ("b", sampleEntry 2 20 50 false)] 2 true)
        ((sampleCache [("a", sampleEntry 1 10 50 false), ("b", sampleEntry 2 20 50 false)] 2
          true).SetWithAutoRefresh [] 30 "c" 3 50 false 0).1 "c" :=
  ⟨by simp [NoDupKeys, keysOf, sampleCache], rfl,
    (SetWithAutoRefresh_evicts
      (sampleCache [("a", sampleEntry 1 10 50 false), ("b", sampleEntry 2 20 50 false)] 2 true)
      [] 30 "c" 3 50 false 0 (by simp [NoDupKeys, keysOf, sampleCache]) rfl).1.2
      ⟨rfl, by decide, by simp [sampleCache]⟩⟩

/-- C1 as stated fails on an empty store of capacity zero: the key is new and the number of
entries (zero) is at least the capacity, yet the `Put` evicts nothing, there being no entry
to evict. -/
theorem SetWithAutoRefresh_evicts_counterexample :
    ¬ (Evicted (NewCache 0 300 600 : Cache Nat)
          ((NewCache 0 300 600 : Cache Nat).SetWithAutoRefresh [] 30 "a" 1 50 false 0).1 "a" ↔
        lookup (NewCache 0 300 600 : Cache Nat).data "a" = none ∧
          (((NewCache 0 300 600 : Cache Nat).data.length : Int) ≥
            (NewCache 0 300 600 : Cache Nat).maxSize)) := by
  intro h
  obtain ⟨k, _, hk, _⟩ := h.2 ⟨rfl, by decide⟩
  exact hk rfl

/-- With an entry stored under the empty string the eviction scan can leave the store
untouched: here the scan visits `"b"` and then `""`, ends with `oldestKey == ""`, and the
`Put` of a new key into the full store of capacity two leaves three entries. -/
theorem SetWithAutoRefresh_emptyKey_no_eviction :
    ((sampleCache [("b", sampleEntry 2 20 50 false), ("", sampleEntry 1 10 50 false)] 2
        true).SetWithAutoRefresh [] 30 "c" 3 50 false 0).1.data.length = 3 ∧
      ((sampleCache [("b", sampleEntry 2 20 50 false), ("", sampleEntry 1 10 50 false)] 2
        true).SetWithAutoRefresh [] 30 "c" 3 50 false 0).1.stats.Evictions = 0 := by
  decide

end Put

/-! ## Get -/

section Get

variable {α : Type}

theorem Get_of_absent (c : Cache α) (now : Time) (key : String)
    (h : lookup c.data key = none) :
    c.Get now key =
      ({ c with stats := { c.stats with Misses := c.stats.Misses + 1 } }, none) := by
  simp only [Get_eq, h]

theorem Get_of_expired (c : Cache α) (now : Time) (key : String) (e : CacheEntry α)
    (h : lookup c.data key = some e) (hx : now - e.Timestamp > e.TTL) :
    c.Get now key =
      ({ c with
          data := remove c.data key
          stats := { c.stats with
            Size := (remove c.data key).length, Misses := c.stats.Misses + 1 } },
        none) := by
  simp only [Get_eq, h, hx, if_true]

theorem Get_of_live (c : Cache α) (now : Time) (key : String) (e : CacheEntry α)
    (h : lookup c.data key = some e) (hx : ¬ now - e.Timestamp > e.TTL) :
    c.Get now key =
      ({ c with
          data := assign c.data key { e with Hits := e.Hits + 1 }
          stats := { c.stats with Hits := c.stats.Hits + 1 } },
        some e.Data) := by
  simp only [Get_eq, h, hx, if_false]

/-- C3: `Get` returns not-found exactly when the key is absent or `now - Timestamp > TTL`,
and otherwise the stored value; when it returns not-found for an entry older than its
time-to-live, that entry has been removed, the `Size` of the next `GetStats` is one less
than before, and every other entry is unchanged. -/
theorem Get_found_iff (c : Cache α) (now : Time) (key : String) (hm : NoDupKeys c.data) :
    ((c.Get now key).2 = none ↔
        lookup c.data key = none ∨
          ∃ e, lookup c.data key = some e ∧ now - e.Timestamp > e.TTL) ∧
      (∀ e, lookup c.data key = some e → ¬ now - e.Timestamp > e.TTL →
        (c.Get now key).2 = some e.Data) ∧
      (∀ e, lookup c.data key = some e → now - e.Timestamp > e.TTL →
        lookup (c.Get now key).1.data key = none ∧
        (c.Get now key).1.GetStats.Size + 1 = c.GetStats.Size ∧
        ∀ k2, k2 ≠ key → lookup (c.Get now key).1.data k2 = lookup c.data k2) := by
  refine ⟨?_, ?_, ?_⟩
  · cases hl : lookup c.data key with
    | none => simp [Get_of_absent c now key hl]
    | some e =>
      by_cases hx : now - e.Timestamp > e.TTL
      · simp [Get_of_expired c now key e hl hx, hx]
      · simp [Get_of_live c now key e hl hx, hx]
  · intro e hl hx
    rw [Get_of_live c now key e hl hx]
  · intro e hl hx
    rw [Get_of_expired c now key e hl hx]
    refine ⟨lookup_remove_self _ _, ?_, ?_⟩
    · simp only [Cache.GetStats]
      have := length_remove_of_lookup c.data key e hm hl
      omega
    · intro k2 hk2
      exact lookup_remove_ne _ _ _ hk2

/-- Witness of C3: an entry stored at time 10 with time-to-live 50, read at time 61. -/
theorem Get_found_iff_witness :
    NoDupKeys (sampleCache [("a", sampleEntry 1 10 50 false), ("b", sampleEntry 2 20 50 false)]
        2 true).data ∧
      ((sampleCache [("a", sampleEntry 1 10 50 false), ("b", sampleEntry 2 20 50 false)] 2
        true).Get 61 "a").2 = none :=
  ⟨by simp [NoDupKeys, keysOf, sampleCache],
    (Get_found_iff
      (sampleCache [("a", sampleEntry 1 10 50 false), ("b", sampleEntry 2 20 50 false)] 2 true)
      61 "a" (by simp [NoDupKeys, keysOf, sampleCache])).1.2
      (Or.inr ⟨sampleEntry 1 10 50 false, rfl, by decide⟩)⟩

/-- C5, as amended: when `Get` returns a value, the entry read has
`Timestamp + TTL ≥ now`: its expiry is not in the past, and may be the read time itself. -/
theorem Get_found_not_expired (c : Cache α) (now : Time) (key : String) (v : α)
    (h : (c.Get now key).2 = some v) :
    ∃ e, lookup c.data key = some e ∧ e.Data = v ∧ e.Timestamp + e.TTL ≥ now := by
  cases hl : lookup c.data key with
  | none =>
    rw [Get_of_absent c now key hl] at h
    exact absurd h (by simp)
  | some e =>
    by_cases hx : now - e.Timestamp > e.TTL
    · rw [Get_of_expired c now key e hl hx] at h
      exact absurd h (by simp)
    · rw [Get_of_live c now key e hl hx] at h
      refine ⟨e, rfl, by simpa using h, ?_⟩
      have hx2 : now - e.Timestamp ≤ e.TTL := not_lt.1 hx
      have h3 := add_le_add_left hx2 e.Timestamp
      have h4 : e.Timestamp + (now - e.Timestamp) = now := by
        exact add_sub_cancel e.Timestamp now
      rw [h4] at h3
      exact h3

/-- Witness of C5: an entry stored at time 10 with time-to-live 50, read at time 25. -/
theorem Get_found_not_expired_witness :
    ((sampleCache [("a", sampleEntry 1 10 50 false)] 2 true).Get 25 "a").2 = some 1 ∧
      ∃ e, lookup (sampleCache [("a", sampleEntry 1 10 50 false)] 2 true).data "a" = some e ∧
        e.Data = 1 ∧ e.Timestamp + e.TTL ≥ 25 :=
  ⟨rfl, Get_found_not_expired (sampleCache [("a", sampleEntry 1 10 50 false)] 2 true) 25 "a" 1
    rfl⟩

/-- C5 as stated fails at the boundary: an entry stored at time 10 with time-to-live 50 is
returned by a `Get` at time 60, when `Timestamp + TTL = now` is not in the future. -/
theorem Get_found_not_expired_counterexample :
    ((sampleCache [("a", sampleEntry 1 10 50 false)] 2 true).Get 60 "a").2 = some 1 ∧
      lookup (sampleCache [("a", sampleEntry 1 10 50 false)] 2 true).data "a"
        = some (sampleEntry 1 10 50 false) ∧
      ¬ ((sampleEntry 1 10 50 false).Timestamp + (sampleEntry 1 10 50 false).TTL > 60) := by
  refine ⟨rfl, rfl, by decide⟩

/-- C6: a hit adds one to the `Hits` counter and to the `Hits` of the entry read and changes
no other counter and no other entry; a not-found result adds one to `Misses` and leaves
`Hits` as it is; `Evictions` never changes. -/
theorem Get_counters (c : Cache α) (now : Time) (key : String) :
    (∀ v, (c.Get now key).2 = some v →
        ∃ e, lookup c.data key = some e ∧
          (c.Get now key).1.stats = { c.stats with Hits := c.stats.Hits + 1 } ∧
          lookup (c.Get now key).1.data key = some { e with Hits := e.Hits + 1 } ∧
          ∀ k2, k2 ≠ key → lookup (c.Get now key).1.data k2 = lookup c.data k2) ∧
      ((c.Get now key).2 = none →
        (c.Get now key).1.stats.Misses = c.stats.Misses + 1 ∧
          (c.Get now key).1.stats.Hits = c.stats.Hits) ∧
      (c.Get now key).1.stats.Evictions = c.stats.Evictions := by
  cases hl : lookup c.data key with
  | none =>
    rw [Get_of_absent c now key hl]
    simp
  | some e =>
    by_cases hx : now - e.Timestamp > e.TTL
    · rw [Get_of_expired c now key e hl hx]
      simp
    · rw [Get_of_live c now key e hl hx]
      refine ⟨?_, by simp, rfl⟩
      intro v _
      refine ⟨e, rfl, rfl, lookup_assign_self _ _ _, ?_⟩
      intro k2 hk2
      exact lookup_assign_ne _ _ _ _ hk2

/-- Witness of C6: a hit on an entry stored at time 10 with time-to-live 50, read at 25. -/
theorem Get_counters_witness :
    ((sampleCache [("a", sampleEntry 1 10 50 false)] 2 true).Get 25 "a").2 = some 1 ∧
      ∃ e, lookup (sampleCache [("a", sampleEntry 1 10 50 false)] 2 true).data "a" = some e ∧
        ((sampleCache [("a", sampleEntry 1 10 50 false)] 2 true).Get 25 "a").1.stats =
          { (sampleCache [("a", sampleEntry 1 10 50 false)] 2 true).stats with
            Hits := (sampleCache [("a", sampleEntry 1 10 50 false)] 2 true).stats.Hits + 1 } ∧
        lookup ((sampleCache [("a", sampleEntry 1 10 50 false)] 2 true).Get 25 "a").1.data "a"
          = some { e with Hits := e.Hits + 1 } ∧
        ∀ k2, k2 ≠ "a" →
          lookup ((sampleCache [("a", sampleEntry 1 10 50 false)] 2 true).Get 25 "a").1.data k2
            = lookup (sampleCache [("a", sampleEntry 1 10 50 false)] 2 true).data k2 :=
  ⟨rfl, (Get_counters (sampleCache [("a", sampleEntry 1 10 50 false)] 2 true) 25 "a").1 1 rfl⟩

end Get

/-! ## Put followed by Get -/

section PutGet

variable {α : Type}

theorem evictOldest_lookup_of_ne (c : Cache α) (σ : List String) (k : String)
    (h : (oldest (visit c.data σ)).1 ≠ k) :
    lookup (c.evictOldest σ).data k = lookup c.data k := by
  unfold Cache.evictOldest
  dsimp only
  split
  · exact lookup_remove_ne _ _ _ (Ne.symm h)
  · rfl

theorem step_Put_holds (c : Cache α) (σ : List String) (t0 : Time) (k : String) (v : α)
    (ttl : Duration) (autoRefresh : Bool) (refreshInterval : Duration) :
    (c.step (.Put σ t0 k v ttl autoRefresh refreshInterval)).holds k v t0 ttl := by
  simp only [Cache.holds, Cache.step, Cache.SetWithAutoRefresh]
  exact ⟨_, lookup_assign_self _ _ _, rfl, rfl, rfl⟩

/-- An operation that leaves the entry of `k` alone keeps its value, timestamp and
time-to-live. -/
theorem step_holds (c : Cache α) (op : Op α) (k : String) (v : α) (t0 : Time)
    (ttl : Duration) (hc : c.holds k v t0 ttl) (hop : op.keeps k t0 ttl c = true) :
    (c.step op).holds k v t0 ttl := by
  obtain ⟨e, hl, hv, ht, httl⟩ := hc
  cases op with
  | SetWebSocketManager => exact ⟨e, hl, hv, ht, httl⟩
  | Put σ now key value ttl2 autoRefresh refreshInterval =>
    simp only [Op.keeps, Bool.and_eq_true, decide_eq_true_eq, Bool.not_eq_true',
      Bool.and_eq_false_iff, decide_eq_false_iff_not] at hop
    obtain ⟨hk, hev⟩ := hop
    refine ⟨e, ?_, hv, ht, httl⟩
    simp only [Cache.step, Cache.SetWithAutoRefresh]
    rw [lookup_assign_ne _ _ _ _ (Ne.symm hk)]
    split
    · rename_i hg
      rcases hev with (h1 | h1) | h1
      · exact absurd hg.1 h1
      · rw [hg.2] at h1
        exact absurd h1 (by simp)
      · rw [evictOldest_lookup_of_ne c σ k h1]
        exact hl
    · exact hl
  | Get now key =>
    simp only [Op.keeps, decide_eq_true_eq] at hop
    by_cases hk : key = k
    · subst hk
      have hx : ¬ now - e.Timestamp > e.TTL := by
        rw [ht, httl]
        exact not_lt.2 (hop rfl)
      simp only [Cache.step, Get_of_live c now key e hl hx]
      exact ⟨_, lookup_assign_self _ _ _, hv, ht, httl⟩
    · refine ⟨e, ?_, hv, ht, httl⟩
      simp only [Cache.step, Get_eq]
      split
      · exact hl
      · split
        · rw [lookup_remove_ne _ _ _ (Ne.symm hk)]
          exact hl
        · rw [lookup_assign_ne _ _ _ _ (Ne.symm hk)]
          exact hl
  | Delete now key =>
    simp only [Op.keeps, decide_eq_true_eq] at hop
    refine ⟨e, ?_, hv, ht, httl⟩
    simp only [Cache.step, Cache.Delete]
    split
    · rw [lookup_remove_ne _ _ _ (Ne.symm hop)]
      exact hl
    · exact hl
  | Clear now => simp [Op.keeps] at hop
  | Refresh now key =>
    simp only [Cache.step, Cache.Refresh]
    split
    · exact ⟨e, hl, hv, ht, httl⟩
    · rename_i entry hl2
      split
      · exact ⟨e, hl, hv, ht, httl⟩
      · by_cases hk : key = k
        · subst hk
          rw [hl] at hl2
          have he : e = entry := by simpa using hl2
          subst he
          exact ⟨_, lookup_assign_self _ _ _, hv, ht, httl⟩
        · refine ⟨e, ?_, hv, ht, httl⟩
          rw [lookup_assign_ne _ _ _ _ (Ne.symm hk)]
          exact hl
  | cleanup now =>
    simp only [Op.keeps, decide_eq_true_eq] at hop
    have hx : ¬ now - e.Timestamp > e.TTL := by
      rw [ht, httl]
      exact not_lt.2 hop
    have hf := lookup_filter_of_pos c.data
      (fun p : String × CacheEntry α => !decide (now - p.2.Timestamp > p.2.TTL)) k e hl
      (by simp only [hx, decide_False, Bool.not_false])
    refine ⟨e, ?_, hv, ht, httl⟩
    simp only [Cache.step, cleanup_eq]
    split
    · exact hf
    · exact hf

theorem run_holds (ops : List (Op α)) (c : Cache α) (k : String) (v : α) (t0 : Time)
    (ttl : Duration) (hc : c.holds k v t0 ttl) (hops : undisturbed k t0 ttl c ops = true) :
    (c.run ops).holds k v t0 ttl := by
  induction ops generalizing c with
  | nil => exact hc
  | cons op ops ih =>
    simp only [undisturbed, Bool.and_eq_true] at hops
    exact ih (c.step op) (step_holds c op k v t0 ttl hc hops.1) hops.2

/-- C4: after a `Put` of `v` under `k` at time `t0` with time-to-live `ttl`, followed by any
operations that are no `Put`, `Delete` or `Clear` of `k`, that do not evict `k`, and whose
expiry checks of `k` come no later than `t0 + ttl`, a `Get` of `k` at a time `now` with
`now - t0 ≤ ttl` returns `v`.  The state before the `Put` is arbitrary, so this is the last
`Put` of `k` in any sequence of operations. -/
theorem Get_after_Put (c : Cache α) (σ : List String) (t0 : Time) (k : String) (v : α)
    (ttl : Duration) (autoRefresh : Bool) (refreshInterval : Duration) (mid : List (Op α))
    (now : Time)
    (hmid : undisturbed k t0 ttl (c.step (.Put σ t0 k v ttl autoRefresh refreshInterval)) mid
      = true)
    (hnow : now - t0 ≤ ttl) :
    (((c.step (.Put σ t0 k v ttl autoRefresh refreshInterval)).run mid).Get now k).2
      = some v := by
  obtain ⟨e, hl, hv, ht, httl⟩ := run_holds mid _ k v t0 ttl
    (step_Put_holds c σ t0 k v ttl autoRefresh refreshInterval) hmid
  have hx : ¬ now - e.Timestamp > e.TTL := by
    rw [ht, httl]
    exact not_lt.2 hnow
  rw [Get_of_live _ now k e hl hx, hv]

/-- Witness of C4: `Put` of `"a"`, then a `Put` and a `Get` of `"b"`, a `Get` of `"a"` and a
`Put` that overwrites `"b"`; the final `Get` of `"a"` returns the value put. -/
theorem Get_after_Put_witness :
    undisturbed "a" 10 1000
        ((NewCache 2 300 600 : Cache Nat).step (.Put [] 10 "a" 1 1000 false 0))
        [Op.Put [] 20 "b" 2 1000 false 0, Op.Get 25 "b", Op.Get 30 "a",
          Op.Put [] 40 "b" 3 1000 false 0] = true ∧
      ((((NewCache 2 300 600 : Cache Nat).step (.Put [] 10 "a" 1 1000 false 0)).run
        [Op.Put [] 20 "b" 2 1000 false 0, Op.Get 25 "b", Op.Get 30 "a",
          Op.Put [] 40 "b" 3 1000 false 0]).Get 50 "a").2 = some 1 :=
  ⟨by decide, Get_after_Put (NewCache 2 300 600 : Cache Nat) [] 10 "a" 1 1000 false 0
    [Op.Put [] 20 "b" 2 1000 false 0, Op.Get 25 "b", Op.Get 30 "a",
      Op.Put [] 40 "b" 3 1000 false 0] 50 (by decide) (by decide)⟩

end PutGet

/-! ## Events of Delete, Clear, Put and Refresh -/

section Events

variable {α : Type}

/-- C7, as amended: `Delete` returns true exactly when the key was present; afterwards the
key is absent and every other entry is unchanged; when the key was present, one `delete`
event carrying the key is broadcast if a WebSocket manager is attached and none if no
manager is attached; when the key was absent nothing is broadcast and the store is
unchanged. -/
theorem Delete_spec (c : Cache α) (now : Time) (key : String) :
    ((c.Delete now key).2.1 = true ↔ lookup c.data key ≠ none) ∧
      lookup (c.Delete now key).1.data key = none ∧
      (∀ k2, k2 ≠ key → lookup (c.Delete now key).1.data k2 = lookup c.data k2) ∧
      (lookup c.data key ≠ none → c.wsManager = true →
        (c.Delete now key).2.2 = [mkEvent "cache_delete" "delete" key now none]) ∧
      (lookup c.data key ≠ none → c.wsManager = false → (c.Delete now key).2.2 = []) ∧
      (lookup c.data key = none → c.Delete now key = (c, false, [])) := by
  cases hl : lookup c.data key with
  | none =>
    have hd : c.Delete now key = (c, false, []) := by simp only [Cache.Delete, hl]
    rw [hd]
    simp [hl]
  | some e =>
    have hd : c.Delete now key =
        ({ c with
            data := remove c.data key
            stats := { c.stats with Size := (remove c.data key).length } }, true,
          broadcast c (mkEvent "cache_delete" "delete" key now none)) := by
      simp only [Cache.Delete, hl]
    rw [hd]
    refine ⟨by simp, lookup_remove_self _ _, ?_, ?_, ?_, by simp⟩
    · intro k2 hk2
      exact lookup_remove_ne _ _ _ hk2
    · intro _ hw
      simp [broadcast, hw]
    · intro _ hw
      simp [broadcast, hw]

/-- Witness of C7: `Delete` of a stored key with a manager attached. -/
theorem Delete_spec_witness :
    lookup (sampleCache [("a", sampleEntry 1 10 50 false)] 2 true).data "a" ≠ none ∧
      (sampleCache [("a", sampleEntry 1 10 50 false)] 2 true).wsManager = true ∧
      ((sampleCache [("a", sampleEntry 1 10 50 false)] 2 true).Delete 30 "a").2.2
        = [mkEvent "cache_delete" "delete" "a" 30 none] :=
  ⟨by simp [sampleCache, lookup], rfl,
    (Delete_spec (sampleCache [("a", sampleEntry 1 10 50 false)] 2 true) 30 "a").2.2.2.1
      (by simp [sampleCache, lookup]) rfl⟩

/-- C7 as stated fails on a store without a WebSocket manager: the key was present, `Delete`
returns true, and no event is broadcast. -/
theorem Delete_spec_counterexample :
    lookup (sampleCache [("a", sampleEntry 1 10 50 false)] 2 false).data "a" ≠ none ∧
      ((sampleCache [("a", sampleEntry 1 10 50 false)] 2 false).Delete 30 "a").2.1 = true ∧
      ((sampleCache [("a", sampleEntry 1 10 50 false)] 2 false).Delete 30 "a").2.2 = [] :=
  ⟨by simp [sampleCache, lookup], rfl, rfl⟩

/-- C8, as amended: `Clear` leaves the store with no entries, also when it was empty, and a
`Get` of any key right after it returns not-found; one `clear` event is broadcast if a
WebSocket manager is attached and none if no manager is attached. -/
theorem Clear_spec (c : Cache α) (now : Time) :
    (c.Clear now).1.data = [] ∧
      (c.Clear now).1.GetStats.Size = 0 ∧
      (∀ t key, ((c.Clear now).1.Get t key).2 = none) ∧
      (c.wsManager = true → (c.Clear now).2 = [mkEvent "cache_clear" "clear" "" now none]) ∧
      (c.wsManager = false → (c.Clear now).2 = []) := by
  refine ⟨rfl, rfl, ?_, ?_, ?_⟩
  · intro t key
    have hl : lookup (c.Clear now).1.data key = none := rfl
    rw [Get_of_absent (c.Clear now).1 t key hl]
  · intro hw
    simp [Cache.Clear, broadcast, hw]
  · intro hw
    simp [Cache.Clear, broadcast, hw]

/-- Witness of C8: `Clear` of a store with a manager attached. -/
theorem Clear_spec_witness :
    (sampleCache [("a", sampleEntry 1 10 50 false)] 2 true).wsManager = true ∧
      ((sampleCache [("a", sampleEntry 1 10 50 false)] 2 true).Clear 30).2
        = [mkEvent "cache_clear" "clear" "" 30 none] :=
  ⟨rfl, (Clear_spec (sampleCache [("a", sampleEntry 1 10 50 false)] 2 true) 30).2.2.2.1 rfl⟩

/-- C8 as stated fails on a store without a WebSocket manager: `Clear` empties the store
and broadcasts no event. -/
theorem Clear_spec_counterexample :
    ((sampleCache [("a", sampleEntry 1 10 50 false)] 2 false).Clear 30).1.data = [] ∧
      ((sampleCache [("a", sampleEntry 1 10 50 false)] 2 false).Clear 30).2 = [] :=
  ⟨rfl, rfl⟩

/-- C9, as amended: after a `Put` the key maps to an entry with the given value,
time-to-live, auto-refresh flag and refresh interval, with `Timestamp = LastRefresh = now`
and no hits, whether the key was new or present; one `set` event carrying the key and the
value is broadcast if a WebSocket manager is attached and none if no manager is attached. -/
theorem SetWithAutoRefresh_spec (c : Cache α) (σ : List String) (now : Time) (key : String)
    (value : α) (ttl : Duration) (autoRefresh : Bool) (refreshInterval : Duration) :
    lookup (c.SetWithAutoRefresh σ now key value ttl autoRefresh refreshInterval).1.data key
        = some
          { Data := value
            Timestamp := now
            TTL := ttl
            Hits := 0
            LastRefresh := now
            AutoRefresh := autoRefresh
            RefreshInterval := refreshInterval } ∧
      (c.wsManager = true →
        (c.SetWithAutoRefresh σ now key value ttl autoRefresh refreshInterval).2
          = [mkEvent "cache_update" "set" key now (some value)]) ∧
      (c.wsManager = false →
        (c.SetWithAutoRefresh σ now key value ttl autoRefresh refreshInterval).2 = []) := by
  refine ⟨?_, ?_, ?_⟩
  · simp only [Cache.SetWithAutoRefresh]
    exact lookup_assign_self _ _ _
  · intro hw
    simp [Cache.SetWithAutoRefresh, broadcast, hw]
  · intro hw
    simp [Cache.SetWithAutoRefresh, broadcast, hw]

/-- Witness of C9: `Put` of a new key with a manager attached. -/
theorem SetWithAutoRefresh_spec_witness :
    (sampleCache [("a", sampleEntry 1 10 50 false)] 2 true).wsManager = true ∧
      ((sampleCache [("a", sampleEntry 1 10 50 false)] 2 true).SetWithAutoRefresh
        [] 30 "b" 2 50 true 5).2 = [mkEvent "cache_update" "set" "b" 30 (some 2)] :=
  ⟨rfl, (SetWithAutoRefresh_spec (sampleCache [("a", sampleEntry 1 10 50 false)] 2 true)
    [] 30 "b" 2 50 true 5).2.1 rfl⟩

/-- C9 as stated fails on a store without a WebSocket manager: the `Put` stores the entry
and broadcasts no event. -/
theorem SetWithAutoRefresh_spec_counterexample :
    lookup ((sampleCache [("a", sampleEntry 1 10 50 false)] 2 false).SetWithAutoRefresh
        [] 30 "b" 2 50 true 5).1.data "b" ≠ none ∧
      ((sampleCache [("a", sampleEntry 1 10 50 false)] 2 false).SetWithAutoRefresh
        [] 30 "b" 2 50 true 5).2 = [] :=
  ⟨by simp [sampleCache, Cache.SetWithAutoRefresh, assign, lookup], rfl⟩

/-- C10, as amended: `Refresh` of a key present with `AutoRefresh = true` sets the
`LastRefresh` of its entry to `now` and changes nothing else in the entry (value,
timestamp, time-to-live and hits stay), adds one to `Refreshes` and changes no other
counter, and leaves every other entry unchanged; one `refresh` event carrying the key and
the stored value is broadcast if a WebSocket manager is attached and none if no manager is
attached. -/
theorem Refresh_spec (c : Cache α) (now : Time) (key : String) (e : CacheEntry α)
    (hl : lookup c.data key = some e) (ha : e.AutoRefresh = true) :
    lookup (c.Refresh now key).1.data key = some { e with LastRefresh := now } ∧
      (c.Refresh now key).1.stats = { c.stats with Refreshes := c.stats.Refreshes + 1 } ∧
      (∀ k2, k2 ≠ key → lookup (c.Refresh now key).1.data k2 = lookup c.data k2) ∧
      (c.wsManager = true →
        (c.Refresh now key).2 = [mkEvent "cache_refresh" "refresh" key now (some e.Data)]) ∧
      (c.wsManager = false → (c.Refresh now key).2 = []) := by
  have hr : c.Refresh now key =
      ({ c with
          data := assign c.data key { e with LastRefresh := now }
          stats := { c.stats with Refreshes := c.stats.Refreshes + 1 } },
        broadcast c (mkEvent "cache_refresh" "refresh" key now (some e.Data))) := by
    simp [Cache.Refresh, hl, ha]
  rw [hr]
  refine ⟨lookup_assign_self _ _ _, rfl, ?_, ?_, ?_⟩
  · intro k2 hk2
    exact lookup_assign_ne _ _ _ _ hk2
  · intro hw
    simp [broadcast, hw]
  · intro hw
    simp [broadcast, hw]

/-- Witness of C10: `Refresh` of an auto-refresh entry with a manager attached. -/
theorem Refresh_spec_witness :
    lookup (sampleCache [("a", sampleEntry 1 10 50 true)] 2 true).data "a"
        = some (sampleEntry 1 10 50 true) ∧
      (sampleEntry 1 10 50 true).AutoRefresh = true ∧
      (sampleCache [("a", sampleEntry 1 10 50 true)] 2 true).wsManager = true ∧
      ((sampleCache [("a", sampleEntry 1 10 50 true)] 2 true).Refresh 30 "a").2
        = [mkEvent "cache_refresh" "refresh" "a" 30 (some (sampleEntry 1 10 50 true).Data)] :=
  ⟨rfl, rfl, rfl,
    (Refresh_spec (sampleCache [("a", sampleEntry 1 10 50 true)] 2 true) 30 "a"
      (sampleEntry 1 10 50 true) rfl rfl).2.2.2.1 rfl⟩

/-- C10 as stated fails on a store without a WebSocket manager: the entry is refreshed,
the counter goes up, and no event is broadcast. -/
theorem Refresh_spec_counterexample :
    lookup (sampleCache [("a", sampleEntry 1 10 50 true)] 2 false).data "a"
        = some (sampleEntry 1 10 50 true) ∧
      (sampleEntry 1 10 50 true).AutoRefresh = true ∧
      ((sampleCache [("a", sampleEntry 1 10 50 true)] 2 false).Refresh 30 "a").1.stats.Refreshes
        = (sampleCache [("a", sampleEntry 1 10 50 true)] 2 false).stats.Refreshes + 1 ∧
      ((sampleCache [("a", sampleEntry 1 10 50 true)] 2 false).Refresh 30 "a").2 = [] :=
  ⟨rfl, rfl, by decide, rfl⟩

end Events

/-! ## The capacity bound -/

section Capacity

variable {α : Type}

theorem evictOldest_noDupKeys (c : Cache α) (σ : List String) (hm : NoDupKeys c.data) :
    NoDupKeys (c.evictOldest σ).data := by
  unfold Cache.evictOldest
  dsimp only
  split
  · exact noDupKeys_remove _ _ hm
  · exact hm

theorem evictOldest_lookup_of_none (c : Cache α) (σ : List String) (k : String)
    (h : lookup c.data k = none) : lookup (c.evictOldest σ).data k = none := by
  unfold Cache.evictOldest
  dsimp only
  split
  · unfold remove
    exact lookup_filter_of_none _ _ _ h
  · exact h

theorem step_noDupKeys (c : Cache α) (op : Op α) (hm : NoDupKeys c.data) :
    NoDupKeys (c.step op).data := by
  cases op with
  | SetWebSocketManager => exact hm
  | Put σ now key value ttl autoRefresh refreshInterval =>
    simp only [Cache.step, Cache.SetWithAutoRefresh]
    apply noDupKeys_assign
    split
    · exact evictOldest_noDupKeys c σ hm
    · exact hm
  | Get now key =>
    simp only [Cache.step, Get_eq]
    split
    · exact hm
    · split
      · exact noDupKeys_remove _ _ hm
      · exact noDupKeys_assign _ _ _ hm
  | Delete now key =>
    simp only [Cache.step, Cache.Delete]
    split
    · exact noDupKeys_remove _ _ hm
    · exact hm
  | Clear now => simp [Cache.step, Cache.Clear, NoDupKeys, keysOf]
  | Refresh now key =>
    simp only [Cache.step, Cache.Refresh]
    split
    · exact hm
    · split
      · exact hm
      · exact noDupKeys_assign _ _ _ hm
  | cleanup now =>
    simp only [Cache.step, cleanup_eq]
    split
    · exact noDupKeys_filter _ _ hm
    · exact noDupKeys_filter _ _ hm

theorem step_maxSize (c : Cache α) (op : Op α) : (c.step op).maxSize = c.maxSize := by
  cases op with
  | SetWebSocketManager => rfl
  | Put σ now key value ttl autoRefresh refreshInterval =>
    simp only [Cache.step, Cache.SetWithAutoRefresh, Cache.evictOldest]
    split
    · split <;> rfl
    · rfl
  | Get now key =>
    simp only [Cache.step, Get_eq]
    split
    · rfl
    · split <;> rfl
  | Delete now key =>
    simp only [Cache.step, Cache.Delete]
    split <;> rfl
  | Clear now => rfl
  | Refresh now key =>
    simp only [Cache.step, Cache.Refresh]
    split
    · rfl
    · split <;> rfl
  | cleanup now =>
    simp only [Cache.step, cleanup_eq]
    split <;> rfl

/-- No operation other than a `Put` of the empty string stores an entry under it. -/
theorem step_lookup_empty (c : Cache α) (op : Op α) (hop : op.putsEmptyKey = false)
    (he : lookup c.data "" = none) : lookup (c.step op).data "" = none := by
  cases op with
  | SetWebSocketManager => exact he
  | Put σ now key value ttl autoRefresh refreshInterval =>
    have hk : "" ≠ key := by
      intro e
      simp [Op.putsEmptyKey, ← e] at hop
    simp only [Cache.step, Cache.SetWithAutoRefresh]
    rw [lookup_assign_ne _ _ _ _ hk]
    split
    · exact evictOldest_lookup_of_none c σ "" he
    · exact he
  | Get now key =>
    simp only [Cache.step, Get_eq]
    split
    · exact he
    · rename_i entry hl
      have hk : "" ≠ key := by
        intro e
        rw [← e, he] at hl
        exact absurd hl (by simp)
      split
      · rw [lookup_remove_ne _ _ _ hk]
        exact he
      · rw [lookup_assign_ne _ _ _ _ hk]
        exact he
  | Delete now key =>
    simp only [Cache.step, Cache.Delete]
    split
    · unfold remove
      exact lookup_filter_of_none _ _ _ he
    · exact he
  | Clear now => rfl
  | Refresh now key =>
    simp only [Cache.step, Cache.Refresh]
    split
    · exact he
    · rename_i entry hl
      have hk : "" ≠ key := by
        intro e
        rw [← e, he] at hl
        exact absurd hl (by simp)
      split
      · exact he
      · rw [lookup_assign_ne _ _ _ _ hk]
        exact he
  | cleanup now =>
    simp only [Cache.step, cleanup_eq]
    split
    · exact lookup_filter_of_none _ _ _ he
    · exact lookup_filter_of_none _ _ _ he

/-- One operation keeps the number of entries within `max maxSize 1`. -/
theorem step_length_le (c : Cache α) (op : Op α) (hm : NoDupKeys c.data)
    (he : lookup c.data "" = none) (hlen : (c.data.length : Int) ≤ max c.maxSize 1) :
    ((c.step op).data.length : Int) ≤ max c.maxSize 1 := by
  cases op with
  | SetWebSocketManager => exact hlen
  | Put σ now key value ttl autoRefresh refreshInterval =>
    simp only [Cache.step, Cache.SetWithAutoRefresh]
    rw [length_assign]
    by_cases hg : (c.data.length : Int) ≥ c.maxSize ∧ (lookup c.data key).isNone = true
    · rw [if_pos hg]
      have hkn : lookup c.data key = none := by simpa using hg.2
      by_cases hnil : c.data = []
      · rw [evictOldest_of_nil c σ hnil, hkn, hnil]
        simp
      · obtain ⟨k, e, h1, _, h3⟩ := evictOldest_of_ne_nil c σ hm he hnil
        rw [h3]
        have hkk : key ≠ k := by
          intro e1
          rw [← e1, hkn] at h1
          exact absurd h1 (by simp)
        have h4 := length_remove_of_lookup c.data k e hm h1
        simp only [lookup_remove_ne _ _ _ hkk, hkn]
        simp only [Option.isSome_none, Bool.false_eq_true, if_false]
        omega
    · rw [if_neg hg]
      cases hl : lookup c.data key with
      | some x => simpa using hlen
      | none =>
        have : ¬ (c.data.length : Int) ≥ c.maxSize := by
          intro h
          exact hg ⟨h, by simp [hl]⟩
        simp only [Option.isSome_none, Bool.false_eq_true, if_false]
        have h5 : (c.data.length : Int) + 1 ≤ c.maxSize := by omega
        have h6 : c.maxSize ≤ max c.maxSize 1 := le_max_left _ _
        push_cast
        omega
  | Get now key =>
    simp only [Cache.step, Get_eq]
    split
    · exact hlen
    · rename_i entry hl
      split
      · have := length_remove_le c.data key
        dsimp only
        omega
      · rw [length_assign, hl]
        simpa using hlen
  | Delete now key =>
    simp only [Cache.step, Cache.Delete]
    split
    · have := length_remove_le c.data key
      dsimp only
      omega
    · exact hlen
  | Clear now =>
    simp only [Cache.step, Cache.Clear, List.length_nil]
    have : (1 : Int) ≤ max c.maxSize 1 := le_max_right _ _
    omega
  | Refresh now key =>
    simp only [Cache.step, Cache.Refresh]
    split
    · exact hlen
    · rename_i entry hl
      split
      · exact hlen
      · rw [length_assign, hl]
        simpa using hlen
  | cleanup now =>
    simp only [Cache.step, cleanup_eq]
    have := List.length_filter_le (fun p : String × CacheEntry α =>
      !decide (now - p.2.Timestamp > p.2.TTL)) c.data
    split <;> dsimp only <;> omega

/-- Invariant of a run without a `Put` of the empty string. -/
theorem run_length_le (ops : List (Op α)) (c : Cache α) (hm : NoDupKeys c.data)
    (he : lookup c.data "" = none) (hlen : (c.data.length : Int) ≤ max c.maxSize 1)
    (hops : ∀ op ∈ ops, op.putsEmptyKey = false) :
    ((c.run ops).data.length : Int) ≤ max c.maxSize 1 := by
  induction ops generalizing c with
  | nil => exact hlen
  | cons op ops ih =>
    have hop := hops op (List.mem_cons_self _ _)
    have h := ih (c.step op) (step_noDupKeys c op hm) (step_lookup_empty c op hop he)
      (by rw [step_maxSize]; exact step_length_le c op hm he hlen)
      (fun o ho => hops o (List.mem_cons_of_mem _ ho))
    rw [step_maxSize] at h
    exact h

/-- C2, as amended: after every sequence of operations on a newly constructed store of
capacity `N`, none of them a `Put` of the empty string, the store holds at most
`max N 1` entries (at most `N` when `N ≥ 1`).  Every prefix of such a sequence is such a
sequence, so the bound holds after each operation. -/
theorem run_NewCache_length_le (N : Int) (defaultTTL cleanupInterval : Duration)
    (ops : List (Op α)) (hops : ∀ op ∈ ops, op.putsEmptyKey = false) :
    ((((NewCache N defaultTTL cleanupInterval : Cache α).run ops).data.length : Int)
        ≤ max N 1) ∧
      (1 ≤ N → (((NewCache N defaultTTL cleanupInterval : Cache α).run ops).data.length : Int)
        ≤ N) := by
  have h := run_length_le ops (NewCache N defaultTTL cleanupInterval : Cache α)
    (by simp [NewCache, NoDupKeys, keysOf]) rfl
    (by simp only [NewCache, List.length_nil]
        have : (1 : Int) ≤ max N 1 := le_max_right _ _
        omega) hops
  refine ⟨h, ?_⟩
  intro hN
  have hmax : max N 1 = N := max_eq_left hN
  have h2 : (NewCache N defaultTTL cleanupInterval : Cache α).maxSize = N := rfl
  rw [h2, hmax] at h
  exact h

/-- Witness of C2: three `Put`s, a `Get` and a cleanup tick on a store of capacity two. -/
theorem run_NewCache_length_le_witness :
    (((NewCache 2 300 600 : Cache Nat).run
        [Op.Put [] 10 "a" 1 50 false 0, Op.Put [] 20 "b" 2 50 false 0, Op.Get 25 "a",
          Op.Put [] 30 "c" 3 50 false 0, Op.cleanup 65]).data.length : Int) ≤ max 2 1 :=
  (run_NewCache_length_le 2 300 600
    [Op.Put [] 10 "a" 1 50 false 0, Op.Put [] 20 "b" 2 50 false 0, Op.Get 25 "a",
      Op.Put [] 30 "c" 3 50 false 0, Op.cleanup 65] (by decide)).1

/-- C2 as stated fails for capacity zero: the first `Put` on the new store leaves one
entry. -/
theorem run_NewCache_length_counterexample :
    ¬ ((((NewCache 0 300 600 : Cache Nat).run
        [Op.Put [] 10 "a" 1 50 false 0]).data.length : Int) ≤ 0) := by
  decide

/-- With a `Put` of the empty string the bound also fails for capacity one: the eviction
scan ends with `oldestKey == ""` and removes nothing. -/
theorem run_NewCache_emptyKey_exceeds :
    ((NewCache 1 300 600 : Cache Nat).run
      [Op.Put [] 10 "" 1 50 false 0, Op.Put [] 20 "a" 2 50 false 0]).data.length = 2 := by
  decide

end Capacity

/-! ## Refresh without effect, scheduler tick, cleanup tick -/

section Scheduler

variable {α : Type}

theorem Refresh_of_absent (c : Cache α) (now : Time) (key : String)
    (h : lookup c.data key = none) : c.Refresh now key = (c, []) := by
  simp only [Cache.Refresh, h]

theorem Refresh_of_manual (c : Cache α) (now : Time) (key : String) (e : CacheEntry α)
    (h : lookup c.data key = some e) (ha : e.AutoRefresh = false) :
    c.Refresh now key = (c, []) := by
  simp [Cache.Refresh, h, ha]

theorem Refresh_of_auto (c : Cache α) (now : Time) (key : String) (e : CacheEntry α)
    (h : lookup c.data key = some e) (ha : e.AutoRefresh = true) :
    c.Refresh now key =
      ({ c with
          data := assign c.data key { e with LastRefresh := now }
          stats := { c.stats with Refreshes := c.stats.Refreshes + 1 } },
        broadcast c (mkEvent "cache_refresh" "refresh" key now (some e.Data))) := by
  simp [Cache.Refresh, h, ha]

/-- C11: `Refresh` of a key that is absent, or whose entry has `AutoRefresh = false`, returns
the store as it was (no entry and no counter changes) and broadcasts nothing. -/
theorem Refresh_noop (c : Cache α) (now : Time) (key : String)
    (h : lookup c.data key = none ∨
      ∃ e, lookup c.data key = some e ∧ e.AutoRefresh = false) :
    c.Refresh now key = (c, []) := by
  rcases h with h | ⟨e, h, ha⟩
  · exact Refresh_of_absent c now key h
  · exact Refresh_of_manual c now key e h ha

/-- Witness of C11: `Refresh` of an entry stored without auto-refresh. -/
theorem Refresh_noop_witness :
    (lookup (sampleCache [("a", sampleEntry 1 10 50 false)] 2 true).data "a" = none ∨
      ∃ e, lookup (sampleCache [("a", sampleEntry 1 10 50 false)] 2 true).data "a" = some e ∧
        e.AutoRefresh = false) ∧
      (sampleCache [("a", sampleEntry 1 10 50 false)] 2 true).Refresh 30 "a"
        = (sampleCache [("a", sampleEntry 1 10 50 false)] 2 true, []) :=
  ⟨Or.inr ⟨sampleEntry 1 10 50 false, rfl, rfl⟩,
    Refresh_noop (sampleCache [("a", sampleEntry 1 10 50 false)] 2 true) 30 "a"
      (Or.inr ⟨sampleEntry 1 10 50 false, rfl, rfl⟩)⟩

theorem noDupKeys_visit (σ : List String) (m : List (String × α)) (hm : NoDupKeys m) :
    NoDupKeys (visit m σ) := by
  induction σ generalizing m with
  | nil => simpa [visit] using hm
  | cons k σ ih =>
    simp only [visit]
    cases hl : lookup m k with
    | none => exact ih m hm
    | some v =>
      have h1 := ih (remove m k) (noDupKeys_remove m k hm)
      have h2 : k ∉ keysOf (visit (remove m k) σ) := by
        intro hk
        obtain ⟨p, hp, hpk⟩ := List.mem_map.1 hk
        have h3 := ((mem_remove m k p).1 (mem_of_mem_visit σ _ p hp)).2
        exact h3 hpk
      unfold NoDupKeys keysOf at *
      simp only [List.map_cons, List.nodup_cons]
      exact ⟨h2, h1⟩

theorem lookup_filter_of_neg (m : List (String × α)) (f : String × α → Bool) (key : String)
    (v : α) (hm : NoDupKeys m) (h : lookup m key = some v) (hf : f (key, v) = false) :
    lookup (m.filter f) key = none := by
  cases hl : lookup (m.filter f) key with
  | none => rfl
  | some x =>
    exfalso
    have h1 := mem_of_lookup _ _ _ hl
    have h2 := List.mem_filter.1 h1
    have h3 := lookup_of_mem m key x hm h2.1
    rw [h] at h3
    have h4 : v = x := by simpa using h3
    rw [← h4, hf] at h2
    exact absurd h2.2 (by simp)

/-- Keys collected by the scan of `checkAutoRefresh`: no key twice, and exactly the keys of the
entries that are due. -/
theorem toRefresh_spec (m : List (String × CacheEntry α)) (σ : List String) (now : Time)
    (hm : NoDupKeys m) :
    (((visit m σ).filter (fun p => dueForRefresh now p.2)).map Prod.fst).Nodup ∧
      ∀ k, k ∈ ((visit m σ).filter (fun p => dueForRefresh now p.2)).map Prod.fst ↔
        ∃ e, lookup m k = some e ∧ dueForRefresh now e = true := by
  refine ⟨noDupKeys_filter _ _ (noDupKeys_visit σ m hm), ?_⟩
  intro k
  constructor
  · intro hk
    obtain ⟨p, hp, hpk⟩ := List.mem_map.1 hk
    have h2 := List.mem_filter.1 hp
    refine ⟨p.2, ?_, h2.2⟩
    rw [← hpk]
    exact lookup_of_mem m p.1 p.2 hm (mem_of_mem_visit σ m p h2.1)
  · rintro ⟨e, he, hd⟩
    apply List.mem_map.2
    exact ⟨(k, e), List.mem_filter.2 ⟨mem_visit_of_lookup σ m k e he, hd⟩, rfl⟩

theorem Refresh_wsManager (c : Cache α) (now : Time) (key : String) :
    (c.Refresh now key).1.wsManager = c.wsManager := by
  unfold Cache.Refresh
  split
  · rfl
  · split <;> rfl

/-- The calls of `Refresh` on distinct keys of auto-refresh entries: each entry named gets its
`LastRefresh` set, no other entry changes, and with a manager attached one event per key is
broadcast, in the order of the keys, carrying the value stored. -/
theorem refreshAll_spec (clock : String → Time) (keys : List String) (c : Cache α)
    (hn : keys.Nodup)
    (hk : ∀ k ∈ keys, ∃ e, lookup c.data k = some e ∧ e.AutoRefresh = true) :
    (∀ k ∈ keys, ∀ e, lookup c.data k = some e →
        lookup (c.refreshAll clock keys).1.data k = some { e with LastRefresh := clock k }) ∧
      (∀ k, k ∉ keys → lookup (c.refreshAll clock keys).1.data k = lookup c.data k) ∧
      ((c.refreshAll clock keys).2.map (fun ev => ev.Data.Key)
        = if c.wsManager then keys else []) ∧
      (∀ ev ∈ (c.refreshAll clock keys).2, ∃ e, lookup c.data ev.Data.Key = some e ∧
        ev = mkEvent "cache_refresh" "refresh" ev.Data.Key (clock ev.Data.Key)
          (some e.Data)) := by
  induction keys generalizing c with
  | nil =>
    refine ⟨?_, ?_, ?_, ?_⟩
    · intro k hk2
      simp at hk2
    · intro k _
      rfl
    · simp [Cache.refreshAll]
    · intro ev hev
      simp [Cache.refreshAll] at hev
  | cons k ks ih =>
    have hn2 : k ∉ ks ∧ ks.Nodup := List.nodup_cons.1 hn
    obtain ⟨e, he, ha⟩ := hk k (List.mem_cons_self _ _)
    have hr := Refresh_of_auto c (clock k) k e he ha
    have hne : ∀ k2, k2 ≠ k → lookup (c.Refresh (clock k) k).1.data k2 = lookup c.data k2 := by
      intro k2 hk2
      rw [hr]
      exact lookup_assign_ne _ _ _ _ hk2
    have hself : lookup (c.Refresh (clock k) k).1.data k
        = some { e with LastRefresh := clock k } := by
      rw [hr]
      exact lookup_assign_self _ _ _
    have hks : ∀ k2 ∈ ks, k2 ≠ k := by
      intro k2 hk2 e2
      rw [e2] at hk2
      exact hn2.1 hk2
    have hk1 : ∀ k2 ∈ ks, ∃ e2, lookup (c.Refresh (clock k) k).1.data k2 = some e2 ∧
        e2.AutoRefresh = true := by
      intro k2 hk2
      rw [hne k2 (hks k2 hk2)]
      exact hk k2 (List.mem_cons_of_mem _ hk2)
    obtain ⟨i1, i2, i3, i4⟩ := ih (c.Refresh (clock k) k).1 hn2.2 hk1
    have hunf : c.refreshAll clock (k :: ks) =
        ((((c.Refresh (clock k) k).1).refreshAll clock ks).1,
          (c.Refresh (clock k) k).2 ++ (((c.Refresh (clock k) k).1).refreshAll clock ks).2) :=
      rfl
    rw [hunf]
    refine ⟨?_, ?_, ?_, ?_⟩
    · intro k2 hk2 e2 he2
      rcases List.mem_cons.1 hk2 with h | h
      · subst h
        rw [he] at he2
        have : e = e2 := by simpa using he2
        subst this
        show lookup ((c.Refresh (clock k2) k2).1.refreshAll clock ks).1.data k2 = _
        rw [i2 k2 hn2.1]
        exact hself
      · apply i1 k2 h e2
        rw [hne k2 (hks k2 h)]
        exact he2
    · intro k2 hk2
      have h1 : k2 ≠ k := fun h => hk2 (by rw [h]; exact List.mem_cons_self _ _)
      have h2 : k2 ∉ ks := fun h => hk2 (List.mem_cons_of_mem _ h)
      show lookup ((c.Refresh (clock k) k).1.refreshAll clock ks).1.data k2 = _
      rw [i2 k2 h2, hne k2 h1]
    · show List.map (fun ev => ev.Data.Key)
          ((c.Refresh (clock k) k).2 ++ ((c.Refresh (clock k) k).1.refreshAll clock ks).2) = _
      rw [List.map_append, i3, Refresh_wsManager, hr]
      cases hw : c.wsManager <;> simp [broadcast, hw, mkEvent]
    · intro ev hev
      have hev2 : ev ∈ (c.Refresh (clock k) k).2 ++
          ((c.Refresh (clock k) k).1.refreshAll clock ks).2 := hev
      rcases List.mem_append.1 hev2 with h | h
      · rw [hr] at h
        cases hw : c.wsManager with
        | false => simp [broadcast, hw] at h
        | true =>
          have h2 : ev = mkEvent "cache_refresh" "refresh" k (clock k) (some e.Data) := by
            simpa [broadcast, hw] using h
          refine ⟨e, ?_, ?_⟩
          · rw [h2]
            exact he
          · rw [h2]
            rfl
      · obtain ⟨e2, he2, hev3⟩ := i4 ev h
        have hmem : ev.Data.Key ∈ ks := by
          have h5 : ev.Data.Key ∈ List.map (fun ev => ev.Data.Key)
              ((c.Refresh (clock k) k).1.refreshAll clock ks).2 :=
            List.mem_map.2 ⟨ev, h, rfl⟩
          rw [i3] at h5
          split at h5
          · exact h5
          · simp at h5
        refine ⟨e2, ?_, hev3⟩
        rw [← hne _ (hks _ hmem)]
        exact he2


theorem SetWithAutoRefresh_lookup_self (c : Cache α) (σ : List String) (now : Time)
    (key : String) (value : α) (ttl : Duration) (autoRefresh : Bool)
    (refreshInterval : Duration) :
    lookup (c.SetWithAutoRefresh σ now key value ttl autoRefresh refreshInterval).1.data key
      = some
        { Data := value
          Timestamp := now
          TTL := ttl
          Hits := 0
          LastRefresh := now
          AutoRefresh := autoRefresh
          RefreshInterval := refreshInterval } := by
  simp only [Cache.SetWithAutoRefresh]
  exact lookup_assign_self _ _ _

theorem SetWithAutoRefresh_wsManager (c : Cache α) (σ : List String) (now : Time)
    (key : String) (value : α) (ttl : Duration) (autoRefresh : Bool)
    (refreshInterval : Duration) :
    (c.SetWithAutoRefresh σ now key value ttl autoRefresh refreshInterval).1.wsManager
      = c.wsManager := by
  simp only [Cache.SetWithAutoRefresh, Cache.evictOldest]
  split
  · split <;> rfl
  · rfl

/-- One scheduler tick on a store whose map has no duplicate key. -/
theorem checkAutoRefresh_tick (c : Cache α) (σ : List String) (now : Time)
    (clock : String → Time) (hm : NoDupKeys c.data) :
    (∀ k e, lookup c.data k = some e → dueForRefresh now e = true →
        lookup (c.checkAutoRefresh σ now clock).1.data k
          = some { e with LastRefresh := clock k }) ∧
      (∀ k e, lookup c.data k = some e → dueForRefresh now e = false →
        lookup (c.checkAutoRefresh σ now clock).1.data k = some e) ∧
      (∀ k, lookup c.data k = none →
        lookup (c.checkAutoRefresh σ now clock).1.data k = none) ∧
      (c.wsManager = true →
        ((c.checkAutoRefresh σ now clock).2.map (fun ev => ev.Data.Key)).Nodup ∧
        (∀ k, k ∈ (c.checkAutoRefresh σ now clock).2.map (fun ev => ev.Data.Key) ↔
          ∃ e, lookup c.data k = some e ∧ dueForRefresh now e = true) ∧
        ∀ ev ∈ (c.checkAutoRefresh σ now clock).2,
          ∃ e, lookup c.data ev.Data.Key = some e ∧
            ev = mkEvent "cache_refresh" "refresh" ev.Data.Key (clock ev.Data.Key)
              (some e.Data)) ∧
      (c.wsManager = false → (c.checkAutoRefresh σ now clock).2 = []) := by
  obtain ⟨hnd, hmem⟩ := toRefresh_spec c.data σ now hm
  have hauto : ∀ k ∈ ((visit c.data σ).filter (fun p => dueForRefresh now p.2)).map Prod.fst,
      ∃ e, lookup c.data k = some e ∧ e.AutoRefresh = true := by
    intro k hk
    obtain ⟨e, he, hd⟩ := (hmem k).1 hk
    refine ⟨e, he, ?_⟩
    simp only [dueForRefresh, Bool.and_eq_true] at hd
    exact hd.1.1
  obtain ⟨r1, r2, r3, r4⟩ := refreshAll_spec clock _ c hnd hauto
  have hunf : c.checkAutoRefresh σ now clock = c.refreshAll clock
      (((visit c.data σ).filter (fun p => dueForRefresh now p.2)).map Prod.fst) := rfl
  rw [hunf]
  refine ⟨?_, ?_, ?_, ?_, ?_⟩
  · intro k e he hd
    exact r1 k ((hmem k).2 ⟨e, he, hd⟩) e he
  · intro k e he hd
    rw [r2 k, he]
    intro hk
    obtain ⟨e2, he2, hd2⟩ := (hmem k).1 hk
    rw [he] at he2
    have : e = e2 := by simpa using he2
    rw [← this, hd] at hd2
    exact absurd hd2 (by simp)
  · intro k hk
    rw [r2 k, hk]
    intro hk2
    obtain ⟨e2, he2, _⟩ := (hmem k).1 hk2
    rw [hk] at he2
    exact absurd he2 (by simp)
  · intro hw
    rw [hw] at r3
    simp only [if_true] at r3
    refine ⟨?_, ?_, r4⟩
    · rw [r3]
      exact hnd
    · intro k
      rw [r3]
      exact hmem k
  · intro hw
    rw [hw] at r3
    simpa using r3

/-- C12, as amended: one scheduler tick sets `LastRefresh` of exactly the entries with
`AutoRefresh`, `RefreshInterval > 0` and `now - LastRefresh ≥ RefreshInterval` and leaves
every other entry unchanged; with a WebSocket manager attached each such key gets exactly one
`refresh` event carrying its stored value and no other key gets an event, and without a
manager no event is broadcast.  In particular, with a manager attached, a tick at or after
`r > 0` past a `Put` of `v` under `k` with auto-refresh and interval `r` broadcasts a
`refresh` event for `k` carrying `v`. -/
theorem checkAutoRefresh_spec (c : Cache α) (σ : List String) (now : Time)
    (clock : String → Time) (hm : NoDupKeys c.data) :
    ((∀ k e, lookup c.data k = some e → dueForRefresh now e = true →
        lookup (c.checkAutoRefresh σ now clock).1.data k
          = some { e with LastRefresh := clock k }) ∧
      (∀ k e, lookup c.data k = some e → dueForRefresh now e = false →
        lookup (c.checkAutoRefresh σ now clock).1.data k = some e) ∧
      (∀ k, lookup c.data k = none →
        lookup (c.checkAutoRefresh σ now clock).1.data k = none) ∧
      (c.wsManager = true →
        ((c.checkAutoRefresh σ now clock).2.map (fun ev => ev.Data.Key)).Nodup ∧
        (∀ k, k ∈ (c.checkAutoRefresh σ now clock).2.map (fun ev => ev.Data.Key) ↔
          ∃ e, lookup c.data k = some e ∧ dueForRefresh now e = true) ∧
        ∀ ev ∈ (c.checkAutoRefresh σ now clock).2,
          ∃ e, lookup c.data ev.Data.Key = some e ∧
            ev = mkEvent "cache_refresh" "refresh" ev.Data.Key (clock ev.Data.Key)
              (some e.Data)) ∧
      (c.wsManager = false → (c.checkAutoRefresh σ now clock).2 = [])) ∧
    (∀ (σ0 : List String) (t0 : Time) (k : String) (v : α) (ttl r : Duration),
      r > 0 → now - t0 ≥ r → c.wsManager = true →
      mkEvent "cache_refresh" "refresh" k (clock k) (some v) ∈
        ((c.SetWithAutoRefresh σ0 t0 k v ttl true r).1.checkAutoRefresh σ now clock).2) := by
  refine ⟨checkAutoRefresh_tick c σ now clock hm, ?_⟩
  intro σ0 t0 k v ttl r hr hnow hw
  have hm1 : NoDupKeys (c.SetWithAutoRefresh σ0 t0 k v ttl true r).1.data :=
    step_noDupKeys c (.Put σ0 t0 k v ttl true r) hm
  have hw1 : (c.SetWithAutoRefresh σ0 t0 k v ttl true r).1.wsManager = true := by
    rw [SetWithAutoRefresh_wsManager]
    exact hw
  have hl := (SetWithAutoRefresh_lookup_self c σ0 t0 k v ttl true r)
  obtain ⟨_, hkeys, hev⟩ :=
    (checkAutoRefresh_tick (c.SetWithAutoRefresh σ0 t0 k v ttl true r).1 σ now clock
      hm1).2.2.2.1 hw1
  have hdue : dueForRefresh now
      ({ Data := v, Timestamp := t0, TTL := ttl, Hits := 0, LastRefresh := t0,
         AutoRefresh := true, RefreshInterval := r } : CacheEntry α) = true := by
    simp [dueForRefresh, hr, hnow]
  obtain ⟨ev, hev1, hev2⟩ := List.mem_map.1 ((hkeys k).2 ⟨_, hl, hdue⟩)
  obtain ⟨e, he1, he2⟩ := hev ev hev1
  rw [hev2, hl] at he1
  have he3 : e =
      { Data := v, Timestamp := t0, TTL := ttl, Hits := 0, LastRefresh := t0,
        AutoRefresh := true, RefreshInterval := r } := by
    simpa using he1.symm
  rw [hev2, he3] at he2
  rw [← he2]
  exact hev1


/-- Witness of C12: one entry due at the tick, a manager attached. -/
theorem checkAutoRefresh_spec_witness :
    NoDupKeys (sampleCache
        [("a", { sampleEntry 1 10 50 true with RefreshInterval := 5 })] 2 true).data ∧
      lookup ((sampleCache
        [("a", { sampleEntry 1 10 50 true with RefreshInterval := 5 })] 2 true).checkAutoRefresh
          [] 20 (fun _ => 21)).1.data "a"
        = some { { sampleEntry 1 10 50 true with RefreshInterval := 5 } with
            LastRefresh := 21 } :=
  ⟨by simp [NoDupKeys, keysOf, sampleCache],
    (checkAutoRefresh_spec
      (sampleCache [("a", { sampleEntry 1 10 50 true with RefreshInterval := 5 })] 2 true)
      [] 20 (fun _ => 21) (by simp [NoDupKeys, keysOf, sampleCache])).1.1 "a"
      { sampleEntry 1 10 50 true with RefreshInterval := 5 } rfl (by decide)⟩

/-- C12 as stated fails on a store without a WebSocket manager: the entry is due at the tick,
its `LastRefresh` is set, and no event is broadcast. -/
theorem checkAutoRefresh_spec_counterexample :
    lookup (sampleCache
        [("a", { sampleEntry 1 10 50 true with RefreshInterval := 5 })] 2 false).data "a"
        = some { sampleEntry 1 10 50 true with RefreshInterval := 5 } ∧
      dueForRefresh 20 { sampleEntry 1 10 50 true with RefreshInterval := 5 } = true ∧
      lookup ((sampleCache
        [("a", { sampleEntry 1 10 50 true with RefreshInterval := 5 })] 2 false).checkAutoRefresh
          [] 20 (fun _ => 21)).1.data "a"
        = some { { sampleEntry 1 10 50 true with RefreshInterval := 5 } with
            LastRefresh := 21 } ∧
      ((sampleCache
        [("a", { sampleEntry 1 10 50 true with RefreshInterval := 5 })] 2 false).checkAutoRefresh
          [] 20 (fun _ => 21)).2 = [] :=
  ⟨rfl, by decide, rfl, rfl⟩

theorem cleanup_data (c : Cache α) (now : Time) :
    (c.cleanup now).data
      = c.data.filter (fun p => !decide (now - p.2.Timestamp > p.2.TTL)) := by
  simp only [cleanup_eq]
  split <;> rfl

/-- C13: a cleanup tick removes every entry with `now - Timestamp > TTL` and no other:
afterwards the store holds exactly the entries that were not expired at `now`, unchanged. -/
theorem cleanup_spec (c : Cache α) (now : Time) (hm : NoDupKeys c.data) :
    (∀ k e, lookup c.data k = some e → now - e.Timestamp > e.TTL →
        lookup (c.cleanup now).data k = none) ∧
      (∀ k e, lookup c.data k = some e → ¬ now - e.Timestamp > e.TTL →
        lookup (c.cleanup now).data k = some e) ∧
      (∀ k, lookup c.data k = none → lookup (c.cleanup now).data k = none) := by
  rw [cleanup_data]
  refine ⟨?_, ?_, ?_⟩
  · intro k e he hx
    exact lookup_filter_of_neg c.data _ k e hm he (by simp [hx])
  · intro k e he hx
    exact lookup_filter_of_pos c.data _ k e he (by simp only [hx, decide_False, Bool.not_false])
  · intro k hk
    exact lookup_filter_of_none c.data _ k hk

/-- Witness of C13: of two entries, the one stored at time 10 with time-to-live 50 is expired
at time 65 and removed. -/
theorem cleanup_spec_witness :
    NoDupKeys (sampleCache [("a", sampleEntry 1 10 50 false), ("b", sampleEntry 2 20 50 false)]
        2 true).data ∧
      lookup ((sampleCache [("a", sampleEntry 1 10 50 false), ("b", sampleEntry 2 20 50 false)]
        2 true).cleanup 65).data "a" = none :=
  ⟨by simp [NoDupKeys, keysOf, sampleCache],
    (cleanup_spec
      (sampleCache [("a", sampleEntry 1 10 50 false), ("b", sampleEntry 2 20 50 false)] 2 true)
      65 (by simp [NoDupKeys, keysOf, sampleCache])).1 "a" (sampleEntry 1 10 50 false) rfl
      (by decide)⟩

/-- C14, as amended: a cleanup tick that finds an expired entry sets `LastCleanup` to `now`
and `Size` to the number of entries remaining; a tick that finds none leaves the store,
`LastCleanup` and every other counter as they were.  In both cases the `Size` reported by
`GetStats` is the number of entries remaining. -/
theorem cleanup_counters (c : Cache α) (now : Time) (hm : NoDupKeys c.data) :
    ((∃ k e, lookup c.data k = some e ∧ now - e.Timestamp > e.TTL) →
        (c.cleanup now).stats.LastCleanup = now ∧
          (c.cleanup now).stats.Size = (c.cleanup now).data.length) ∧
      ((∀ k e, lookup c.data k = some e → ¬ now - e.Timestamp > e.TTL) →
        c.cleanup now = c) ∧
      (c.cleanup now).GetStats.Size = (c.cleanup now).data.length := by
  refine ⟨?_, ?_, rfl⟩
  · rintro ⟨k, e, he, hx⟩
    have hlt : (c.data.filter (fun p => !decide (now - p.2.Timestamp > p.2.TTL))).length
        < c.data.length := by
      apply List.length_filter_lt_length_iff_exists.2
      exact ⟨(k, e), mem_of_lookup c.data k e he, by simp [hx]⟩
    have hpos : c.data.length
        - (c.data.filter (fun p => !decide (now - p.2.Timestamp > p.2.TTL))).length > 0 := by
      omega
    simp only [cleanup_eq, hpos, if_true, and_self]
  · intro hall
    have hself : c.data.filter (fun p => !decide (now - p.2.Timestamp > p.2.TTL)) = c.data := by
      apply List.filter_eq_self.2
      intro p hp
      have := hall p.1 p.2 (lookup_of_mem c.data p.1 p.2 hm hp)
      simp only [this, decide_False, Bool.not_false]
    simp only [cleanup_eq, hself, Nat.sub_self, gt_iff_lt, lt_self_iff_false, if_false]

/-- Witness of C14: a tick at time 65 that removes the entry stored at 10 with
time-to-live 50. -/
theorem cleanup_counters_witness :
    NoDupKeys (sampleCache [("a", sampleEntry 1 10 50 false), ("b", sampleEntry 2 20 50 false)]
        2 true).data ∧
      ((sampleCache [("a", sampleEntry 1 10 50 false), ("b", sampleEntry 2 20 50 false)]
        2 true).cleanup 65).stats.LastCleanup = 65 :=
  ⟨by simp [NoDupKeys, keysOf, sampleCache],
    ((cleanup_counters
      (sampleCache [("a", sampleEntry 1 10 50 false), ("b", sampleEntry 2 20 50 false)] 2 true)
      65 (by simp [NoDupKeys, keysOf, sampleCache])).1
      ⟨"a", sampleEntry 1 10 50 false, rfl, by decide⟩).1⟩

/-- C14 as stated fails for a tick that removes nothing: the entry stored at time 10 with
time-to-live 50 is kept by a tick at time 20, and `LastCleanup` stays at its old value. -/
theorem cleanup_counters_counterexample :
    ((sampleCache [("a", sampleEntry 1 10 50 false)] 2 true).cleanup 20).data.length = 1 ∧
      ((sampleCache [("a", sampleEntry 1 10 50 false)] 2 true).cleanup 20).stats.LastCleanup
        = 0 ∧
      ¬ (((sampleCache [("a", sampleEntry 1 10 50 false)] 2 true).cleanup 20).stats.LastCleanup
        = 20) := by
  decide

theorem Get_evictions (c : Cache α) (now : Time) (key : String) :
    (c.step (.Get now key)).stats.Evictions = c.stats.Evictions := by
  simp only [Cache.step, Get_eq]
  split
  · rfl
  · split <;> rfl

theorem cleanupTraced_events (c : Cache α) (now : Time) : (c.cleanupTraced now).2 = [] := by
  simp only [Cache.cleanupTraced]
  split <;> rfl

theorem GetTraced_events (c : Cache α) (now : Time) (key : String) :
    (c.GetTraced now key).2.2 = [] := by
  simp only [Cache.GetTraced]
  split
  · rfl
  · split <;> rfl

/-- C15: a cleanup tick hands no event to `Broadcast`, however many entries it removes (the
tick that returns no event is the one that leaves the store without its expired entries), and
a `Get` hands no event to `Broadcast`, also when it removes an expired entry; neither changes
the `Evictions` counter.  This holds in every state, with or without a manager attached. -/
theorem passive_expiry_silent (c : Cache α) (now : Time) (key : String) :
    (c.cleanupTraced now).2 = [] ∧ (c.GetTraced now key).2.2 = [] ∧
      c.emitted (.cleanup now) = [] ∧ c.emitted (.Get now key) = [] ∧
      (c.cleanupTraced now).1.data
        = c.data.filter (fun p => !decide (now - p.2.Timestamp > p.2.TTL)) ∧
      (∀ e, lookup c.data key = some e → now - e.Timestamp > e.TTL →
        (c.GetTraced now key).1.data = remove c.data key ∧ (c.GetTraced now key).2.1 = none) ∧
      (c.step (.cleanup now)).stats.Evictions = c.stats.Evictions ∧
      (c.step (.Get now key)).stats.Evictions = c.stats.Evictions := by
  refine ⟨cleanupTraced_events c now, GetTraced_events c now key, cleanupTraced_events c now,
    GetTraced_events c now key, cleanup_data c now, ?_, ?_, Get_evictions c now key⟩
  · intro e he hx
    have h := Get_of_expired c now key e he hx
    constructor
    · show (c.Get now key).1.data = remove c.data key
      rw [h]
    · show (c.Get now key).2 = none
      rw [h]
  · simp only [Cache.step, cleanup_eq]
    split <;> rfl

/-- Witness of C15, with a manager attached: at time 65 the entry `"a"`, stored at 10 with
time-to-live 50, has expired.  `Get` of `"a"` removes it and the cleanup tick removes it, both
without an event, while `Delete` of `"a"` in the same state broadcasts its event. -/
theorem passive_expiry_silent_witness :
    lookup (sampleCache [("a", sampleEntry 1 10 50 false), ("b", sampleEntry 2 20 50 false)]
        2 true).data "a" = some (sampleEntry 1 10 50 false) ∧
      (65 : Time) - 10 > 50 ∧
      ((sampleCache [("a", sampleEntry 1 10 50 false), ("b", sampleEntry 2 20 50 false)]
        2 true).GetTraced 65 "a").1.data = [("b", sampleEntry 2 20 50 false)] ∧
      ((sampleCache [("a", sampleEntry 1 10 50 false), ("b", sampleEntry 2 20 50 false)]
        2 true).GetTraced 65 "a").2.2 = [] ∧
      ((sampleCache [("a", sampleEntry 1 10 50 false), ("b", sampleEntry 2 20 50 false)]
        2 true).cleanupTraced 65).1.data = [("b", sampleEntry 2 20 50 false)] ∧
      ((sampleCache [("a", sampleEntry 1 10 50 false), ("b", sampleEntry 2 20 50 false)]
        2 true).cleanupTraced 65).2 = [] ∧
      ((sampleCache [("a", sampleEntry 1 10 50 false), ("b", sampleEntry 2 20 50 false)]
        2 true).Delete 65 "a").2.2 = [mkEvent "cache_delete" "delete" "a" 65 none] :=
  ⟨rfl, by decide,
    ((passive_expiry_silent
      (sampleCache [("a", sampleEntry 1 10 50 false), ("b", sampleEntry 2 20 50 false)] 2 true)
      65 "a").2.2.2.2.2.1 (sampleEntry 1 10 50 false) rfl (by decide)).1,
    (passive_expiry_silent
      (sampleCache [("a", sampleEntry 1 10 50 false), ("b", sampleEntry 2 20 50 false)] 2 true)
      65 "a").2.1,
    (passive_expiry_silent
      (sampleCache [("a", sampleEntry 1 10 50 false), ("b", sampleEntry 2 20 50 false)] 2 true)
      65 "a").2.2.2.2.1,
    (passive_expiry_silent
      (sampleCache [("a", sampleEntry 1 10 50 false), ("b", sampleEntry 2 20 50 false)] 2 true)
      65 "a").1,
    rfl⟩

end Scheduler

/-! ## Start and stop, hit counts -/

section Background

variable {α : Type}

/-- C21: `StartAutoRefresh` with the ticker set returns the state as it is (no further loop,
no further ticker), `StopAutoRefresh` with no ticker set returns at once with the state as it
is, neither panics, a second `StartAutoRefresh` changes nothing after a first, and a second
`StopAutoRefresh` changes nothing after a first; when a loop is running whenever the ticker
is set, as it is after `NewCache`, `StopAutoRefresh` returns. -/
theorem StartStop_idempotent (r : Routines) :
    (r.refreshTicker = true → r.StartAutoRefresh = r) ∧
      (r.refreshTicker = false → r.StopAutoRefresh = .done r) ∧
      r.StartAutoRefresh.StartAutoRefresh = r.StartAutoRefresh ∧
      r.StopAutoRefresh.andThen Routines.StopAutoRefresh = r.StopAutoRefresh ∧
      r.StopAutoRefresh ≠ .panics ∧
      ((r.refreshTicker = true → 1 ≤ r.refreshLoops) →
        ∃ s, r.StopAutoRefresh = .done s ∧ s.refreshTicker = false) := by
  refine ⟨?_, ?_, ?_, ?_, ?_, ?_⟩
  · intro h
    simp [Routines.StartAutoRefresh, h]
  · intro h
    simp [Routines.StopAutoRefresh, h]
  · cases h : r.refreshTicker <;> simp [Routines.StartAutoRefresh, h]
  · cases h : r.refreshTicker with
    | false => simp [Routines.StopAutoRefresh, h, Outcome.andThen]
    | true =>
      by_cases h0 : r.refreshLoops = 0
      · simp [Routines.StopAutoRefresh, h, h0, Outcome.andThen]
      · simp [Routines.StopAutoRefresh, h, h0, Outcome.andThen]
  · cases h : r.refreshTicker with
    | false => simp [Routines.StopAutoRefresh, h]
    | true =>
      by_cases h0 : r.refreshLoops = 0
      · simp [Routines.StopAutoRefresh, h, h0]
      · simp [Routines.StopAutoRefresh, h, h0]
  · intro hinv
    cases h : r.refreshTicker with
    | false => exact ⟨r, by simp [Routines.StopAutoRefresh, h], h⟩
    | true =>
      have h0 : r.refreshLoops ≠ 0 := by
        have := hinv h
        omega
      exact ⟨{ r with
          refreshTicker := false
          refreshLoops := r.refreshLoops - 1
          tickers := r.tickers - 1 },
        by simp [Routines.StopAutoRefresh, h, h0], rfl⟩

/-- Witness of C21: a second `StartAutoRefresh` on the state left by the first. -/
theorem StartStop_idempotent_witness :
    NewRoutines.StartAutoRefresh.refreshTicker = true ∧
      NewRoutines.StartAutoRefresh.StartAutoRefresh = NewRoutines.StartAutoRefresh ∧
      NewRoutines.StartAutoRefresh.refreshLoops = 1 :=
  ⟨rfl, (StartStop_idempotent NewRoutines.StartAutoRefresh).1 rfl, rfl⟩

/-- C22, evaluated: the first `Stop` after `NewCache` returns with `stopCleanup` closed, and
the second `Stop` panics at `close(c.stopCleanup)`; the same holds for every state in which
the first `Stop` returns. -/
theorem Stop_twice_panics :
    (∃ s, NewRoutines.Stop = .done s ∧ s.stopCleanup = true) ∧
      NewRoutines.Stop.andThen Routines.Stop = .panics ∧
      ∀ r s : Routines, r.Stop = .done s → s.Stop = .panics := by
  have hgen : ∀ r s : Routines, r.Stop = .done s → s.Stop = .panics := by
    intro r s h
    have hs : s.stopCleanup = true := by
      unfold Routines.Stop at h
      split at h
      · exact absurd h (by simp)
      · unfold Routines.StopAutoRefresh at h
        split at h
        · split at h
          · exact absurd h (by simp)
          · have h2 := Outcome.done.inj h
            rw [← h2]
        · have h2 := Outcome.done.inj h
          rw [← h2]
    simp [Routines.Stop, hs]
  refine ⟨⟨_, rfl, rfl⟩, rfl, hgen⟩


theorem lookup_remove_some (m : List (String × α)) (key k : String) (v : α)
    (h : lookup (remove m key) k = some v) : lookup m k = some v := by
  by_cases hk : k = key
  · rw [hk, lookup_remove_self] at h
    exact absurd h (by simp)
  · rw [lookup_remove_ne _ _ _ hk] at h
    exact h

theorem lookup_filter_some (m : List (String × α)) (f : String × α → Bool) (k : String)
    (v : α) (hm : NoDupKeys m) (h : lookup (m.filter f) k = some v) :
    lookup m k = some v :=
  lookup_of_mem m k v hm (List.mem_filter.1 (mem_of_lookup _ _ _ h)).1

theorem evictOldest_lookup_some (c : Cache α) (σ : List String) (k : String)
    (e : CacheEntry α) (h : lookup (c.evictOldest σ).data k = some e) :
    lookup c.data k = some e := by
  unfold Cache.evictOldest at h
  dsimp only at h
  split at h
  · exact lookup_remove_some _ _ _ _ h
  · exact h

/-- An operation that is no `Put` of `k` leaves the hit count of the entry of `k`, where it
keeps the entry, as it was or one higher. -/
theorem step_Hits_le (c : Cache α) (op : Op α) (k : String) (e e2 : CacheEntry α)
    (hm : NoDupKeys c.data) (hop : op.putsKey k = false) (he : lookup c.data k = some e)
    (he2 : lookup (c.step op).data k = some e2) : e.Hits ≤ e2.Hits := by
  have same : lookup c.data k = some e2 → e.Hits ≤ e2.Hits := by
    intro h
    rw [he] at h
    have h2 : e = e2 := by simpa using h
    rw [h2]
  cases op with
  | SetWebSocketManager => exact same he2
  | Put σ now key value ttl autoRefresh refreshInterval =>
    have hk : k ≠ key := by
      intro h
      simp [Op.putsKey, h] at hop
    simp only [Cache.step, Cache.SetWithAutoRefresh] at he2
    rw [lookup_assign_ne _ _ _ _ hk] at he2
    split at he2
    · exact same (evictOldest_lookup_some c σ k e2 he2)
    · exact same he2
  | Get now key =>
    by_cases hk : k = key
    · subst hk
      by_cases hx : now - e.Timestamp > e.TTL
      · simp only [Cache.step, Get_of_expired c now k e he hx] at he2
        rw [lookup_remove_self] at he2
        exact absurd he2 (by simp)
      · simp only [Cache.step, Get_of_live c now k e he hx] at he2
        rw [lookup_assign_self] at he2
        have h2 : { e with Hits := e.Hits + 1 } = e2 := by simpa using he2
        rw [← h2]
        exact Int.le_add_one (le_refl _)
    · simp only [Cache.step, Get_eq] at he2
      split at he2
      · exact same he2
      · split at he2
        · rw [lookup_remove_ne _ _ _ hk] at he2
          exact same he2
        · rw [lookup_assign_ne _ _ _ _ hk] at he2
          exact same he2
  | Delete now key =>
    simp only [Cache.step, Cache.Delete] at he2
    split at he2
    · exact same (lookup_remove_some _ _ _ _ he2)
    · exact same he2
  | Clear now =>
    simp [Cache.step, Cache.Clear, lookup] at he2
  | Refresh now key =>
    by_cases hk : k = key
    · subst hk
      cases ha : e.AutoRefresh with
      | false =>
        simp only [Cache.step, Refresh_of_manual c now k e he ha] at he2
        exact same he2
      | true =>
        simp only [Cache.step, Refresh_of_auto c now k e he ha] at he2
        rw [lookup_assign_self] at he2
        have h2 : { e with LastRefresh := now } = e2 := by simpa using he2
        rw [← h2]
    · simp only [Cache.step, Cache.Refresh] at he2
      split at he2
      · exact same he2
      · split at he2
        · exact same he2
        · rw [lookup_assign_ne _ _ _ _ hk] at he2
          exact same he2
  | cleanup now =>
    simp only [Cache.step] at he2
    rw [cleanup_data] at he2
    exact same (lookup_filter_some _ _ _ _ hm he2)

/-- C23, as amended: for every operation other than a `Put` of the key itself (a `Get`, a
`Delete`, a `Clear`, a `Refresh`, a cleanup tick, a scheduler tick, a `Put` of another key),
a key that holds an entry before and after has a hit count after that is at least its hit
count before; a `Put` of the key stores a new entry with hit count zero. -/
theorem Hits_monotone (c : Cache α) (k : String) (e e2 : CacheEntry α)
    (hm : NoDupKeys c.data) (he : lookup c.data k = some e) :
    (∀ op : Op α, op.putsKey k = false → lookup (c.step op).data k = some e2 →
        e.Hits ≤ e2.Hits) ∧
      (∀ (σ : List String) (now : Time) (clock : String → Time),
        lookup (c.checkAutoRefresh σ now clock).1.data k = some e2 → e.Hits ≤ e2.Hits) ∧
      (∀ (σ : List String) (now : Time) (v : α) (ttl : Duration) (autoRefresh : Bool)
        (refreshInterval : Duration),
        lookup (c.step (.Put σ now k v ttl autoRefresh refreshInterval)).data k = some e2 →
          e2.Hits = 0) := by
  refine ⟨?_, ?_, ?_⟩
  · intro op hop he2
    exact step_Hits_le c op k e e2 hm hop he he2
  · intro σ now clock he2
    obtain ⟨t1, t2, _⟩ := checkAutoRefresh_tick c σ now clock hm
    cases hd : dueForRefresh now e with
    | true =>
      rw [t1 k e he hd] at he2
      have h2 : { e with LastRefresh := clock k } = e2 := by simpa using he2
      rw [← h2]
    | false =>
      rw [t2 k e he hd] at he2
      have h2 : e = e2 := by simpa using he2
      rw [h2]
  · intro σ now v ttl autoRefresh refreshInterval he2
    simp only [Cache.step] at he2
    rw [SetWithAutoRefresh_lookup_self] at he2
    have h2 := Option.some.inj he2
    rw [← h2]

/-- Witness of C23: a `Get` of an entry read three times before. -/
theorem Hits_monotone_witness :
    NoDupKeys (sampleCache [("a", { sampleEntry 1 10 50 false with Hits := 3 })] 2 true).data ∧
      lookup (sampleCache [("a", { sampleEntry 1 10 50 false with Hits := 3 })] 2 true).data "a"
        = some { sampleEntry 1 10 50 false with Hits := 3 } ∧
      ({ sampleEntry 1 10 50 false with Hits := 3 } : CacheEntry Nat).Hits
        ≤ ({ sampleEntry 1 10 50 false with Hits := 4 } : CacheEntry Nat).Hits :=
  ⟨by simp [NoDupKeys, keysOf, sampleCache], rfl,
    (Hits_monotone
      (sampleCache [("a", { sampleEntry 1 10 50 false with Hits := 3 })] 2 true) "a"
      { sampleEntry 1 10 50 false with Hits := 3 } { sampleEntry 1 10 50 false with Hits := 4 }
      (by simp [NoDupKeys, keysOf, sampleCache]) rfl).1 (Op.Get 20 "a") rfl rfl⟩

/-- C23 as stated fails for a `Put` of a key already present: the entry read three times is
replaced by an entry with hit count zero. -/
theorem Hits_monotone_counterexample :
    lookup (sampleCache [("a", { sampleEntry 1 10 50 false with Hits := 3 })] 2 true).data "a"
        = some { sampleEntry 1 10 50 false with Hits := 3 } ∧
      lookup ((sampleCache [("a", { sampleEntry 1 10 50 false with Hits := 3 })] 2
        true).SetWithAutoRefresh [] 20 "a" 2 50 false 0).1.data "a"
        = some { sampleEntry 2 20 50 false with Hits := 0 } ∧
      ¬ (({ sampleEntry 1 10 50 false with Hits := 3 } : CacheEntry Nat).Hits
        ≤ ({ sampleEntry 2 20 50 false with Hits := 0 } : CacheEntry Nat).Hits) :=
  ⟨rfl, rfl, by decide⟩


end Background

end cache

/-! # Proofs about the WebSocket manager -/

namespace websocket

open cache

section Dispatch

variable {δ : Type}

theorem deliver_of_enqueues (event : WebSocketEvent δ) (c : Client δ)
    (h : enqueues event c = true) : deliver event c = { c with send := c.send ++ [event] } := by
  simp only [enqueues, Bool.and_eq_true, decide_eq_true_eq] at h
  simp [deliver, h.1.1, h.1.2, h.2]

theorem deliver_of_overflows (event : WebSocketEvent δ) (c : Client δ)
    (h : overflows event c = true) : deliver event c = { c with registered := false } := by
  simp only [overflows, Bool.and_eq_true, Bool.not_eq_true', decide_eq_false_iff_not] at h
  simp [deliver, h.1.1, h.1.2, h.2]

theorem deliver_of_neither (event : WebSocketEvent δ) (c : Client δ)
    (h1 : enqueues event c = false) (h2 : overflows event c = false) :
    deliver event c = c := by
  unfold deliver
  cases hr : c.registered with
  | false => simp
  | true =>
    cases hs : shouldSendToClient event c with
    | false => simp
    | true =>
      exfalso
      by_cases hl : c.send.length < sendCapacity
      · simp [enqueues, hr, hs, hl] at h1
      · simp [overflows, hr, hs, hl] at h2

theorem enqueues_overflows (event : WebSocketEvent δ) (c : Client δ)
    (h : enqueues event c = true) : overflows event c = false := by
  simp only [enqueues, Bool.and_eq_true, decide_eq_true_eq] at h
  simp [overflows, h.2]

theorem dispatch_getElem? (m : WebSocketManager δ) (event : WebSocketEvent δ) (i : Nat) :
    (m.dispatch event).clients[i]? = (m.clients[i]?).map (deliver event) := by
  simp [WebSocketManager.dispatch]

/-- C16: when an event tagged with a guild ID `U` is dispatched, an observer whose topic
filter is not `U` is left exactly as it was, the event is put only into queues of observers
whose filter equals `U`, and no other queue changes. -/
theorem dispatch_topic_isolation (m : WebSocketManager δ) (event : WebSocketEvent δ)
    (i : Nat) (c : Client δ) (hU : event.GuildID ≠ "") (hc : m.clients[i]? = some c) :
    (c.guildID ≠ event.GuildID → (m.dispatch event).clients[i]? = some c) ∧
      (enqueues event c = true → c.guildID = event.GuildID) ∧
      (enqueues event c = true →
        (m.dispatch event).clients[i]? = some { c with send := c.send ++ [event] }) ∧
      (enqueues event c = false →
        ∃ c2, (m.dispatch event).clients[i]? = some c2 ∧ c2.send = c.send) := by
  rw [dispatch_getElem?, hc]
  have hs : shouldSendToClient event c = decide (c.guildID = event.GuildID) := by
    simp [shouldSendToClient, hU]
  refine ⟨?_, ?_, ?_, ?_⟩
  · intro hne
    have h1 : enqueues event c = false := by simp [enqueues, hs, hne]
    have h2 : overflows event c = false := by simp [overflows, hs, hne]
    simp [deliver_of_neither event c h1 h2]
  · intro he
    simp only [enqueues, hs, Bool.and_eq_true, decide_eq_true_eq] at he
    exact he.1.2
  · intro he
    simp [deliver_of_enqueues event c he]
  · intro he
    refine ⟨deliver event c, rfl, ?_⟩
    cases ho : overflows event c with
    | true => rw [deliver_of_overflows event c ho]
    | false => rw [deliver_of_neither event c he ho]

/-- Witness of C16: an event for guild `"g1"` and an observer subscribed to `"g2"`. -/
theorem dispatch_topic_isolation_witness :
    (sampleEvent 7 "g1" "").GuildID ≠ "" ∧
      (({ clients := [sampleClient 1 "u1" "g1", sampleClient 2 "u2" "g2"] } :
        WebSocketManager Nat).clients[1]? = some (sampleClient 2 "u2" "g2")) ∧
      (({ clients := [sampleClient 1 "u1" "g1", sampleClient 2 "u2" "g2"] } :
        WebSocketManager Nat).dispatch (sampleEvent 7 "g1" "")).clients[1]?
        = some (sampleClient 2 "u2" "g2") :=
  ⟨by decide, rfl,
    (dispatch_topic_isolation
      ({ clients := [sampleClient 1 "u1" "g1", sampleClient 2 "u2" "g2"] } :
        WebSocketManager Nat)
      (sampleEvent 7 "g1" "") 1 (sampleClient 2 "u2" "g2") (by decide) rfl).1 (by decide)⟩

/-- C17, as amended: a registered observer without topic filter and with room in its queue
receives every dispatched event that carries no guild ID and no user ID other than its own;
an event that carries a guild ID, or the user ID of someone else, leaves it as it was. -/
theorem dispatch_filterless (m : WebSocketManager δ) (event : WebSocketEvent δ) (i : Nat)
    (c : Client δ) (hc : m.clients[i]? = some c) (hf : c.guildID = "")
    (hr : c.registered = true) (hroom : c.send.length < sendCapacity) :
    (event.GuildID = "" → event.UserID = "" ∨ event.UserID = c.userID →
        (m.dispatch event).clients[i]? = some { c with send := c.send ++ [event] }) ∧
      (event.GuildID ≠ "" → (m.dispatch event).clients[i]? = some c) ∧
      (event.GuildID = "" → event.UserID ≠ "" → event.UserID ≠ c.userID →
        (m.dispatch event).clients[i]? = some c) := by
  rw [dispatch_getElem?, hc]
  refine ⟨?_, ?_, ?_⟩
  · intro hg hu
    have hs : shouldSendToClient event c = true := by
      rcases hu with hu | hu
      · simp [shouldSendToClient, hg, hu]
      · by_cases h0 : event.UserID = ""
        · simp [shouldSendToClient, hg, h0]
        · simp [shouldSendToClient, hg, h0, hu]
    have he : enqueues event c = true := by simp [enqueues, hr, hs, hroom]
    simp [deliver_of_enqueues event c he]
  · intro hg
    have hne : ¬ c.guildID = event.GuildID := by
      rw [hf]
      exact fun h => hg h.symm
    have hs : shouldSendToClient event c = false := by simp [shouldSendToClient, hg, hne]
    have h1 : enqueues event c = false := by simp [enqueues, hs]
    have h2 : overflows event c = false := by simp [overflows, hs]
    simp [deliver_of_neither event c h1 h2]
  · intro hg hu hne
    have hne2 : ¬ c.userID = event.UserID := fun h => hne h.symm
    have hs : shouldSendToClient event c = false := by
      simp [shouldSendToClient, hg, hu, hne2]
    have h1 : enqueues event c = false := by simp [enqueues, hs]
    have h2 : overflows event c = false := by simp [overflows, hs]
    simp [deliver_of_neither event c h1 h2]

/-- Witness of C17: an event without guild and user ID and a filterless observer. -/
theorem dispatch_filterless_witness :
    (({ clients := [sampleClient 1 "u1" ""] } : WebSocketManager Nat).clients[0]?
        = some (sampleClient 1 "u1" "")) ∧
      (sampleClient 1 "u1" "").guildID = "" ∧ (sampleClient 1 "u1" "").registered = true ∧
      (sampleClient 1 "u1" "").send.length < sendCapacity ∧
      (({ clients := [sampleClient 1 "u1" ""] } : WebSocketManager Nat).dispatch
        (sampleEvent 7 "" "")).clients[0]?
        = some { sampleClient 1 "u1" "" with
            send := (sampleClient 1 "u1" "").send ++ [sampleEvent 7 "" ""] } :=
  ⟨rfl, rfl, rfl, by decide,
    (dispatch_filterless ({ clients := [sampleClient 1 "u1" ""] } : WebSocketManager Nat)
      (sampleEvent 7 "" "") 0 (sampleClient 1 "u1" "") rfl rfl rfl (by decide)).1 rfl
      (Or.inl rfl)⟩

/-- C17 as stated fails for an event tagged with a guild ID: the filterless observer is
registered, its queue is empty, and after the dispatch its queue is still empty. -/
theorem dispatch_filterless_counterexample :
    (sampleClient 1 "u1" "").guildID = "" ∧ (sampleClient 1 "u1" "").registered = true ∧
      (sampleClient 1 "u1" "").send.length < sendCapacity ∧
      (({ clients := [sampleClient 1 "u1" ""] } : WebSocketManager Nat).dispatch
        (sampleEvent 7 "g1" "")).clients = [sampleClient 1 "u1" ""] ∧
      (sampleClient 1 "u1" "").send = [] :=
  ⟨rfl, rfl, by decide, rfl, rfl⟩

/-- C18, as amended: an event that carries neither a guild ID nor a user ID is put exactly
once, at the end of the queue, into the queue of every registered observer with room,
whatever its topic filter; in particular, with two registered observers with empty queues,
the event of a `Put` on a store with the manager attached ends up, once, in both queues. -/
theorem dispatch_untagged {α : Type} (m : WebSocketManager δ) (event : WebSocketEvent δ)
    (i : Nat) (c : Client δ) (hc : m.clients[i]? = some c) (hg : event.GuildID = "")
    (hu : event.UserID = "") (hr : c.registered = true)
    (hroom : c.send.length < sendCapacity) :
    (m.dispatch event).clients[i]? = some { c with send := c.send ++ [event] } ∧
      ∀ (c0 : Cache α) (σ : List String) (now : Time) (k : String) (v : α) (ttl : Duration)
        (autoRefresh : Bool) (refreshInterval : Duration) (a b : Client (CacheUpdateEvent α)),
        c0.wsManager = true → a.registered = true → b.registered = true →
        a.send = [] → b.send = [] →
        (({ clients := [a, b] } : WebSocketManager (CacheUpdateEvent α)).dispatchAll
          (c0.SetWithAutoRefresh σ now k v ttl autoRefresh refreshInterval).2).clients
          = [{ a with send := [mkEvent "cache_update" "set" k now (some v)] },
             { b with send := [mkEvent "cache_update" "set" k now (some v)] }] := by
  refine ⟨?_, ?_⟩
  · rw [dispatch_getElem?, hc]
    have hs : shouldSendToClient event c = true := by simp [shouldSendToClient, hg, hu]
    have he : enqueues event c = true := by simp [enqueues, hr, hs, hroom]
    simp [deliver_of_enqueues event c he]
  · intro c0 σ now k v ttl autoRefresh refreshInterval a b hw ha hb hae hbe
    have hev : (c0.SetWithAutoRefresh σ now k v ttl autoRefresh refreshInterval).2
        = [mkEvent "cache_update" "set" k now (some v)] := by
      simp [Cache.SetWithAutoRefresh, broadcast, hw]
    rw [hev]
    have h1 : enqueues (mkEvent "cache_update" "set" k now (some v)) a = true := by
      simp [enqueues, ha, hae, shouldSendToClient, mkEvent, sendCapacity]
    have h2 : enqueues (mkEvent "cache_update" "set" k now (some v)) b = true := by
      simp [enqueues, hb, hbe, shouldSendToClient, mkEvent, sendCapacity]
    simp only [WebSocketManager.dispatchAll, WebSocketManager.dispatch, List.map_cons,
      List.map_nil, deliver_of_enqueues _ a h1, deliver_of_enqueues _ b h2, hae, hbe,
      List.nil_append]

/-- Witness of C18: an event without guild and user ID and an observer subscribed to a
guild. -/
theorem dispatch_untagged_witness :
    (({ clients := [sampleClient 1 "u1" "g1"] } : WebSocketManager Nat).clients[0]?
        = some (sampleClient 1 "u1" "g1")) ∧
      (sampleEvent 7 "" "").GuildID = "" ∧ (sampleEvent 7 "" "").UserID = "" ∧
      (sampleClient 1 "u1" "g1").registered = true ∧
      (sampleClient 1 "u1" "g1").send.length < sendCapacity ∧
      (({ clients := [sampleClient 1 "u1" "g1"] } : WebSocketManager Nat).dispatch
        (sampleEvent 7 "" "")).clients[0]?
        = some { sampleClient 1 "u1" "g1" with
            send := (sampleClient 1 "u1" "g1").send ++ [sampleEvent 7 "" ""] } :=
  ⟨rfl, rfl, rfl, rfl, by decide,
    (dispatch_untagged (α := Nat)
      ({ clients := [sampleClient 1 "u1" "g1"] } : WebSocketManager Nat)
      (sampleEvent 7 "" "") 0 (sampleClient 1 "u1" "g1") rfl rfl rfl rfl (by decide)).1⟩

/-- C18 as stated fails for an event that carries no guild ID but a user ID: a registered
observer of another user, with an empty queue, does not get it. -/
theorem dispatch_untagged_counterexample :
    (sampleEvent 7 "" "u1").GuildID = "" ∧ (sampleClient 2 "u2" "").registered = true ∧
      (sampleClient 2 "u2" "").send.length < sendCapacity ∧
      (({ clients := [sampleClient 2 "u2" ""] } : WebSocketManager Nat).dispatch
        (sampleEvent 7 "" "u1")).clients = [sampleClient 2 "u2" ""] ∧
      (sampleClient 2 "u2" "").send = [] :=
  ⟨rfl, rfl, by decide, rfl, rfl⟩


theorem deliver_registered (event : WebSocketEvent δ) (c : Client δ) :
    (deliver event c).registered = (c.registered && !overflows event c) := by
  cases ho : overflows event c with
  | true =>
    rw [deliver_of_overflows event c ho]
    simp
  | false =>
    cases he : enqueues event c with
    | true =>
      rw [deliver_of_enqueues event c he]
      simp
    | false =>
      rw [deliver_of_neither event c he ho]
      simp

theorem count_after_dispatch (event : WebSocketEvent δ) (l : List (Client δ)) :
    ((l.map (deliver event)).filter (fun c => c.registered)).length
        + (l.filter (overflows event)).length
      = (l.filter (fun c => c.registered)).length := by
  induction l with
  | nil => rfl
  | cons c l ih =>
    cases hr : c.registered with
    | false =>
      have ho : overflows event c = false := by simp [overflows, hr]
      have hd : (deliver event c).registered = false := by
        rw [deliver_registered, hr, ho]
        rfl
      rw [List.map_cons, List.filter_cons_of_neg (by simp [hd]),
        List.filter_cons_of_neg (by simp [ho]), List.filter_cons_of_neg (by simp [hr])]
      exact ih
    | true =>
      cases ho : overflows event c with
      | true =>
        have hd : (deliver event c).registered = false := by
          rw [deliver_registered, hr, ho]
          rfl
        rw [List.map_cons, List.filter_cons_of_neg (by simp [hd]),
          List.filter_cons_of_pos ho, List.filter_cons_of_pos (p := fun c : Client δ => c.registered) hr, List.length_cons,
          List.length_cons]
        omega
      | false =>
        have hd : (deliver event c).registered = true := by
          rw [deliver_registered, hr, ho]
          rfl
        rw [List.map_cons, List.filter_cons_of_pos (p := fun c : Client δ => c.registered) hd,
          List.filter_cons_of_neg (by simp [ho]), List.filter_cons_of_pos (p := fun c : Client δ => c.registered) hr, List.length_cons,
          List.length_cons]
        omega

theorem react_unregistered (c : Client δ) (inp : Input δ) (h : c.registered = false) :
    (c.react inp).registered = false := by
  cases inp with
  | register id userID guildID => exact h
  | unregister id => simp [Client.react, h]
  | broadcast event => simp [Client.react, deliver, h]
  | subscribe id guildID =>
    simp only [Client.react]
    split <;> exact h
  | unsubscribe id =>
    simp only [Client.react]
    split <;> exact h
  | write id =>
    simp only [Client.react]
    split <;> exact h

/-- An observer that is no longer registered gets nothing put into its queue and is never
registered again. -/
theorem received_unregistered (inps : List (Input δ)) (c : Client δ)
    (h : c.registered = false) : c.received inps = [] ∧ (c.run inps).registered = false := by
  induction inps generalizing c with
  | nil => exact ⟨rfl, h⟩
  | cons inp inps ih =>
    have h2 := react_unregistered c inp h
    cases inp with
    | broadcast event =>
      have he : enqueues event c = false := by simp [enqueues, h]
      simp only [Client.received, he, Client.run]
      exact ih _ h2
    | register id userID guildID => exact ih _ h2
    | unregister id => exact ih _ h2
    | subscribe id guildID => exact ih _ h2
    | unsubscribe id => exact ih _ h2
    | write id => exact ih _ h2

/-- C19: when an event is dispatched, exactly the registered observers that match it and
whose queue holds `sendCapacity = 256` messages are unregistered and closed, their queue
content staying as it was; every other observer keeps its registration and, if registered
and matching, gets the event at the end of its queue; the count of connected observers drops
by the number of observers dropped; and an unregistered observer gets no event put into its
queue by any later step and stays unregistered. -/
theorem dispatch_overflow (m : WebSocketManager δ) (event : WebSocketEvent δ) :
    (∀ (i : Nat) (c : Client δ), m.clients[i]? = some c →
        (overflows event c = true ↔
          c.registered = true ∧ shouldSendToClient event c = true ∧
            c.send.length = sendCapacity ∨
          c.registered = true ∧ shouldSendToClient event c = true ∧
            c.send.length > sendCapacity) ∧
        (overflows event c = true →
          (m.dispatch event).clients[i]? = some { c with registered := false }) ∧
        (overflows event c = false →
          ∃ c2, (m.dispatch event).clients[i]? = some c2 ∧ c2.registered = c.registered ∧
            (c.registered = true → shouldSendToClient event c = true →
              c2 = { c with send := c.send ++ [event] }))) ∧
      (m.dispatch event).GetConnectedClientsCount + (m.clients.filter (overflows event)).length
        = m.GetConnectedClientsCount ∧
      (∀ c : Client δ, c.registered = false →
        ∀ inps, c.received inps = [] ∧ (c.run inps).registered = false) := by
  refine ⟨?_, count_after_dispatch event m.clients, ?_⟩
  · intro i c hc
    rw [dispatch_getElem?, hc]
    refine ⟨?_, ?_, ?_⟩
    · simp only [overflows, Bool.and_eq_true, Bool.not_eq_true', decide_eq_false_iff_not]
      constructor
      · rintro ⟨⟨h1, h2⟩, h3⟩
        rcases Nat.lt_or_ge sendCapacity c.send.length with h | h
        · exact Or.inr ⟨h1, h2, h⟩
        · exact Or.inl ⟨h1, h2, by omega⟩
      · rintro (⟨h1, h2, h3⟩ | ⟨h1, h2, h3⟩)
        · exact ⟨⟨h1, h2⟩, by omega⟩
        · exact ⟨⟨h1, h2⟩, by omega⟩
    · intro ho
      simp [deliver_of_overflows event c ho]
    · intro ho
      refine ⟨deliver event c, rfl, ?_, ?_⟩
      · rw [deliver_registered, ho]
        simp
      · intro hr hs
        have hroom : c.send.length < sendCapacity := by
          by_contra hn
          simp [overflows, hr, hs, hn] at ho
        exact deliver_of_enqueues event c (by simp [enqueues, hr, hs, hroom])
  · intro c h inps
    exact received_unregistered inps c h

/-- Witness of C19: an observer whose queue holds 256 messages is dropped by the dispatch
of a matching event. -/
theorem dispatch_overflow_witness :
    overflows (sampleEvent 7 "" "")
        { sampleClient 1 "u1" "" with send := List.replicate 256 (sampleEvent 0 "" "") }
        = true ∧
      (({ clients :=
          [{ sampleClient 1 "u1" "" with send := List.replicate 256 (sampleEvent 0 "" "") }] } :
        WebSocketManager Nat).dispatch (sampleEvent 7 "" "")).clients[0]?
        = some { { sampleClient 1 "u1" "" with
              send := List.replicate 256 (sampleEvent 0 "" "") } with
            registered := false } :=
  ⟨by
      simp only [overflows, sampleClient, sampleEvent, shouldSendToClient, sendCapacity,
        List.length_replicate]
      decide,
    ((dispatch_overflow
      ({ clients :=
          [{ sampleClient 1 "u1" "" with send := List.replicate 256 (sampleEvent 0 "" "") }] } :
        WebSocketManager Nat) (sampleEvent 7 "" "")).1 0
      { sampleClient 1 "u1" "" with send := List.replicate 256 (sampleEvent 0 "" "") }
      rfl).2.1
      (by
      simp only [overflows, sampleClient, sampleEvent, shouldSendToClient, sendCapacity,
        List.length_replicate]
      decide)⟩


theorem step_getElem? (m : WebSocketManager δ) (inp : Input δ) (i : Nat) (c : Client δ)
    (hc : m.clients[i]? = some c) : (m.step inp).clients[i]? = some (c.react inp) := by
  have hi : i < (m.clients.map (fun c => c.react inp)).length := by
    rw [List.length_map]
    exact (List.getElem?_eq_some_iff.1 hc).1
  simp only [WebSocketManager.step]
  rw [List.getElem?_append_left hi, List.getElem?_map, hc]
  rfl

/-- The observer at a position of the registry goes through the steps of `Client.run`. -/
theorem run_getElem? (inps : List (Input δ)) (m : WebSocketManager δ) (i : Nat)
    (c : Client δ) (hc : m.clients[i]? = some c) :
    (m.run inps).clients[i]? = some (c.run inps) := by
  induction inps generalizing m c with
  | nil => exact hc
  | cons inp inps ih => exact ih (m.step inp) (c.react inp) (step_getElem? m inp i c hc)

theorem received_sublist (inps : List (Input δ)) (c : Client δ) :
    (c.received inps).Sublist (broadcasts inps) := by
  induction inps generalizing c with
  | nil => exact List.Sublist.slnil
  | cons inp inps ih =>
    cases inp with
    | broadcast event =>
      simp only [Client.received, broadcasts]
      split
      · exact List.Sublist.cons₂ _ (ih _)
      · exact List.Sublist.cons _ (ih _)
    | register id userID guildID => exact ih _
    | unregister id => exact ih _
    | subscribe id guildID => exact ih _
    | unsubscribe id => exact ih _
    | write id => exact ih _

theorem deliver_send_of_not_enqueues (event : WebSocketEvent δ) (c : Client δ)
    (he : enqueues event c = false) : (deliver event c).send = c.send := by
  cases ho : overflows event c with
  | true => rw [deliver_of_overflows event c ho]
  | false => rw [deliver_of_neither event c he ho]

theorem react_send (inp : Input δ) (inps : List (Input δ)) (c : Client δ) :
    ∃ k, (c.react inp).send ++ (c.react inp).received inps
      = (c.send ++ c.received (inp :: inps)).drop k := by
  cases inp with
  | broadcast event =>
    refine ⟨0, ?_⟩
    show (deliver event c).send ++ (deliver event c).received inps
      = List.drop 0 (c.send ++ c.received (Input.broadcast event :: inps))
    cases he : enqueues event c with
    | true =>
      have hd : (deliver event c).send = c.send ++ [event] := by
        rw [deliver_of_enqueues event c he]
      simp [Client.received, he, hd]
    | false =>
      simp [Client.received, he, deliver_send_of_not_enqueues event c he]
  | register id userID guildID => exact ⟨0, rfl⟩
  | unregister id =>
    refine ⟨0, ?_⟩
    have hs : (c.react (.unregister id)).send = c.send := by
      simp only [Client.react]
      split <;> rfl
    rw [hs]
    rfl
  | subscribe id guildID =>
    refine ⟨0, ?_⟩
    have hs : (c.react (.subscribe id guildID)).send = c.send := by
      simp only [Client.react]
      split <;> rfl
    rw [hs]
    rfl
  | unsubscribe id =>
    refine ⟨0, ?_⟩
    have hs : (c.react (.unsubscribe id)).send = c.send := by
      simp only [Client.react]
      split <;> rfl
    rw [hs]
    rfl
  | write id =>
    have hrec : c.received (Input.write id :: inps) = (c.react (.write id)).received inps :=
      rfl
    rw [hrec]
    by_cases hid : c.id = id
    · have hs : (c.react (.write id)).send = c.send.tail := by
        simp [Client.react, hid]
      rw [hs]
      cases h : c.send with
      | nil => exact ⟨0, rfl⟩
      | cons x t => exact ⟨1, rfl⟩
    · have hs : (c.react (.write id)).send = c.send := by
        simp [Client.react, hid]
      rw [hs]
      exact ⟨0, rfl⟩

/-- The queue of an observer holds, oldest first, what is left of its former content and of
the events put into it since, after the messages taken by `writePump`. -/
theorem run_send (inps : List (Input δ)) (c : Client δ) :
    ∃ n, (c.run inps).send = (c.send ++ c.received inps).drop n := by
  induction inps generalizing c with
  | nil => exact ⟨0, by simp [Client.run, Client.received]⟩
  | cons inp inps ih =>
    obtain ⟨n, hn⟩ := ih (c.react inp)
    obtain ⟨k, hk⟩ := react_send inp inps c
    refine ⟨k + n, ?_⟩
    show ((c.react inp).run inps).send = _
    rw [hn, hk, List.drop_drop]

theorem enqueues_eq_of_alike (event : WebSocketEvent δ) (a b : Client δ)
    (hg : event.GuildID ≠ "") (ha : a.registered = true) (hb : b.registered = true)
    (hab : a.guildID = b.guildID) (hoa : overflows event a = false)
    (hob : overflows event b = false) : enqueues event a = enqueues event b := by
  have hsa : shouldSendToClient event a = decide (a.guildID = event.GuildID) := by
    simp [shouldSendToClient, hg]
  have hsb : shouldSendToClient event b = decide (a.guildID = event.GuildID) := by
    simp [shouldSendToClient, hg, hab]
  simp only [overflows, ha, hb, hsa, hsb, Bool.true_and] at hoa hob
  simp only [enqueues, ha, hb, hsa, hsb, Bool.true_and]
  cases hd : decide (a.guildID = event.GuildID) with
  | false => simp
  | true =>
    rw [hd] at hoa hob
    simp only [Bool.true_and, Bool.not_eq_false', decide_eq_true_eq] at hoa hob
    simp [hoa, hob]

theorem received_alike (inps : List (Input δ)) (a b : Client δ)
    (h : alike a b inps = true) :
    (a.received inps).filter (fun ev => decide (ev.GuildID ≠ ""))
      = (b.received inps).filter (fun ev => decide (ev.GuildID ≠ "")) := by
  induction inps generalizing a b with
  | nil => rfl
  | cons inp inps ih =>
    simp only [alike, Bool.and_eq_true, decide_eq_true_eq] at h
    obtain ⟨⟨⟨⟨ha, hb⟩, hab⟩, hov⟩, hrest⟩ := h
    cases inp with
    | broadcast event =>
      simp only [Bool.and_eq_true, Bool.not_eq_true'] at hov
      have hre : ∀ c : Client δ, c.react (.broadcast event) = deliver event c := fun _ => rfl
      rw [hre, hre] at hrest
      have hrec := ih _ _ hrest
      simp only [Client.received]
      by_cases hg : event.GuildID = ""
      · have hdrop : ∀ l : List (WebSocketEvent δ),
            (event :: l).filter (fun ev => decide (ev.GuildID ≠ ""))
              = l.filter (fun ev => decide (ev.GuildID ≠ "")) := by
          intro l
          rw [List.filter_cons_of_neg (by simp [hg])]
        split <;> split <;> (try simp only [hdrop]) <;> exact hrec
      · have heq := enqueues_eq_of_alike event a b hg ha hb hab hov.1 hov.2
        rw [heq]
        split
        · rw [List.filter_cons_of_pos (by simp [hg]), List.filter_cons_of_pos (by simp [hg]),
            hrec]
        · exact hrec
    | register id userID guildID => exact ih _ _ hrest
    | unregister id => exact ih _ _ hrest
    | subscribe id guildID => exact ih _ _ hrest
    | unsubscribe id => exact ih _ _ hrest
    | write id => exact ih _ _ hrest

/-- C20: for every sequence of steps and any two observers of the registry, the events put
into the queue of each are a subsequence, in the order of emission, of the events
broadcast, and the queue holds them in that order behind its former content, less the
messages taken by `writePump`; two observers that stay registered with the same topic
filter, neither overflowing, get the same sequence of guild-tagged events. -/
theorem received_in_emission_order (m : WebSocketManager δ) (inps : List (Input δ))
    (i j : Nat) (a b : Client δ) (ha : m.clients[i]? = some a) (hb : m.clients[j]? = some b) :
    ((m.run inps).clients[i]? = some (a.run inps) ∧
        (m.run inps).clients[j]? = some (b.run inps)) ∧
      ((a.received inps).Sublist (broadcasts inps) ∧
        (b.received inps).Sublist (broadcasts inps)) ∧
      ((∃ n, (a.run inps).send = (a.send ++ a.received inps).drop n) ∧
        (∃ n, (b.run inps).send = (b.send ++ b.received inps).drop n)) ∧
      (alike a b inps = true →
        (a.received inps).filter (fun ev => decide (ev.GuildID ≠ ""))
          = (b.received inps).filter (fun ev => decide (ev.GuildID ≠ ""))) :=
  ⟨⟨run_getElem? inps m i a ha, run_getElem? inps m j b hb⟩,
    ⟨received_sublist inps a, received_sublist inps b⟩,
    ⟨run_send inps a, run_send inps b⟩, received_alike inps a b⟩

/-- Witness of C20: two observers of guild `"g1"`, three broadcasts, one message written
out in between. -/
theorem received_in_emission_order_witness :
    (({ clients := [sampleClient 1 "u1" "g1", sampleClient 2 "u2" "g1"] } :
        WebSocketManager Nat).clients[0]? = some (sampleClient 1 "u1" "g1")) ∧
      (({ clients := [sampleClient 1 "u1" "g1", sampleClient 2 "u2" "g1"] } :
        WebSocketManager Nat).clients[1]? = some (sampleClient 2 "u2" "g1")) ∧
      alike (sampleClient 1 "u1" "g1") (sampleClient 2 "u2" "g1")
        [Input.broadcast (sampleEvent 7 "g1" ""), Input.write 1,
          Input.broadcast (sampleEvent 8 "g2" ""), Input.broadcast (sampleEvent 9 "g1" "")]
        = true ∧
      ((sampleClient 1 "u1" "g1").received
        [Input.broadcast (sampleEvent 7 "g1" ""), Input.write 1,
          Input.broadcast (sampleEvent 8 "g2" ""),
          Input.broadcast (sampleEvent 9 "g1" "")]).filter
          (fun ev => decide (ev.GuildID ≠ ""))
        = ((sampleClient 2 "u2" "g1").received
        [Input.broadcast (sampleEvent 7 "g1" ""), Input.write 1,
          Input.broadcast (sampleEvent 8 "g2" ""),
          Input.broadcast (sampleEvent 9 "g1" "")]).filter
          (fun ev => decide (ev.GuildID ≠ "")) :=
  ⟨rfl, rfl, by decide,
    (received_in_emission_order
      ({ clients := [sampleClient 1 "u1" "g1", sampleClient 2 "u2" "g1"] } :
        WebSocketManager Nat)
      [Input.broadcast (sampleEvent 7 "g1" ""), Input.write 1,
        Input.broadcast (sampleEvent 8 "g2" ""), Input.broadcast (sampleEvent 9 "g1" "")]
      0 1 (sampleClient 1 "u1" "g1") (sampleClient 2 "u2" "g1") rfl rfl).2.2.2 (by decide)⟩


end Dispatch

section Control

variable {δ : Type}

/-- C25: a `subscribe` message with a string `guild_id` sets the topic filter to it and an
`unsubscribe` message clears the filter, changing nothing else; a message that cannot be
decoded, has no string `type`, is a `subscribe` without a string `guild_id`, or has a type
other than `subscribe`, `unsubscribe` and `ping`, leaves the client as it is; a `ping`
message on an open queue with room adds the `pong` answer behind the queue; and whenever
`handleMessage` returns, the user ID, the identity and the registration are as before, the
former queue content is still there, first in the queue, and the filter is as before unless
the message is one of the two that set it. -/
theorem handleMessage_spec (c : Client (Option δ)) (now : Time)
    (decoded : Option (List (String × JsonValue))) :
    (∀ msg g, decoded = some msg → asString msg "type" = some "subscribe" →
        asString msg "guild_id" = some g →
        c.handleMessage now decoded = .done { c with guildID := g }) ∧
      (∀ msg, decoded = some msg → asString msg "type" = some "unsubscribe" →
        c.handleMessage now decoded = .done { c with guildID := "" }) ∧
      (decoded = none → c.handleMessage now decoded = .done c) ∧
      (∀ msg, decoded = some msg → asString msg "type" = none →
        c.handleMessage now decoded = .done c) ∧
      (∀ msg, decoded = some msg → asString msg "type" = some "subscribe" →
        asString msg "guild_id" = none → c.handleMessage now decoded = .done c) ∧
      (∀ msg ty, decoded = some msg → asString msg "type" = some ty → ty ≠ "subscribe" →
        ty ≠ "unsubscribe" → ty ≠ "ping" → c.handleMessage now decoded = .done c) ∧
      (∀ msg, decoded = some msg → asString msg "type" = some "ping" →
        c.registered = true → c.send.length < sendCapacity →
        c.handleMessage now decoded = .done { c with send := c.send ++ [pong now] }) ∧
      (∀ c2, c.handleMessage now decoded = .done c2 →
        c2.userID = c.userID ∧ c2.id = c.id ∧ c2.registered = c.registered ∧
          (∃ l, c2.send = c.send ++ l) ∧
          (c2.guildID = c.guildID ∨
            ∃ msg, decoded = some msg ∧
              (asString msg "type" = some "unsubscribe" ∨
                asString msg "type" = some "subscribe" ∧
                  asString msg "guild_id" = some c2.guildID))) := by
  refine ⟨?_, ?_, ?_, ?_, ?_, ?_, ?_, ?_⟩
  · intro msg g hd ht hg
    simp [Client.handleMessage, hd, ht, hg]
  · intro msg hd ht
    simp [Client.handleMessage, hd, ht]
  · intro hd
    simp [Client.handleMessage, hd]
  · intro msg hd ht
    simp [Client.handleMessage, hd, ht]
  · intro msg hd ht hg
    simp [Client.handleMessage, hd, ht, hg]
  · intro msg ty hd ht h1 h2 h3
    simp [Client.handleMessage, hd, ht, h1, h2, h3]
  · intro msg hd ht hr hroom
    simp [Client.handleMessage, hd, ht, hr, hroom]
  · intro c2 h
    cases decoded with
    | none =>
      simp only [Client.handleMessage] at h
      have h2 := Outcome.done.inj h
      rw [← h2]
      exact ⟨rfl, rfl, rfl, ⟨[], by simp⟩, Or.inl rfl⟩
    | some msg =>
      cases ht : asString msg "type" with
      | none =>
        simp only [Client.handleMessage, ht] at h
        have h2 := Outcome.done.inj h
        rw [← h2]
        exact ⟨rfl, rfl, rfl, ⟨[], by simp⟩, Or.inl rfl⟩
      | some ty =>
        simp only [Client.handleMessage, ht] at h
        split at h
        · rename_i hty
          cases hg : asString msg "guild_id" with
          | none =>
            rw [hg] at h
            have h2 := Outcome.done.inj h
            rw [← h2]
            exact ⟨rfl, rfl, rfl, ⟨[], by simp⟩, Or.inl rfl⟩
          | some g =>
            rw [hg] at h
            have h2 := Outcome.done.inj h
            rw [← h2]
            refine ⟨rfl, rfl, rfl, ⟨[], by simp⟩, Or.inr ⟨msg, rfl, Or.inr ⟨?_, hg⟩⟩⟩
            rw [ht, hty]
        · split at h
          · rename_i _ hty
            have h2 := Outcome.done.inj h
            rw [← h2]
            refine ⟨rfl, rfl, rfl, ⟨[], by simp⟩, Or.inr ⟨msg, rfl, Or.inl ?_⟩⟩
            rw [ht, hty]
          · split at h
            · split at h
              · exact absurd h (by simp)
              · split at h
                · have h2 := Outcome.done.inj h
                  rw [← h2]
                  exact ⟨rfl, rfl, rfl, ⟨[pong now], rfl⟩, Or.inl rfl⟩
                · exact absurd h (by simp)
            · have h2 := Outcome.done.inj h
              rw [← h2]
              exact ⟨rfl, rfl, rfl, ⟨[], by simp⟩, Or.inl rfl⟩

/-- Witness of C25: a `subscribe` message for guild `"g2"` on a client subscribed to
`"g1"`. -/
theorem handleMessage_spec_witness :
    asString [("type", JsonValue.string "subscribe"), ("guild_id", JsonValue.string "g2")]
        "type" = some "subscribe" ∧
      asString [("type", JsonValue.string "subscribe"), ("guild_id", JsonValue.string "g2")]
        "guild_id" = some "g2" ∧
      (sampleObserver 1 "u1" "g1").handleMessage 5
          (some [("type", JsonValue.string "subscribe"), ("guild_id", JsonValue.string "g2")])
        = .done { sampleObserver 1 "u1" "g1" with guildID := "g2" } :=
  ⟨rfl, rfl,
    (handleMessage_spec (sampleObserver 1 "u1" "g1") 5
      (some [("type", JsonValue.string "subscribe"),
        ("guild_id", JsonValue.string "g2")])).1 _ "g2" rfl rfl rfl⟩

/-- C26, as amended: the read deadline is set to 60 s after the start of the read pump; a
pong that arrives at a time `t` not after the deadline moves the deadline to `t + 60 s`; a
control message, whatever it is, leaves the deadline where it was; and the loop is left
with a timeout exactly for a frame that arrives after the deadline, that is more than 60 s
after the last pong (or the start), whatever control messages arrived in between. -/
theorem readPump_deadline (p : ReadPump δ) (t : Time) (hr : p.reading = true) :
    (∀ (c : Client (Option δ)) (now : Time),
        (startReadPump c now).readDeadline = now + 60 * second) ∧
      (t ≤ p.readDeadline →
        p.step (.pong t) = .done { p with readDeadline := t + 60 * second }) ∧
      (∀ decoded p2, p.step (.message t decoded) = .done p2 →
        p2.readDeadline = p.readDeadline) ∧
      (t ≤ p.readDeadline → ∀ decoded p2, p.step (.message t decoded) = .done p2 →
        p2.reading = true) ∧
      (t > p.readDeadline →
        p.step (.pong t) = .done { p with reading := false } ∧
        ∀ decoded, p.step (.message t decoded) = .done { p with reading := false }) := by
  have hnr : (!p.reading) = false := by simp [hr]
  refine ⟨fun _ _ => rfl, ?_, ?_, ?_, ?_⟩
  · intro ht
    have hnt : ¬ t > p.readDeadline := not_lt.2 ht
    simp [ReadPump.step, hr, hnt, pongWait]
  · intro decoded p2 h
    simp only [ReadPump.step, hnr, Bool.false_eq_true, if_false] at h
    split at h
    · have h2 := Outcome.done.inj h
      rw [← h2]
    · split at h
      · have h2 := Outcome.done.inj h
        rw [← h2]
      · exact absurd h (by simp)
      · exact absurd h (by simp)
  · intro ht decoded p2 h
    have hnt : ¬ t > p.readDeadline := not_lt.2 ht
    simp only [ReadPump.step, hnr, Bool.false_eq_true, if_false, hnt] at h
    split at h
    · have h2 := Outcome.done.inj h
      rw [← h2]
      exact hr
    · exact absurd h (by simp)
    · exact absurd h (by simp)
  · intro ht
    refine ⟨?_, ?_⟩
    · simp [ReadPump.step, hr, ht]
    · intro decoded
      simp [ReadPump.step, hr, ht]

/-- Witness of C26: a pong 30 s after the start of the read pump. -/
theorem readPump_deadline_witness :
    (startReadPump (sampleObserver 1 "u1" "g1") 0).reading = true ∧
      30 * second ≤ (startReadPump (sampleObserver 1 "u1" "g1") 0).readDeadline ∧
      (startReadPump (sampleObserver 1 "u1" "g1") 0).step (.pong (30 * second))
        = .done { startReadPump (sampleObserver 1 "u1" "g1") 0 with
            readDeadline := 30 * second + 60 * second } :=
  ⟨rfl, by decide,
    (readPump_deadline (startReadPump (sampleObserver 1 "u1" "g1") 0) (30 * second) rfl).2.1
      (by decide)⟩

/-- C26 as stated fails for a control message: a `subscribe` message 30 s after the start of
the read pump is handled and leaves the deadline at 60 s, not at 90 s, and a second message
at 61 s, within 60 s of the first, finds the deadline passed: the loop is left. -/
theorem readPump_deadline_counterexample :
    (startReadPump (sampleObserver 1 "u1" "g1") 0).step
        (.message (30 * second)
          (some [("type", JsonValue.string "subscribe"), ("guild_id", JsonValue.string "g2")]))
        = .done { client := { sampleObserver 1 "u1" "g1" with guildID := "g2" }
                  readDeadline := 60 * second
                  reading := true } ∧
      ¬ ((60 * second : Time) = 30 * second + 60 * second) ∧
      ({ client := { sampleObserver 1 "u1" "g1" with guildID := "g2" }
         readDeadline := 60 * second
         reading := true } : ReadPump Nat).step
        (.message (61 * second) (some [("type", JsonValue.string "unsubscribe")]))
        = .done { client := { sampleObserver 1 "u1" "g1" with guildID := "g2" }
                  readDeadline := 60 * second
                  reading := false } :=
  ⟨rfl, by decide, rfl⟩


end Control


end websocket

/-! # Proofs about the rate limiter -/

namespace middleware

open cache

section Limiter

/-- State of `IsAllowed` after the stale times of the client have been dropped. -/
theorem IsAllowed_cases (rl : RateLimiter) (now : Time) (clientID : String) :
    ∃ rl1 : RateLimiter,
      rl1.limit = rl.limit ∧ rl1.window = rl.window ∧
      rl1.stored clientID
        = (rl.stored clientID).filter (fun x => decide (x > now + (-rl.window))) ∧
      (∀ k, k ≠ clientID → rl1.stored k = rl.stored k) ∧
      rl.IsAllowed now clientID =
        if ((rl1.stored clientID).length : Int) ≥ rl.limit then (rl1, false)
        else
          ({ rl1 with
              requests := assign rl1.requests clientID (rl1.stored clientID ++ [now]) },
            true) := by
  cases hl : lookup rl.requests clientID with
  | none =>
    refine ⟨rl, rfl, rfl, ?_, fun _ _ => rfl, ?_⟩
    · simp [RateLimiter.stored, hl]
    · simp only [RateLimiter.IsAllowed, hl]
  | some reqs =>
    refine ⟨{ rl with
        requests := assign rl.requests clientID
          (reqs.filter (fun reqTime => decide (reqTime > now + (-rl.window)))) },
      rfl, rfl, ?_, ?_, ?_⟩
    · simp [RateLimiter.stored, hl, lookup_assign_self]
    · intro k hk
      simp [RateLimiter.stored, lookup_assign_ne _ _ _ _ hk]
    · simp only [RateLimiter.IsAllowed, hl]

theorem IsAllowed_result (rl : RateLimiter) (now : Time) (clientID : String) :
    (rl.IsAllowed now clientID).2
      = decide ((((rl.stored clientID).filter
          (fun x => decide (x > now + (-rl.window)))).length : Int) < rl.limit) := by
  obtain ⟨rl1, _, _, h3, _, h5⟩ := IsAllowed_cases rl now clientID
  rw [h5, h3]
  split
  · rename_i h
    exact (decide_eq_false (not_lt.2 h)).symm
  · rename_i h
    exact (decide_eq_true (not_le.1 h)).symm

theorem IsAllowed_stored_self (rl : RateLimiter) (now : Time) (clientID : String) :
    (rl.IsAllowed now clientID).1.stored clientID
      = (rl.stored clientID).filter (fun x => decide (x > now + (-rl.window)))
        ++ (if (rl.IsAllowed now clientID).2 then [now] else []) := by
  obtain ⟨rl1, _, _, h3, _, h5⟩ := IsAllowed_cases rl now clientID
  rw [h5]
  split
  · show rl1.stored clientID = _ ++ (if false = true then [now] else [])
    rw [h3]
    simp only [Bool.false_eq_true, if_false, List.append_nil]
  · show (lookup (assign rl1.requests clientID (rl1.stored clientID ++ [now])) clientID).getD []
      = _ ++ (if true = true then [now] else [])
    rw [lookup_assign_self, h3]
    simp only [Option.getD_some, if_true]

theorem IsAllowed_stored_other (rl : RateLimiter) (now : Time) (clientID k : String)
    (hk : k ≠ clientID) : (rl.IsAllowed now clientID).1.stored k = rl.stored k := by
  obtain ⟨rl1, _, _, _, h4, h5⟩ := IsAllowed_cases rl now clientID
  rw [h5]
  split
  · exact h4 k hk
  · rw [← h4 k hk]
    simp [RateLimiter.stored, lookup_assign_ne _ _ _ _ hk]

theorem IsAllowed_limit (rl : RateLimiter) (now : Time) (clientID : String) :
    (rl.IsAllowed now clientID).1.limit = rl.limit ∧
      (rl.IsAllowed now clientID).1.window = rl.window := by
  obtain ⟨rl1, h1, h2, _, _, h5⟩ := IsAllowed_cases rl now clientID
  rw [h5]
  split
  · exact ⟨h1, h2⟩
  · exact ⟨h1, h2⟩

theorem run_append (calls : List (Time × String)) (rl : RateLimiter) (call : Time × String) :
    rl.run (calls ++ [call]) = ((rl.run calls).IsAllowed call.1 call.2).1 := by
  induction calls generalizing rl with
  | nil => rfl
  | cons x calls ih => exact ih _

theorem admitted_append (calls : List (Time × String)) (rl : RateLimiter)
    (call : Time × String) :
    rl.admitted (calls ++ [call])
      = rl.admitted calls
        ++ (if ((rl.run calls).IsAllowed call.1 call.2).2 then [call] else []) := by
  induction calls generalizing rl with
  | nil =>
    by_cases h : (rl.IsAllowed call.1 call.2).2 = true <;>
      simp [RateLimiter.admitted, RateLimiter.run, h]
  | cons x calls ih =>
    by_cases h : (rl.IsAllowed x.1 x.2).2 = true <;>
      simp [RateLimiter.admitted, RateLimiter.run, h, ih]

theorem run_limit (calls : List (Time × String)) (rl : RateLimiter) :
    (rl.run calls).limit = rl.limit ∧ (rl.run calls).window = rl.window := by
  induction calls generalizing rl with
  | nil => exact ⟨rfl, rfl⟩
  | cons x calls ih =>
    have h1 := ih (rl.IsAllowed x.1 x.2).1
    have h2 := IsAllowed_limit rl x.1 x.2
    exact ⟨h1.1.trans h2.1, h1.2.trans h2.2⟩

theorem admittedTimes_append (calls : List (Time × String)) (rl : RateLimiter)
    (call : Time × String) (clientID : String) :
    rl.admittedTimes (calls ++ [call]) clientID
      = rl.admittedTimes calls clientID
        ++ (if call.2 = clientID ∧ ((rl.run calls).IsAllowed call.1 call.2).2 = true
            then [call.1] else []) := by
  obtain ⟨t, c⟩ := call
  simp only [RateLimiter.admittedTimes, admitted_append, List.filter_append, List.map_append]
  congr 1
  by_cases h1 : ((rl.run calls).IsAllowed t c).2 = true
  · by_cases h2 : c = clientID
    · subst h2
      simp [h1]
    · simp [h1, h2]
  · simp [h1]

theorem filter_after_mono (l : List Time) (a b : Time) (h : a ≤ b) :
    (l.filter (fun y => decide (y > a))).filter (fun y => decide (y > b))
      = l.filter (fun y => decide (y > b)) := by
  induction l with
  | nil => rfl
  | cons y l ih =>
    by_cases hb : y > b
    · have ha : y > a := lt_of_le_of_lt h hb
      rw [List.filter_cons_of_pos (by simpa using ha), List.filter_cons_of_pos (by simpa using hb),
        List.filter_cons_of_pos (by simpa using hb), ih]
    · by_cases ha : y > a
      · rw [List.filter_cons_of_pos (by simpa using ha),
          List.filter_cons_of_neg (by simpa using hb),
          List.filter_cons_of_neg (by simpa using hb), ih]
      · rw [List.filter_cons_of_neg (by simpa using ha),
          List.filter_cons_of_neg (by simpa using hb), ih]

theorem length_filter_le_of_imp (l : List Time) (p q : Time → Bool)
    (h : ∀ y, p y = true → q y = true) : (l.filter p).length ≤ (l.filter q).length := by
  induction l with
  | nil => exact Nat.le_refl _
  | cons y l ih =>
    cases hp : p y with
    | true =>
      rw [List.filter_cons_of_pos hp, List.filter_cons_of_pos (h y hp), List.length_cons,
        List.length_cons]
      omega
    | false =>
      rw [List.filter_cons_of_neg (by simp [hp])]
      cases hq : q y with
      | true =>
        rw [List.filter_cons_of_pos hq, List.length_cons]
        omega
      | false =>
        rw [List.filter_cons_of_neg (by simp [hq])]
        exact ih

theorem nonDecreasing_append (calls : List (Time × String)) (call : Time × String)
    (h : nonDecreasing (calls ++ [call])) :
    nonDecreasing calls ∧ ∀ q ∈ calls, q.1 ≤ call.1 := by
  unfold nonDecreasing at *
  rw [List.map_append, List.pairwise_append] at h
  refine ⟨h.1, ?_⟩
  intro q hq
  exact h.2.2 q.1 (List.mem_map_of_mem Prod.fst hq) call.1 (by simp)

/-- What a limiter keeps for a client agrees, on every window that ends after the calls made
so far, with the times of the admitted calls of that client. -/
theorem stored_filter (L : Int) (W : Duration) (c : String) (calls : List (Time × String))
    (hs : nonDecreasing calls) (x : Time) (hx : ∀ q ∈ calls, q.1 ≤ x) :
    (((NewRateLimiter L W).run calls).stored c).filter (fun y => decide (y > x + (-W)))
      = ((NewRateLimiter L W).admittedTimes calls c).filter
          (fun y => decide (y > x + (-W))) := by
  induction calls using List.reverseRecOn generalizing x with
  | nil => rfl
  | append_singleton pre call ih =>
    obtain ⟨hpre, hle⟩ := nonDecreasing_append pre call hs
    have hx1 : call.1 ≤ x := hx call (by simp)
    have hx2 : ∀ q ∈ pre, q.1 ≤ x := fun q hq => hx q (List.mem_append_left _ hq)
    have hW : ((NewRateLimiter L W).run pre).window = W := (run_limit pre _).2
    have hih := ih hpre x hx2
    rw [run_append, admittedTimes_append, List.filter_append]
    by_cases hc : call.2 = c
    · subst hc
      rw [IsAllowed_stored_self, List.filter_append, hW,
        filter_after_mono _ (call.1 + (-W)) (x + (-W)) (add_le_add_right hx1 _), hih]
      simp
    · have hc2 : c ≠ call.2 := fun h => hc h.symm
      rw [IsAllowed_stored_other _ _ _ _ hc2, hih]
      simp [hc]

/-- A call returns true exactly when fewer than `limit` admitted earlier calls of the same
client have a time after `now - window`. -/
theorem IsAllowed_count (L : Int) (W : Duration) (pre : List (Time × String)) (t : Time)
    (c : String) (hs : nonDecreasing (pre ++ [(t, c)])) :
    (((NewRateLimiter L W).run pre).IsAllowed t c).2
      = decide (((((NewRateLimiter L W).admittedTimes pre c).filter
          (fun y => decide (y > t - W))).length : Int) < L) := by
  obtain ⟨hpre, hle⟩ := nonDecreasing_append pre (t, c) hs
  have h := stored_filter L W c pre hpre t hle
  rw [IsAllowed_result, (run_limit pre _).1, (run_limit pre _).2]
  show decide ((((((NewRateLimiter L W).run pre).stored c).filter
    (fun y => decide (y > t + (-W)))).length : Int) < L) = _
  rw [h]
  rfl


/-- Only admitted calls are recorded: a time kept for a client is the time of one of its
admitted calls. -/
theorem stored_admitted (L : Int) (W : Duration) (calls : List (Time × String)) (k : String)
    (x : Time) (h : x ∈ ((NewRateLimiter L W).run calls).stored k) :
    x ∈ (NewRateLimiter L W).admittedTimes calls k := by
  induction calls using List.reverseRecOn with
  | nil => simp [RateLimiter.run, RateLimiter.stored, NewRateLimiter, lookup] at h
  | append_singleton pre call ih =>
    rw [run_append] at h
    rw [admittedTimes_append]
    by_cases hc : call.2 = k
    · subst hc
      rw [IsAllowed_stored_self] at h
      rcases List.mem_append.1 h with h1 | h1
      · exact List.mem_append_left _ (ih (List.mem_filter.1 h1).1)
      · apply List.mem_append_right
        by_cases hr : (((NewRateLimiter L W).run pre).IsAllowed call.1 call.2).2 = true
        · simpa [hr] using h1
        · simp [hr] at h1
    · have hc2 : k ≠ call.2 := fun h => hc h.symm
      rw [IsAllowed_stored_other _ _ _ _ hc2] at h
      exact List.mem_append_left _ (ih h)

theorem nonDecreasing_filter_append (calls : List (Time × String)) (call : Time × String)
    (p : Time × String → Bool) (h : nonDecreasing (calls ++ [call])) :
    nonDecreasing (calls.filter p ++ [call]) := by
  unfold nonDecreasing at *
  rw [List.map_append, List.pairwise_append] at h ⊢
  refine ⟨List.Pairwise.sublist (List.Sublist.map _ (List.filter_sublist _)) h.1, h.2.1, ?_⟩
  intro a ha b hb
  obtain ⟨q, hq, hqa⟩ := List.mem_map.1 ha
  exact h.2.2 a (List.mem_map.2 ⟨q, (List.mem_filter.1 hq).1, hqa⟩) b hb

/-- The admitted calls of a client are those it would be granted if no other client made a
call. -/
theorem admittedTimes_filter (L : Int) (W : Duration) (c : String)
    (calls : List (Time × String)) (hs : nonDecreasing calls) :
    (NewRateLimiter L W).admittedTimes calls c
      = (NewRateLimiter L W).admittedTimes (calls.filter (fun q => decide (q.2 = c))) c := by
  induction calls using List.reverseRecOn with
  | nil => rfl
  | append_singleton pre call ih =>
    obtain ⟨hpre, _⟩ := nonDecreasing_append pre call hs
    have hih := ih hpre
    obtain ⟨t, k⟩ := call
    rw [List.filter_append]
    by_cases hc : k = c
    · subst hc
      have hf : [(t, k)].filter (fun q => decide (q.2 = k)) = [(t, k)] := by simp
      rw [hf, admittedTimes_append, admittedTimes_append,
        IsAllowed_count L W pre t k hs,
        IsAllowed_count L W _ t k
          (nonDecreasing_filter_append pre (t, k) _ hs), ← hih]
    · have hf : [(t, k)].filter (fun q => decide (q.2 = c)) = [] := by simp [hc]
      rw [hf, List.append_nil, admittedTimes_append, hih]
      simp [hc]

theorem admitted_window (L : Int) (W : Duration) (c : String) (calls : List (Time × String))
    (hs : nonDecreasing calls) (T : Time) :
    ((((NewRateLimiter L W).admittedTimes calls c).filter
      (fun y => decide (T - W < y ∧ y ≤ T))).length : Int) ≤ max L 0 := by
  induction calls using List.reverseRecOn with
  | nil =>
    show (0 : Int) ≤ max L 0
    exact le_max_right _ _
  | append_singleton pre call ih =>
    obtain ⟨hpre, _⟩ := nonDecreasing_append pre call hs
    have hih := ih hpre
    obtain ⟨t, k⟩ := call
    rw [admittedTimes_append, List.filter_append, List.length_append]
    by_cases hin : (k = c ∧ (((NewRateLimiter L W).run pre).IsAllowed t k).2 = true) ∧
        (T - W < t ∧ t ≤ T)
    · obtain ⟨⟨hk, hres⟩, hlo, hhi⟩ := hin
      subst hk
      rw [IsAllowed_count L W pre t k hs] at hres
      have hcount := of_decide_eq_true hres
      have hmono := length_filter_le_of_imp ((NewRateLimiter L W).admittedTimes pre k)
        (fun y => decide (T - W < y ∧ y ≤ T)) (fun y => decide (y > t - W))
        (by
          intro y hy
          have hy2 := of_decide_eq_true hy
          apply decide_eq_true
          have h1 : t - W ≤ T - W := sub_le_sub_right hhi W
          exact lt_of_le_of_lt h1 hy2.1)
      have hone : ((if k = k ∧ (((NewRateLimiter L W).run pre).IsAllowed t k).2 = true
          then [t] else []).filter (fun y => decide (T - W < y ∧ y ≤ T))).length ≤ 1 := by
        split
        · exact (List.length_filter_le _ _).trans (by simp)
        · simp
      have hL : L ≤ max L 0 := le_max_left _ _
      push_cast
      omega
    · have hzero : ((if k = c ∧ (((NewRateLimiter L W).run pre).IsAllowed (t, k).1 (t, k).2).2
          = true then [(t, k).1] else []).filter
            (fun y => decide (T - W < y ∧ y ≤ T))).length = 0 := by
        by_cases h1 : k = c ∧ (((NewRateLimiter L W).run pre).IsAllowed t k).2 = true
        · have h2 : ¬ (T - W < t ∧ t ≤ T) := fun h => hin ⟨h1, h⟩
          have h3 : (if k = c ∧ (((NewRateLimiter L W).run pre).IsAllowed (t, k).1
              (t, k).2).2 = true then [(t, k).1] else []) = [t] := if_pos h1
          rw [h3, List.filter_cons_of_neg (by simpa using h2)]
          rfl
        · have h3 : (if k = c ∧ (((NewRateLimiter L W).run pre).IsAllowed (t, k).1
              (t, k).2).2 = true then [(t, k).1] else []) = [] := if_neg h1
          rw [h3]
          rfl
      rw [hzero]
      simpa using hih

/-- C27: on a limiter with limit `L` and window `W`, after any calls at non-decreasing
times, a call of client `c` at time `t` returns true exactly when fewer than `L` admitted
earlier calls of `c` have a time after `t - W`; the times kept are times of admitted calls;
the result is the one the client would get had no other client called; at most `max L 0`
admitted calls of the client lie in any window `(T - W, T]`; and with `L ≤ 0` the call is
rejected. -/
theorem IsAllowed_spec (L : Int) (W : Duration) (pre : List (Time × String)) (t : Time)
    (c : String) (hs : nonDecreasing (pre ++ [(t, c)])) :
    ((((NewRateLimiter L W).run pre).IsAllowed t c).2 = true ↔
        ((((NewRateLimiter L W).admittedTimes pre c).filter
          (fun y => decide (y > t - W))).length : Int) < L) ∧
      (∀ k x, x ∈ ((NewRateLimiter L W).run (pre ++ [(t, c)])).stored k →
        x ∈ (NewRateLimiter L W).admittedTimes (pre ++ [(t, c)]) k) ∧
      (((NewRateLimiter L W).run pre).IsAllowed t c).2
        = (((NewRateLimiter L W).run (pre.filter (fun q => decide (q.2 = c)))).IsAllowed
            t c).2 ∧
      (∀ T : Time, ((((NewRateLimiter L W).admittedTimes (pre ++ [(t, c)]) c).filter
        (fun y => decide (T - W < y ∧ y ≤ T))).length : Int) ≤ max L 0) ∧
      (L ≤ 0 → (((NewRateLimiter L W).run pre).IsAllowed t c).2 = false) := by
  have hcount := IsAllowed_count L W pre t c hs
  refine ⟨?_, ?_, ?_, ?_, ?_⟩
  · rw [hcount]
    exact decide_eq_true_iff
  · intro k x hx
    exact stored_admitted L W _ k x hx
  · rw [hcount, IsAllowed_count L W _ t c (nonDecreasing_filter_append pre (t, c) _ hs),
      ← admittedTimes_filter L W c pre (nonDecreasing_append pre (t, c) hs).1]
  · intro T
    exact admitted_window L W c _ hs T
  · intro hL
    rw [hcount]
    apply decide_eq_false
    have h0 : (0 : Int) ≤ ((((NewRateLimiter L W).admittedTimes pre c).filter
        (fun y => decide (y > t - W))).length : Int) := Int.natCast_nonneg _
    omega

/-- Witness of C27: limit two, window ten; the third call of `"a"` inside the window is
rejected. -/
theorem IsAllowed_spec_witness :
    nonDecreasing ([(1, "a"), (2, "a"), (3, "b")] ++ [(4, "a")]) ∧
      (((NewRateLimiter 2 10).run [(1, "a"), (2, "a"), (3, "b")]).IsAllowed 4 "a").2
        = (((NewRateLimiter 2 10).run
            ([(1, "a"), (2, "a"), (3, "b")].filter (fun q => decide (q.2 = "a")))).IsAllowed
              4 "a").2 ∧
      (((NewRateLimiter 2 10).run [(1, "a"), (2, "a"), (3, "b")]).IsAllowed 4 "a").2 = false :=
  ⟨by simp [nonDecreasing],
    (IsAllowed_spec 2 10 [(1, "a"), (2, "a"), (3, "b")] 4 "a" (by simp [nonDecreasing])).2.2.1,
    by decide⟩


theorem admitted_sublist (calls : List (Time × String)) (rl : RateLimiter) :
    (rl.admitted calls).Sublist calls := by
  induction calls generalizing rl with
  | nil => exact List.Sublist.slnil
  | cons x calls ih =>
    simp only [RateLimiter.admitted]
    split
    · exact List.Sublist.cons₂ _ (ih _)
    · exact List.Sublist.cons _ (ih _)

/-- With a window of zero every call is admitted when the limit is at least one: no earlier
call has a time after the time of the call. -/
theorem IsAllowed_zero_window (L : Int) (pre : List (Time × String)) (t : Time) (c : String)
    (hL : 1 ≤ L) (hs : nonDecreasing (pre ++ [(t, c)])) :
    (((NewRateLimiter L 0).run pre).IsAllowed t c).2 = true := by
  obtain ⟨_, hle⟩ := nonDecreasing_append pre (t, c) hs
  rw [IsAllowed_count L 0 pre t c hs]
  apply decide_eq_true
  have hnil : ((NewRateLimiter L 0).admittedTimes pre c).filter
      (fun y => decide (y > t - 0)) = [] := by
    apply List.filter_eq_nil_iff.2
    intro y hy
    obtain ⟨q, hq, hqy⟩ := List.mem_map.1 hy
    have hq2 := (admitted_sublist pre (NewRateLimiter L 0)).subset (List.mem_filter.1 hq).1
    have hle2 := hle q hq2
    rw [hqy] at hle2
    have hle3 : y ≤ t - 0 := by
      rw [sub_zero]
      exact hle2
    simpa using hle3
  rw [hnil]
  show (0 : Int) < L
  omega

/-- C28: `CreateRateLimiter` returns nil exactly when rate limiting is disabled; for an
enabled configuration with `RequestsPerMinute ≥ 1` it returns a limiter with limit
`BurstSize` and window `⌊60 / RequestsPerMinute⌋` seconds, which is zero as soon as
`RequestsPerMinute > 60`, and such a limiter admits every call when `BurstSize ≥ 1`; with
`RequestsPerMinute = 0` the division panics, and with any other value a limiter is
returned. -/
theorem CreateRateLimiter_spec (cfg : RateLimitConfig) :
    (CreateRateLimiter cfg = .done none ↔ cfg.Enabled = false) ∧
      (cfg.Enabled = true → 1 ≤ cfg.RequestsPerMinute →
        CreateRateLimiter cfg
          = .done (some (NewRateLimiter cfg.BurstSize
              (Int.fdiv 60 cfg.RequestsPerMinute * websocket.second)))) ∧
      (cfg.Enabled = true → 60 < cfg.RequestsPerMinute →
        CreateRateLimiter cfg = .done (some (NewRateLimiter cfg.BurstSize 0))) ∧
      (1 ≤ cfg.BurstSize → ∀ (pre : List (Time × String)) (t : Time) (c : String),
        nonDecreasing (pre ++ [(t, c)]) →
        (((NewRateLimiter cfg.BurstSize 0).run pre).IsAllowed t c).2 = true) ∧
      (cfg.Enabled = true → cfg.RequestsPerMinute = 0 → CreateRateLimiter cfg = .panics) ∧
      (cfg.Enabled = true → cfg.RequestsPerMinute ≠ 0 →
        ∃ rl, CreateRateLimiter cfg = .done (some rl)) := by
  refine ⟨?_, ?_, ?_, ?_, ?_, ?_⟩
  · cases he : cfg.Enabled with
    | false => simp [CreateRateLimiter, he]
    | true =>
      by_cases h0 : cfg.RequestsPerMinute = 0
      · simp [CreateRateLimiter, he, h0]
      · simp [CreateRateLimiter, he, h0]
  · intro he hr
    have h0 : cfg.RequestsPerMinute ≠ 0 := by omega
    have hdiv : Int.fdiv 60 cfg.RequestsPerMinute = Int.tdiv 60 cfg.RequestsPerMinute :=
      Int.fdiv_eq_tdiv (by decide) (by omega)
    simp [CreateRateLimiter, he, h0, hdiv]
  · intro he hr
    have h0 : cfg.RequestsPerMinute ≠ 0 := by omega
    have hdiv : Int.tdiv 60 cfg.RequestsPerMinute = 0 :=
      Int.tdiv_eq_zero_of_lt (by decide) hr
    simp [CreateRateLimiter, he, h0, hdiv]
  · intro hb pre t c hs
    exact IsAllowed_zero_window cfg.BurstSize pre t c hb hs
  · intro he h0
    simp [CreateRateLimiter, he, h0]
  · intro he h0
    exact ⟨NewRateLimiter cfg.BurstSize (Int.tdiv 60 cfg.RequestsPerMinute * websocket.second),
      by simp [CreateRateLimiter, he, h0]⟩

/-- Witness of C28: 120 requests per minute give a window of zero. -/
theorem CreateRateLimiter_spec_witness :
    ({ Enabled := true, RequestsPerMinute := 120, BurstSize := 10 } : RateLimitConfig).Enabled
        = true ∧
      (60 : Int) < ({ Enabled := true, RequestsPerMinute := 120, BurstSize := 10 } :
        RateLimitConfig).RequestsPerMinute ∧
      CreateRateLimiter { Enabled := true, RequestsPerMinute := 120, BurstSize := 10 }
        = .done (some (NewRateLimiter 10 0)) :=
  ⟨rfl, by decide,
    (CreateRateLimiter_spec { Enabled := true, RequestsPerMinute := 120, BurstSize := 10 }).2.2.1
      rfl (by decide)⟩


end Limiter

end middleware
